import Mathlib

/-!
# gosol: the rule engine of package sol

A shallow embedding of the legality predicates and card-moving scripts of
package sol (card.go, script.go, p_foundation.go, v_fortythieves.go,
v_simple simon.go), with the properties the specification states about them.

Conventions of the embedding.

* A Go result `(bool, error)` is a `Verdict`, a pair of the boolean and the
  optional error text; `(true, nil)` is `(true, none)`.
* A Go function that can stop with a run-time panic (index out of range,
  integer division by zero) returns `Option`, with `none` for the panic.
* The cards of a pile are a list, index 0 first; the top card of the pile is
  the last element, as `Peek` and `Push` of a Go slice-backed pile have it.
* Global state (`TheBaize`, `CardLibrary`) is passed explicitly.
-/

namespace Sol

/-! ## Cards -/

/-- Modelled from the spec: the type CardID is not among the sources. The spec
gives it as "(pack index, suit, ordinal 1–13)", and card.go adds "and bonus
prone flag bit". The fields are unsigned parts of one packed identifier. -/
structure CardID where
  pack : Nat
  suit : Nat
  ordinal : Nat
  prone : Bool
deriving DecidableEq, Repr

/-- Card of card.go, reduced to its identifier: the remaining fields (magic,
position, lerp, drag, flip and spin state) are presentation state that no
legality predicate reads, and the owner back-reference is passed explicitly
where a script asks for it. -/
structure Card where
  ID : CardID
deriving DecidableEq, Repr

/-- Modelled from the spec: NewCardID is not among the sources. It packs the
three parts; the prone bit is clear until NewCard sets it. -/
def NewCardID (pack suit ordinal : Nat) : CardID :=
  { pack := pack, suit := suit, ordinal := ordinal, prone := false }

/-- Modelled from the spec: accessor `Suit()` is not among the sources. The
suit part of the identifier, as a Go `int`. -/
def Card.Suit (c : Card) : Int := c.ID.suit

/-- Modelled from the spec: accessor `Ordinal()` is not among the sources. The
ordinal part of the identifier, as a Go `int`; it comes out of a few bits of
the identifier, so `Ordinal() + 1` and `Ordinal() - 1` never overflow. -/
def Card.Ordinal (c : Card) : Int := c.ID.ordinal

/-- Modelled from the spec: accessor `Prone()` is not among the sources. The
face-down flag. -/
def Card.Prone (c : Card) : Bool := c.ID.prone

/-- Modelled from the spec: setter `SetProne` is not among the sources. It sets
the face-down flag and nothing else. -/
def Card.SetProne (c : Card) (prone : Bool) : Card :=
  { c with ID := { c.ID with prone := prone } }

/-- Modelled from the spec: accessor `Black()` is not among the sources. The
spec says only that a suit "has a color (black/red) derived
deterministically"; which suits are black is not in the sources, so the colour
of a suit is the parameter `black`. -/
def Card.Black (black : Nat → Bool) (c : Card) : Bool := black c.ID.suit

/-- NewCard of card.go: a fresh card is created face down. -/
def NewCard (pack suit ordinal : Nat) : Card :=
  Card.SetProne { ID := NewCardID pack suit ordinal } true

/-! ## Verdicts -/

/-- The Go result `(bool, error)`. -/
abbrev Verdict := Bool × Option String

/-- A call that returned `true`. -/
def Succeeds (r : Option Verdict) : Prop := ∃ e, r = some (true, e)

instance (r : Option Verdict) : Decidable (Succeeds r) :=
  match r with
  | none => isFalse (by rintro ⟨e, h⟩; cases h)
  | some (false, _) => isFalse (by rintro ⟨e, h⟩; cases h)
  | some (true, e) => isTrue ⟨e, rfl⟩

/-- A comparator call that returned `true`. -/
def Verdict.Accepted (v : Verdict) : Prop := v.1 = true

instance (v : Verdict) : Decidable v.Accepted := by
  unfold Verdict.Accepted; infer_instance

/-! ## The comparator library of script.go -/

/-- CardPair of script.go. -/
structure CardPair where
  c1 : Card
  c2 : Card
deriving DecidableEq, Repr

/-- Method `CardPair.EitherProne`. -/
def CardPair.EitherProne (cp : CardPair) : Bool :=
  cp.c1.Prone || cp.c2.Prone

/-- The loop of NewCardPairs: `c1` is the previous card, the list the cards
from index `i` on. -/
def NewCardPairs.loop : Card → List Card → List CardPair
  | _, [] => []
  | c1, c2 :: rest => { c1 := c1, c2 := c2 } :: NewCardPairs.loop c2 rest

/-- NewCardPairs of script.go: the adjacent pairs of a slice of cards. -/
def NewCardPairs (cards : List Card) : List CardPair :=
  if cards.length < 2 then []
  else
    match cards with
    | [] => []
    | c1 :: rest => NewCardPairs.loop c1 rest

/-- Method `CardPair.Compare_Up`. -/
def CardPair.Compare_Up (cp : CardPair) : Verdict :=
  if cp.c1.Ordinal + 1 ≠ cp.c2.Ordinal then
    (false, some "Cards must be in ascending sequence")
  else (true, none)

/-- Method `CardPair.Compare_Down`. -/
def CardPair.Compare_Down (cp : CardPair) : Verdict :=
  if cp.c1.Ordinal ≠ cp.c2.Ordinal + 1 then
    (false, some "Cards must be in descending sequence")
  else (true, none)

/-- Method `CardPair.Compare_DownColor`. -/
def CardPair.Compare_DownColor (black : Nat → Bool) (cp : CardPair) : Verdict :=
  if cp.c1.Black black ≠ cp.c2.Black black then
    (false, some "Cards must be the same color")
  else cp.Compare_Down

/-- Method `CardPair.Compare_DownAltColor`. -/
def CardPair.Compare_DownAltColor (black : Nat → Bool) (cp : CardPair) : Verdict :=
  if cp.c1.Black black = cp.c2.Black black then
    (false, some "Cards must be in alternating colors")
  else cp.Compare_Down

/-- Method `CardPair.Compare_DownColorWrap`. -/
def CardPair.Compare_DownColorWrap (black : Nat → Bool) (cp : CardPair) : Verdict :=
  if cp.c1.Black black ≠ cp.c2.Black black then
    (false, some "Cards must be the same color")
  else if cp.c1.Ordinal = 1 ∧ cp.c2.Ordinal = 13 then
    (true, none)
  else if cp.c1.Ordinal ≠ cp.c2.Ordinal + 1 then
    (false, some "Cards must be in descending sequence (Kings on Aces allowed)")
  else (true, none)

/-- Method `CardPair.Compare_DownAltColorWrap`. -/
def CardPair.Compare_DownAltColorWrap (black : Nat → Bool) (cp : CardPair) : Verdict :=
  if cp.c1.Black black = cp.c2.Black black then
    (false, some "Cards must be in alternating colors")
  else if cp.c1.Ordinal = 1 ∧ cp.c2.Ordinal = 13 then
    (true, none)
  else if cp.c1.Ordinal ≠ cp.c2.Ordinal + 1 then
    (false, some "Cards must be in descending sequence (Kings on Aces allowed)")
  else (true, none)

/-- Method `CardPair.Compare_UpAltColor`. -/
def CardPair.Compare_UpAltColor (black : Nat → Bool) (cp : CardPair) : Verdict :=
  if cp.c1.Black black = cp.c2.Black black then
    (false, some "Cards must be in alternating colors")
  else cp.Compare_Up

/-- Method `CardPair.Compare_UpSuit`. -/
def CardPair.Compare_UpSuit (cp : CardPair) : Verdict :=
  if cp.c1.Suit ≠ cp.c2.Suit then
    (false, some "Cards must be the same suit")
  else cp.Compare_Up

/-- Method `CardPair.Compare_DownSuit`. -/
def CardPair.Compare_DownSuit (cp : CardPair) : Verdict :=
  if cp.c1.Suit ≠ cp.c2.Suit then
    (false, some "Cards must be the same suit")
  else cp.Compare_Down

/-- Method `CardPair.Compare_DownOtherSuit`. -/
def CardPair.Compare_DownOtherSuit (cp : CardPair) : Verdict :=
  if cp.c1.Suit = cp.c2.Suit then
    (false, some "Cards must not be the same suit")
  else cp.Compare_Down

/-- Method `CardPair.Compare_UpSuitWrap`. -/
def CardPair.Compare_UpSuitWrap (cp : CardPair) : Verdict :=
  if cp.c1.Suit ≠ cp.c2.Suit then
    (false, some "Cards must be the same suit")
  else if cp.c1.Ordinal = 13 ∧ cp.c2.Ordinal = 1 then
    (true, none)
  else if cp.c1.Ordinal = cp.c2.Ordinal - 1 then
    (true, none)
  else (false, some "Cards must go up in rank (Aces on Kings allowed)")

/-- Method `CardPair.Compare_DownSuitWrap`. -/
def CardPair.Compare_DownSuitWrap (cp : CardPair) : Verdict :=
  if cp.c1.Suit ≠ cp.c2.Suit then
    (false, some "Cards must be the same suit")
  else if cp.c1.Ordinal = 1 ∧ cp.c2.Ordinal = 13 then
    (true, none)
  else if cp.c1.Ordinal - 1 = cp.c2.Ordinal then
    (true, none)
  else (false, some "Cards must go down in rank (Kings on Aces allowed)")

/-! ## Piles -/

/-- Modelled from the spec: of the behaviour objects of a pile only Foundation
is among the sources. This is the dynamic type of the field `subtype` (called
`vtable` in p_foundation.go), over which the scripts switch. The spec lists the
kinds as Stock, Waste, Foundation, Tableau, Cell, Discard, Reserve; a Stock
object carries the `recycles` field that FortyThieves.StartGame writes. -/
inductive PileSubtype where
  | Stock (recycles : Int)
  | Waste
  | Foundation
  | Tableau
  | Cell
  | Discard
  | Reserve
deriving DecidableEq, Repr

/-- Modelled from the spec: the type Pile is not among the sources. "An ordered
sequence of Card references" with "a category/subtype tag", "an optional text
label" and a behaviour object. Slot, fan style and move policy are left out:
no function embedded here reads them. -/
structure Pile where
  category : String
  subtype : PileSubtype
  label : String
  cards : List Card
deriving DecidableEq, Repr

/-- Modelled from the spec: method `Len` of Pile is not among the sources. The
number of cards held. -/
def Pile.Len (p : Pile) : Nat := p.cards.length

/-- Modelled from the spec: method `Empty` of Pile is not among the sources.
No card is held. -/
def Pile.Empty (p : Pile) : Bool := p.cards.isEmpty

/-- Modelled from the spec: method `Peek` of Pile is not among the sources.
The top card, the last of the sequence; nil on an empty pile. -/
def Pile.Peek (p : Pile) : Option Card := p.cards.getLast?

/-- Modelled from the spec: method `Push` of Pile is not among the sources.
The card becomes the top card. -/
def Pile.Push (p : Pile) (c : Card) : Pile := { p with cards := p.cards ++ [c] }

/-- Modelled from the spec: method `Pop` of Pile is not among the sources. It
removes the top card and returns it with the remaining pile; nil on an empty
pile. -/
def Pile.Pop (p : Pile) : Option (Card × Pile) :=
  match p.cards.getLast? with
  | none => none
  | some c => some (c, { p with cards := p.cards.dropLast })

/-- Modelled from the spec: method `SetLabel` of Pile is not among the sources.
It replaces the text label. -/
def Pile.SetLabel (p : Pile) (label : String) : Pile := { p with label := label }

/-- Modelled from the spec: MoveCard is not among the sources. "Primitive
single-card relocation; asserts the moved card was at the top of src; updates
both piles": the top card of the source becomes the top card of the
destination. With no card to move there is no result. -/
def MoveCard (src dst : Pile) : Option (Pile × Pile) :=
  match src.Pop with
  | none => none
  | some (c, rest) => some (rest, dst.Push c)

/-- Modelled from the spec: AnyCardsProne is not among the sources; "a tail
containing any face-down card". -/
def AnyCardsProne (tail : List Card) : Bool := tail.any Card.Prone

/-! ## The script interface and the Foundation pile (p_foundation.go) -/

/-- The part of interface Scripter that Foundation reads: the append predicate
of the active variant and its list of foundations. -/
structure Scripter where
  TailAppendError : Pile → List Card → Option Verdict
  Foundations : List Pile

/-- NewFoundation of p_foundation.go: an empty pile of category "Foundation"
whose behaviour object is a Foundation. -/
def NewFoundation : Pile :=
  { category := "Foundation", subtype := PileSubtype.Foundation, label := "", cards := [] }

/-- Method `Foundation.Complete`. `script` is `TheBaize.script` and
`cardLibraryLen` is `len(CardLibrary)`; the integer division stops the program
when the variant has no foundation. -/
def Foundation.Complete (script : Scripter) (cardLibraryLen : Nat) (self : Pile) : Option Bool :=
  if script.Foundations.length = 0 then none
  else some (self.Len == cardLibraryLen / script.Foundations.length)

/-- Method `Foundation.CanAcceptTail`. -/
def Foundation.CanAcceptTail (script : Scripter) (cardLibraryLen : Nat) (self : Pile)
    (tail : List Card) : Option Verdict :=
  if tail.length > 1 then
    some (false, some "Cannot move more than one card to a Foundation")
  else if AnyCardsProne tail then
    some (false, some "Cannot add a face down card to a Foundation")
  else
    match Foundation.Complete script cardLibraryLen self with
    | none => none
    | some true => some (false, some "The Foundation is full")
    | some false => script.TailAppendError self tail

/-! ## Forty Thieves (v_fortythieves.go) -/

/-- The struct FortyThieves. The pile pointers are the piles themselves; the
pointer `waste` may be nil. -/
structure FortyThieves where
  foundations : List Pile
  tableaux : List Pile
  waste : Option Pile
  founds : List Int
  tabs : List Int
  cardsPerTab : Int
deriving Repr

/-- Method `FortyThieves.TailAppendError`. The receiver is unused. Reading
`tail[0]` of an empty tail stops the program. -/
def FortyThieves.TailAppendError (dst : Pile) (tail : List Card) : Option Verdict :=
  match dst.subtype with
  | PileSubtype.Stock _ => some (false, some "You cannot move cards to the Stock")
  | PileSubtype.Waste => some (false, some "You cannot move cards to the Waste")
  | PileSubtype.Foundation =>
    if dst.Empty then
      match tail.head? with
      | none => none
      | some c =>
        if c.Ordinal ≠ 1 then some (false, some "Empty Foundations can only accept an Ace")
        else some (true, none)
    else
      match dst.Peek, tail.head? with
      | some top, some c => some (CardPair.Compare_UpSuit { c1 := top, c2 := c })
      | _, _ => none
  | PileSubtype.Tableau =>
    if dst.Empty then some (true, none)
    else
      match dst.Peek, tail.head? with
      | some top, some c => some (CardPair.Compare_DownSuit { c1 := top, c2 := c })
      | _, _ => none
  | _ => some (true, none)

/-- Method `FortyThieves.Foundations`. -/
def FortyThieves.Foundations (ft : FortyThieves) : List Pile := ft.foundations

/-- FortyThieves as the active script of the baize. -/
def FortyThieves.asScripter (ft : FortyThieves) : Scripter :=
  { TailAppendError := FortyThieves.TailAppendError, Foundations := ft.Foundations }

/-- The inner loop of a deal: `n` calls of `MoveCard(stock, pile)`. -/
def dealCards : Nat → Pile → Pile → Option (Pile × Pile)
  | 0, stock, pile => some (stock, pile)
  | n + 1, stock, pile =>
    match MoveCard stock pile with
    | none => none
    | some (stock1, pile1) => dealCards n stock1 pile1

/-- The outer loop of FortyThieves.StartGame over `ft.tableaux`; the inner loop
`for i := 0; i < ft.cardsPerTab; i++` runs `cardsPerTab` times, and not at all
when `cardsPerTab` is negative. -/
def FortyThieves.StartGame.deal (cardsPerTab : Int) : Pile → List Pile → Option (Pile × List Pile)
  | stock, [] => some (stock, [])
  | stock, pile :: rest =>
    match dealCards cardsPerTab.toNat stock pile with
    | none => none
    | some (stock1, pile1) =>
      match FortyThieves.StartGame.deal cardsPerTab stock1 rest with
      | none => none
      | some (stock2, rest1) => some (stock2, pile1 :: rest1)

/-- The statement `s.recycles = 0` of FortyThieves.StartGame, executed when the
behaviour object of the stock is a Stock. -/
def resetStockRecycles (stock : Pile) : Pile :=
  match stock.subtype with
  | PileSubtype.Stock _ => { stock with subtype := PileSubtype.Stock 0 }
  | _ => stock

/-- Method `FortyThieves.StartGame`; `stock` is `TheBaize.stock`. The result is
the variant with its piles after the deal, and the stock. -/
def FortyThieves.StartGame (ft : FortyThieves) (stock : Pile) : Option (FortyThieves × Pile) :=
  match FortyThieves.StartGame.deal ft.cardsPerTab stock ft.tableaux with
  | none => none
  | some (stock1, tableaux1) =>
    match ft.waste with
    | none => none
    | some waste =>
      match MoveCard (resetStockRecycles stock1) waste with
      | none => none
      | some (stock2, waste1) =>
        some ({ ft with tableaux := tableaux1, waste := some waste1 }, stock2)

/-- Method `FortyThieves.AfterMove`; `stock` is `TheBaize.stock`. -/
def FortyThieves.AfterMove (ft : FortyThieves) (stock : Pile) : Option (FortyThieves × Pile) :=
  match ft.waste with
  | none => none
  | some waste =>
    if waste.Len = 0 ∧ stock.Len ≠ 0 then
      match MoveCard stock waste with
      | none => none
      | some (stock1, waste1) => some ({ ft with waste := some waste1 }, stock1)
    else some (ft, stock)

/-- Method `FortyThieves.TailTapped`; `stock` is `TheBaize.stock`, `owner` what
`Owner()` answers for a card, and `subtypeTailTapped` the method TailTapped of
the behaviour object of the owning pile, which is not among the sources. -/
def FortyThieves.TailTapped
    (subtypeTailTapped : Pile → List Card → FortyThieves × Pile → Option (FortyThieves × Pile))
    (owner : Card → Pile) (ft : FortyThieves) (stock : Pile) (tail : List Card) :
    Option (FortyThieves × Pile) :=
  match tail.head? with
  | none => none
  | some c =>
    let pile := owner c
    match pile.subtype with
    | PileSubtype.Stock _ =>
      if tail.length = 1 then
        match ft.waste with
        | none => none
        | some waste =>
          match MoveCard stock waste with
          | none => none
          | some (stock1, waste1) => some ({ ft with waste := some waste1 }, stock1)
      else subtypeTailTapped pile tail (ft, stock)
    | _ => subtypeTailTapped pile tail (ft, stock)

/-- Every card of a list of piles, pile after pile. -/
def pilesCards : List Pile → List Card
  | [] => []
  | p :: ps => p.cards ++ pilesCards ps

/-- The cards of an optional pile; a nil pointer holds none. -/
def optionPileCards : Option Pile → List Card
  | none => []
  | some p => p.cards

/-- Every card on a Forty Thieves board: the stock of the baize and the piles
the variant holds. -/
def FortyThieves.boardCards (ft : FortyThieves) (stock : Pile) : List Card :=
  stock.cards ++ optionPileCards ft.waste ++ pilesCards ft.foundations ++ pilesCards ft.tableaux

/-! ## Recycling the waste (script.go) -/

/-- What a call of RecycleWasteToStock leaves behind: the two piles, the
counter `TheBaize.recycles`, and the sound played and text toasted, if any. -/
structure RecycleOutcome where
  waste : Pile
  stock : Pile
  recycles : Int
  sound : Option String
  toast : Option String
deriving DecidableEq, Repr

/-- The loop `for waste.Len() > 0 { MoveCard(waste, stock) }`, with a bound on
the number of iterations; `none` when the bound is used up before the waste is
empty. -/
def RecycleWasteToStock.loop : Nat → Pile → Pile → Option (Pile × Pile)
  | 0, waste, stock => if waste.Len > 0 then none else some (waste, stock)
  | fuel + 1, waste, stock =>
    if waste.Len > 0 then
      match MoveCard waste stock with
      | none => none
      | some (waste1, stock1) => RecycleWasteToStock.loop fuel waste1 stock1
    else some (waste, stock)

/-- RecycleWasteToStock of script.go; `recycles` is the counter of the baize,
read by `TheBaize.Recycles()` and written by `TheBaize.SetRecycles`. The loop
is given as many iterations as the waste has cards. -/
def RecycleWasteToStock (recycles : Int) (waste stock : Pile) : Option RecycleOutcome :=
  if recycles > 0 then
    match RecycleWasteToStock.loop waste.Len waste stock with
    | none => none
    | some (waste1, stock1) =>
      let recycles1 := recycles - 1
      if recycles1 = 0 then
        some { waste := waste1, stock := stock1, recycles := recycles1,
               sound := some "Error", toast := some "No more recycles" }
      else if recycles1 = 1 then
        some { waste := waste1, stock := stock1, recycles := recycles1,
               sound := some "Bong", toast := some (toString recycles1 ++ " recycle remaining") }
      else if recycles1 < 10 then
        some { waste := waste1, stock := stock1, recycles := recycles1,
               sound := some "Bong", toast := some (toString recycles1 ++ " recycles remaining") }
      else
        some { waste := waste1, stock := stock1, recycles := recycles1,
               sound := none, toast := none }
  else
    some { waste := waste, stock := stock, recycles := recycles,
           sound := some "Error", toast := some "No more recycles" }

/-- A run of consecutive calls of RecycleWasteToStock. The counter is handed
from each call to the next; the waste and the stock each call meets are given
by the list, since play between two calls changes them. Each entry of the
result is the counter before the call and what the call left. -/
def recycleCalls : Int → List (Pile × Pile) → Option (List (Int × RecycleOutcome))
  | _, [] => some []
  | recycles, (waste, stock) :: rest =>
    match RecycleWasteToStock recycles waste stock with
    | none => none
    | some out =>
      match recycleCalls out.recycles rest with
      | none => none
      | some outs => some ((recycles, out) :: outs)

/-! ## Simple Simon (v_simple simon.go) -/

/-- The struct ScriptBase of script.go. The pointers `stock` and `waste` may be nil. -/
structure ScriptBase where
  cells : List Pile
  discards : List Pile
  foundations : List Pile
  reserves : List Pile
  stock : Option Pile
  tableaux : List Pile
  waste : Option Pile
deriving Repr

/-- The struct SimpleSimon, which embeds ScriptBase. -/
structure SimpleSimon extends ScriptBase where
  wikipedia : String
deriving Repr

/-- The body of both loops of SimpleSimon.StartGame: `pile := self.tableaux[i]`
followed by `n` calls of `MoveCard(self.stock, pile)`. An index outside the
list stops the program. -/
def SimpleSimon.StartGame.dealTo (self : SimpleSimon) (i n : Nat) : Option SimpleSimon :=
  match self.tableaux.get? i with
  | none => none
  | some pile =>
    match self.stock with
    | none => if n = 0 then some self else none
    | some stock =>
      match dealCards n stock pile with
      | none => none
      | some (stock1, pile1) =>
        some { self with stock := some stock1, tableaux := self.tableaux.set i pile1 }

/-- The first loop of SimpleSimon.StartGame, from index `i` for `count` piles:
8 cards to each. -/
def SimpleSimon.StartGame.first : Nat → Nat → SimpleSimon → Option SimpleSimon
  | 0, _, self => some self
  | count + 1, i, self =>
    match SimpleSimon.StartGame.dealTo self i 8 with
    | none => none
    | some self1 => SimpleSimon.StartGame.first count (i + 1) self1

/-- The second loop of SimpleSimon.StartGame, from index `i` for `count`
piles: `deal` cards to the pile, then `deal--`. The inner loop does nothing
once `deal` is not positive. -/
def SimpleSimon.StartGame.second : Nat → Nat → Int → SimpleSimon → Option SimpleSimon
  | 0, _, _, self => some self
  | count + 1, i, deal, self =>
    match SimpleSimon.StartGame.dealTo self i deal.toNat with
    | none => none
    | some self1 => SimpleSimon.StartGame.second count (i + 1) (deal - 1) self1

/-- Method `SimpleSimon.StartGame`: `for i := 0; i < 3; i++` with 8 cards each,
then `for i := 3; i < 10; i++` with 7 cards down to 1. The closing debug print
changes nothing. -/
def SimpleSimon.StartGame (self : SimpleSimon) : Option SimpleSimon :=
  match SimpleSimon.StartGame.first 3 0 self with
  | none => none
  | some self1 => SimpleSimon.StartGame.second 7 3 7 self1

/-- Every card on a Simple Simon board. -/
def SimpleSimon.boardCards (self : SimpleSimon) : List Card :=
  pilesCards self.cells ++ pilesCards self.discards ++ pilesCards self.foundations ++
    pilesCards self.reserves ++ optionPileCards self.stock ++ pilesCards self.tableaux ++
    optionPileCards self.waste

/-! ## Counting unsorted pairs and the label check (script.go) -/

/-- The loop of UnsortedPairs over the pairs, with the counter `unsorted`. -/
def UnsortedPairs.loop (fn : CardPair → Verdict) : Nat → List CardPair → Nat
  | unsorted, [] => unsorted
  | unsorted, pair :: rest =>
    if pair.EitherProne then UnsortedPairs.loop fn (unsorted + 1) rest
    else if (fn pair).1 = false then UnsortedPairs.loop fn (unsorted + 1) rest
    else UnsortedPairs.loop fn unsorted rest

/-- UnsortedPairs of script.go. The Go `int` counter only counts up from 0, so
it is a natural number. -/
def UnsortedPairs (pile : Pile) (fn : CardPair → Verdict) : Nat :=
  if pile.Len < 2 then 0
  else UnsortedPairs.loop fn 0 (NewCardPairs pile.cards)

/-- The loop of FortyThieves.UnsortedPairs over the pairs. -/
def FortyThieves.UnsortedPairs.loop : Nat → List CardPair → Nat
  | unsorted, [] => unsorted
  | unsorted, pair :: rest =>
    if pair.Compare_DownSuit.1 = false then FortyThieves.UnsortedPairs.loop (unsorted + 1) rest
    else FortyThieves.UnsortedPairs.loop unsorted rest

/-- Method `FortyThieves.UnsortedPairs`. -/
def FortyThieves.UnsortedPairs (pile : Pile) : Nat :=
  FortyThieves.UnsortedPairs.loop 0 (NewCardPairs pile.cards)

/-- Method `SimpleSimon.UnsortedPairs`. -/
def SimpleSimon.UnsortedPairs (pile : Pile) : Nat :=
  Sol.UnsortedPairs pile CardPair.Compare_DownSuit

/-- Modelled from the spec: util.OrdinalToShortString is not among the
sources. The short string of an ordinal, "A" for 1, then "2" to "10", "J", "Q"
and "K" for 13; an ordinal outside 1..13 has none. -/
def OrdinalToShortString (ord : Int) : Option String :=
  if ord = 1 then some "A"
  else if ord = 2 then some "2"
  else if ord = 3 then some "3"
  else if ord = 4 then some "4"
  else if ord = 5 then some "5"
  else if ord = 6 then some "6"
  else if ord = 7 then some "7"
  else if ord = 8 then some "8"
  else if ord = 9 then some "9"
  else if ord = 10 then some "10"
  else if ord = 11 then some "J"
  else if ord = 12 then some "Q"
  else if ord = 13 then some "K"
  else none

/-- Modelled from the spec: method `Label` of Pile is not among the sources.
The text label. -/
def Pile.Label (p : Pile) : String := p.label

/-- Compare_Empty of script.go. `long` is util.ShortOrdinalToLongOrdinal, which
is not among the sources and only words the reason. -/
def Compare_Empty (long : String → String) (p : Pile) (c : Card) : Option Verdict :=
  if p.Label ≠ "" then
    if p.Label = "x" then some (false, some "Cannot move cards there")
    else
      match OrdinalToShortString c.Ordinal with
      | none => none
      | some ord =>
        if ord ≠ p.Label then
          some (false, some ("Can only accept " ++ long p.Label ++ ", not " ++ long ord))
        else some (true, none)
  else some (true, none)

/-! ## Tail predicates of the two variants -/

/-- The loop `for _, pair := range pairs { if ok, err := fn(pair); !ok { return
false, err } }` followed by `return true, nil`. -/
def comparePairs (fn : CardPair → Verdict) : List CardPair → Verdict
  | [] => (true, none)
  | pair :: rest =>
    if (fn pair).1 = false then (false, (fn pair).2)
    else comparePairs fn rest

/-- Method `FortyThieves.TailMoveError`; `owner` is what `Owner()` answers for a
card. Reading `tail[0]` of an empty tail stops the program. -/
def FortyThieves.TailMoveError (owner : Card → Pile) (tail : List Card) : Option Verdict :=
  match tail.head? with
  | none => none
  | some c =>
    match (owner c).subtype with
    | PileSubtype.Tableau => some (comparePairs CardPair.Compare_DownSuit (NewCardPairs tail))
    | _ => some (true, none)

/-- Method `SimpleSimon.TailMoveError`; `owner` is what `Owner()` answers for a
card. -/
def SimpleSimon.TailMoveError (owner : Card → Pile) (tail : List Card) : Option Verdict :=
  match tail.head? with
  | none => none
  | some c =>
    if (owner c).category = "Tableau" then
      some (comparePairs CardPair.Compare_DownSuit (NewCardPairs tail))
    else some (true, none)

/-- Method `SimpleSimon.TailAppendError`. The receiver is unused. -/
def SimpleSimon.TailAppendError (dst : Pile) (tail : List Card) : Option Verdict :=
  if dst.category = "Discard" then
    match tail.head? with
    | none => none
    | some c =>
      if c.Ordinal ≠ 13 then some (false, some "Can only discard starting from a King")
      else some (comparePairs CardPair.Compare_DownSuit (NewCardPairs tail))
  else if dst.category = "Tableau" then
    if dst.Empty then some (true, none)
    else
      match dst.Peek, tail.head? with
      | some top, some c => some (CardPair.Compare_Down { c1 := top, c2 := c })
      | _, _ => none
  else some (true, none)

/-! ## Building the piles -/

/-- Modelled from the spec: NewTableau is not among the sources. After
NewFoundation of p_foundation.go: an empty pile of category "Tableau" whose
behaviour object is a Tableau. -/
def NewTableau : Pile :=
  { category := "Tableau", subtype := PileSubtype.Tableau, label := "", cards := [] }

/-- Modelled from the spec: NewDiscard is not among the sources. After
NewFoundation of p_foundation.go: an empty pile of category "Discard" whose
behaviour object is a Discard. -/
def NewDiscard : Pile :=
  { category := "Discard", subtype := PileSubtype.Discard, label := "", cards := [] }

/-- Modelled from the spec: NewWaste is not among the sources. After
NewFoundation of p_foundation.go: an empty pile of category "Waste" whose
behaviour object is a Waste. -/
def NewWaste : Pile :=
  { category := "Waste", subtype := PileSubtype.Waste, label := "", cards := [] }

/-- The first loop of FortyThieves.BuildPiles, over `ft.founds`: each turn
appends a new Foundation to `ft.foundations` and labels it "A". -/
def FortyThieves.BuildPiles.foundsLoop : List Int → List Pile → List Pile
  | [], foundations => foundations
  | _ :: rest, foundations =>
    FortyThieves.BuildPiles.foundsLoop rest (foundations ++ [NewFoundation.SetLabel "A"])

/-- The second loop of FortyThieves.BuildPiles, over `ft.tabs`: each turn
appends a new Tableau to `ft.tableaux`. -/
def FortyThieves.BuildPiles.tabsLoop : List Int → List Pile → List Pile
  | [], tableaux => tableaux
  | _ :: rest, tableaux => FortyThieves.BuildPiles.tabsLoop rest (tableaux ++ [NewTableau])

/-- Method `FortyThieves.BuildPiles`. The Stock and the Waste it creates are not
stored in the variant. -/
def FortyThieves.BuildPiles (ft : FortyThieves) : FortyThieves :=
  { ft with
    foundations := FortyThieves.BuildPiles.foundsLoop ft.founds ft.foundations,
    tableaux := FortyThieves.BuildPiles.tabsLoop ft.tabs ft.tableaux }

/-- A loop `for x := lo; x < hi; x++` that appends `pile` to a list each turn,
given as the number of turns left. -/
def appendPiles (pile : Pile) : Nat → List Pile → List Pile
  | 0, piles => piles
  | turns + 1, piles => appendPiles pile turns (piles ++ [pile])

/-- Method `SimpleSimon.BuildPiles`; `newStock` is the pile NewStock returns,
which is not among the sources. The discards are reset and built by the loop
`for x := 3; x < 7; x++`, the tableaux reset and built by `for x := 0; x < 10;
x++`. -/
def SimpleSimon.BuildPiles (newStock : Pile) (self : SimpleSimon) : SimpleSimon :=
  { self with
    stock := some newStock,
    discards := appendPiles NewDiscard (7 - 3) [],
    tableaux := appendPiles NewTableau (10 - 0) [] }

/-- SimpleSimon as the active script of the baize; its method Foundations is
the one of ScriptBase. -/
def SimpleSimon.asScripter (self : SimpleSimon) : Scripter :=
  { TailAppendError := SimpleSimon.TailAppendError, Foundations := self.foundations }

/-! ## Flipping a card (card.go) -/

/-- Method `Card.FlipUp`. Its assignments to `flipStep` and `flipWidth`, the
floating-point state of the flip animation, lie outside the fields of Card
kept here. -/
def Card.FlipUp (c : Card) : Card :=
  if c.Prone then c.SetProne false else c

/-- Method `Card.FlipDown`; the animation fields as for FlipUp. -/
def Card.FlipDown (c : Card) : Card :=
  if !c.Prone then c.SetProne true else c

/-- Method `Card.Flip`. -/
def Card.Flip (c : Card) : Card :=
  if c.Prone then c.FlipUp else c.FlipDown

/-- Method `Card.SetFlip`. -/
def Card.SetFlip (c : Card) (prone : Bool) : Card :=
  if prone then c.FlipDown else c.FlipUp

/-! ## The variant registry (script.go) -/

/-- The keys of the map literal Variants of script.go, in the order of the source
text. The values, one script object per name, are not read by any property
here. -/
def Variants : List String :=
  ["Agnes Bernauer", "American Toad", "Australian", "Baker's Dozen", "Baker's Game",
   "Blind Freecell", "Blockade", "Canfield", "Storehouse", "Duchess", "Klondike",
   "Klondike Draw Three", "Thoughtful", "Easy", "Eight Off", "Freecell", "Forty Thieves",
   "Josephine", "Rank and File", "Indian", "Streets", "Number Ten", "Limited",
   "Forty and Eight", "Red and Black", "Lucas", "Busy Aces", "Maria", "Sixty Thieves",
   "Penguin", "Scorpion", "Simple Simon", "Spider One Suit", "Spider Two Suits",
   "Spider Four Suits", "Classic Westcliff", "American Westcliff", "Easthaven", "Whitehead",
   "Usk", "Yukon", "Yukon Cells"]

/-- A Go map from names to lists of names, as its key and value pairs; a map
holds each key once. -/
abbrev NameMap := List (String × List String)

/-- The map literal VariantGroups of script.go, as key and value pairs in the
order of the source text. -/
def VariantGroups : NameMap :=
  [("> Canfield",
      ["Canfield", "Storehouse", "Duchess", "American Toad"]),
   ("> Easier",
      ["American Toad", "American Westcliff", "Blockade", "Classic Westcliff", "Lucas",
       "Spider One Suit"]),
   ("> Harder",
      ["Baker's Dozen", "Easthaven", "Forty Thieves", "Spider Four Suits", "Usk"]),
   ("> Forty Thieves",
      ["Forty Thieves", "Number Ten", "Red and Black", "Indian", "Rank and File",
       "Sixty Thieves", "Josephine", "Limited", "Forty and Eight", "Lucas", "Busy Aces",
       "Maria", "Streets"]),
   ("> Freecell",
      ["Baker's Game", "Blind Freecell", "Freecell", "Eight Off"]),
   ("> Klondike",
      ["Klondike", "Klondike Draw Three", "Thoughtful", "Whitehead"]),
   ("> People",
      ["Agnes Bernauer", "Duchess", "Josephine", "Maria", "Simple Simon", "Baker's Game"]),
   ("> Places",
      ["Australian", "Yukon", "Klondike", "Usk"]),
   ("> Puzzlers",
      ["Penguin", "Simple Simon", "Baker's Dozen", "Freecell"]),
   ("> Spider",
      ["Spider One Suit", "Spider Two Suits", "Spider Four Suits", "Scorpion"]),
   ("> Yukon",
      ["Yukon", "Yukon Cells"])]

/-- The keys of a map. -/
def NameMap.keys (m : NameMap) : List String := m.map Prod.fst

/-- The map read `m[key]`: the value stored under the key, and the nil slice
when the key is absent. -/
def NameMap.get (m : NameMap) (key : String) : List String :=
  match m with
  | [] => []
  | (k, v) :: rest => if k = key then v else NameMap.get rest key

/-- The map write `m[key] = value`: replaces the value of a key already
present, and adds the key otherwise. -/
def NameMap.set (m : NameMap) (key : String) (value : List String) : NameMap :=
  match m with
  | [] => [(key, value)]
  | (k, v) :: rest => if k = key then (key, value) :: rest else (k, v) :: NameMap.set rest key value

/-- The call `sort.Slice(vnames, func(i, j int) bool { return vnames[i] <
vnames[j] })` of the Go library: the slice is put in ascending order of its
strings. The order on strings is total, so the outcome does not depend on the
sorting method; Go compares strings byte by byte, which on UTF-8 text is the
order of their characters. -/
def sortNames (vnames : List String) : List String :=
  vnames.insertionSort (fun a b => a ≤ b)

/-- The function init of script.go. `order` is the sequence of keys that the
loop `for k := range Variants` yields, in the order the run time picks;
`groups` is VariantGroups before the call and the result VariantGroups after
it. -/
def init (order : List String) (groups : NameMap) : NameMap :=
  groups.set "> All" (sortNames order)

/-- VariantGroupNames of script.go. `order` is the sequence of keys that the
loop `for k := range VariantGroups` yields, in the order the run time picks. -/
def VariantGroupNames (order : List String) : List String :=
  sortNames order

/-- VariantNames of script.go; `groups` is VariantGroups. The names are copied
into a fresh slice (`make` with the full capacity, then `append`) and the copy
is sorted, so the map is handed back as it was found: the result is the
sorted copy and the map after the call. -/
def VariantNames (groups : NameMap) (group : String) : List String × NameMap :=
  (sortNames ([] ++ groups.get group), groups)

/-! ## Notions used in the statements -/

/-- The foundations a game can reach: an empty Foundation pile, and every pile
obtained from a reachable one by appending a tail that
Foundation.CanAcceptTail accepted. -/
inductive FoundationReachable (script : Scripter) (cardLibraryLen : Nat) : Pile → Prop where
  | empty (f : Pile) : f.subtype = PileSubtype.Foundation → f.cards = [] →
      FoundationReachable script cardLibraryLen f
  | accept (f : Pile) (tail : List Card) : FoundationReachable script cardLibraryLen f →
      Succeeds (Foundation.CanAcceptTail script cardLibraryLen f tail) →
      FoundationReachable script cardLibraryLen { f with cards := f.cards ++ tail }

/-- A face-up card, as it lies on the board after `FlipUp`. -/
def faceUpCard (pack suit ordinal : Nat) : Card :=
  (NewCard pack suit ordinal).SetProne false

/-- The catalog entry "Forty Thieves" of script.go with its eight foundations
and ten tableaux built and a waste in place. -/
def fortyThievesGame : FortyThieves :=
  { foundations := List.replicate 8 (NewFoundation.SetLabel "A"),
    tableaux := List.replicate 10
      { category := "Tableau", subtype := PileSubtype.Tableau, label := "", cards := [] },
    waste := some { category := "Waste", subtype := PileSubtype.Waste, label := "", cards := [] },
    founds := [3, 4, 5, 6, 7, 8, 9, 10],
    tabs := [1, 2, 3, 4, 5, 6, 7, 8, 9, 10],
    cardsPerTab := 4 }

/-- A foundation holding the thirteen cards of suit 1 of pack 0, Ace first. -/
def fullSuitFoundation : Pile :=
  { NewFoundation with cards := (List.range 13).map (fun i => faceUpCard 0 1 (i + 1)) }

/-- Whether a call of a run of recycles spent a recycle: the counter it left
is one less than the counter it met. -/
def spentRecycle (call : Int × RecycleOutcome) : Bool :=
  decide (call.2.recycles = call.1 - 1)

/-- A waste of two face-up cards, the 9 of suit 2 on top. -/
def exampleWaste : Pile :=
  { category := "Waste", subtype := PileSubtype.Waste, label := "",
    cards := [faceUpCard 0 1 5, faceUpCard 0 2 9] }

/-- A stock of one face-down card. -/
def exampleStock : Pile :=
  { category := "Stock", subtype := PileSubtype.Stock 0, label := "",
    cards := [NewCard 1 3 12] }

/-- Two lists of cards hold the same cards: the same multiset, hence the same
number of cards. -/
def SameCards (after before : List Card) : Prop :=
  (after : Multiset Card) = (before : Multiset Card) ∧ after.length = before.length

/-- A stock holding `packs` packs of 52 face-down cards, four suits of
thirteen ordinals each. -/
def fullStock (packs : Nat) : Pile :=
  { category := "Stock", subtype := PileSubtype.Stock 0, label := "",
    cards := (List.range (packs * 52)).map
      (fun i => NewCard (i / 52) (i / 13 % 4 + 1) (i % 13 + 1)) }

/-- The catalog entry "Simple Simon" with its four discards and ten tableaux
built and a stock of one pack. -/
def simpleSimonGame : SimpleSimon :=
  { cells := [],
    discards := List.replicate 4
      { category := "Discard", subtype := PileSubtype.Discard, label := "", cards := [] },
    foundations := [],
    reserves := [],
    stock := some (fullStock 1),
    tableaux := List.replicate 10
      { category := "Tableau", subtype := PileSubtype.Tableau, label := "", cards := [] },
    waste := none,
    wikipedia := "https://en.wikipedia.org/wiki/Simple_Simon_(solitaire)" }

/-- Whether the adjacent pair at indices `i`, `i + 1` of a pile counts as
unsorted in the words of the specification: one of the two cards is face down
or the comparator fails on the pair. -/
def pairUnsortedAt (fn : CardPair → Verdict) (cards : List Card) (i : Nat) : Bool :=
  match cards[i]?, cards[i + 1]? with
  | some c1, some c2 => c1.Prone || c2.Prone || !(fn { c1 := c1, c2 := c2 }).1
  | _, _ => false

/-- The reference count of the specification: the number of indices `i` with
`0 <= i < len - 1` whose adjacent pair counts as unsorted. -/
def unsortedPairsByIndex (cards : List Card) (fn : CardPair → Verdict) : Nat :=
  ((List.range (cards.length - 1)).filter (pairUnsortedAt fn cards)).length

/-- A tableau of two face-down cards that are a descending same-suit step:
the King of suit 4 and on it the Queen of suit 4. -/
def faceDownStep : Pile :=
  { category := "Tableau", subtype := PileSubtype.Tableau, label := "",
    cards := [NewCard 0 4 13, NewCard 0 4 12] }

/-- A tail is internally legal for a comparator: every adjacent pair that
NewCardPairs makes of it passes. -/
def TailLegal (fn : CardPair → Verdict) (tail : List Card) : Prop :=
  ∀ cp ∈ NewCardPairs tail, (fn cp).Accepted

instance (fn : CardPair → Verdict) (tail : List Card) : Decidable (TailLegal fn tail) := by
  unfold TailLegal; infer_instance

/-- A colouring of the suits in which suits 1 and 4 (clubs and spades) are
black and the others red. -/
def clubsSpadesBlack (suit : Nat) : Bool := suit == 1 || suit == 4

/-- A tableau holding the face-up 9 of suit 2. -/
def nineTableau : Pile :=
  { NewTableau with cards := [faceUpCard 0 2 9] }

/-- A discard pile, as SimpleSimon.BuildPiles makes it. -/
def emptyDiscard : Pile := NewDiscard

/-- The thirteen face-up cards of suit 1 of pack 0 from the King down to the
Ace. -/
def kingDownRun : List Card :=
  (List.range 13).map (fun i => faceUpCard 0 1 (13 - i))

/-- A result is well formed: `(true, nil)` or `(false, err)` with a non-nil
error. -/
def Verdict.WellFormed (v : Verdict) : Prop :=
  (v.1 = true ∧ v.2 = none) ∨ (v.1 = false ∧ v.2 ≠ none)

/-- The catalog entry "Forty Thieves" of script.go as the program starts: no
pile built yet. -/
def fortyThievesEntry : FortyThieves :=
  { foundations := [], tableaux := [], waste := none,
    founds := [3, 4, 5, 6, 7, 8, 9, 10],
    tabs := [1, 2, 3, 4, 5, 6, 7, 8, 9, 10],
    cardsPerTab := 4 }

/-- A cell holding one face-up card, with no label. -/
def exampleCell : Pile :=
  { category := "Cell", subtype := PileSubtype.Cell, label := "", cards := [faceUpCard 0 3 6] }

/-- The sizes of the piles a Simple Simon deal touches: the number of cards in
the stock, if there is one, and in each tableau in turn. -/
def SimpleSimon.sizes (self : SimpleSimon) : Option Nat × List Nat :=
  (self.stock.map Pile.Len, self.tableaux.map Pile.Len)

/-! ## Properties of the comparator library -/

theorem Compare_Up_accepted (cp : CardPair) :
    cp.Compare_Up.Accepted ↔ cp.c1.Ordinal + 1 = cp.c2.Ordinal := by
  unfold CardPair.Compare_Up Verdict.Accepted
  by_cases h : cp.c1.Ordinal + 1 = cp.c2.Ordinal <;> simp [h]

theorem Compare_Down_accepted (cp : CardPair) :
    cp.Compare_Down.Accepted ↔ cp.c1.Ordinal = cp.c2.Ordinal + 1 := by
  unfold CardPair.Compare_Down Verdict.Accepted
  by_cases h : cp.c1.Ordinal = cp.c2.Ordinal + 1 <;> simp [h]

theorem Compare_UpSuit_accepted (cp : CardPair) :
    cp.Compare_UpSuit.Accepted ↔ cp.c1.Suit = cp.c2.Suit ∧ cp.c1.Ordinal + 1 = cp.c2.Ordinal := by
  unfold CardPair.Compare_UpSuit
  by_cases h : cp.c1.Suit = cp.c2.Suit
  · simp [h, Compare_Up_accepted]
  · simp [h, Verdict.Accepted]

theorem Compare_DownSuit_accepted (cp : CardPair) :
    cp.Compare_DownSuit.Accepted ↔ cp.c1.Suit = cp.c2.Suit ∧ cp.c1.Ordinal = cp.c2.Ordinal + 1 := by
  unfold CardPair.Compare_DownSuit
  by_cases h : cp.c1.Suit = cp.c2.Suit
  · simp [h, Compare_Down_accepted]
  · simp [h, Verdict.Accepted]

theorem color_comparators_accepted (black : Nat → Bool) (cp : CardPair) :
    ((cp.Compare_DownColor black).Accepted ↔
        cp.Compare_Down.Accepted ∧ cp.c1.Black black = cp.c2.Black black) ∧
    ((cp.Compare_DownAltColor black).Accepted ↔
        cp.Compare_Down.Accepted ∧ cp.c1.Black black ≠ cp.c2.Black black) := by
  constructor
  · unfold CardPair.Compare_DownColor
    by_cases h : cp.c1.Black black = cp.c2.Black black <;> simp [h, Verdict.Accepted]
  · unfold CardPair.Compare_DownAltColor
    by_cases h : cp.c1.Black black = cp.c2.Black black <;> simp [h, Verdict.Accepted]

/-- C7. Comparator symmetry: for every two cards a and b (whatever their
ordinals and suits, so in particular for all ordinals 1..13), Compare_Down on
the pair (a, b) succeeds iff Compare_Up on the pair (b, a) succeeds; Compare_Up
succeeds exactly when the second ordinal is the first plus one, and
Compare_Down exactly when the first ordinal is the second plus one. -/
theorem comparator_symmetry (a b : Card) :
    ((CardPair.Compare_Down { c1 := a, c2 := b }).Accepted ↔
        (CardPair.Compare_Up { c1 := b, c2 := a }).Accepted) ∧
    ((CardPair.Compare_Up { c1 := a, c2 := b }).Accepted ↔ b.Ordinal = a.Ordinal + 1) ∧
    ((CardPair.Compare_Down { c1 := a, c2 := b }).Accepted ↔ a.Ordinal = b.Ordinal + 1) := by
  refine ⟨?_, ?_, ?_⟩
  · rw [Compare_Down_accepted, Compare_Up_accepted]
    exact ⟨fun h => h.symm, fun h => h.symm⟩
  · rw [Compare_Up_accepted]
    exact ⟨fun h => h.symm, fun h => h.symm⟩
  · rw [Compare_Down_accepted]

/-- C8. Wrap exception: for an Ace and a King of one suit, Compare_DownSuitWrap
on the pair (Ace, King) succeeds while Compare_DownSuit on the same pair fails. -/
theorem wrap_exception_ace_king (ace king : Card) (hace : ace.Ordinal = 1)
    (hking : king.Ordinal = 13) (hsuit : ace.Suit = king.Suit) :
    (CardPair.Compare_DownSuitWrap { c1 := ace, c2 := king }).Accepted ∧
    ¬ (CardPair.Compare_DownSuit { c1 := ace, c2 := king }).Accepted := by
  constructor
  · simp [CardPair.Compare_DownSuitWrap, Verdict.Accepted, hace, hking, hsuit]
  · rw [Compare_DownSuit_accepted]
    simp [hace, hking]

theorem wrap_exception_ace_king_witness :
    (CardPair.Compare_DownSuitWrap
        { c1 := { ID := { pack := 0, suit := 2, ordinal := 1, prone := false } },
          c2 := { ID := { pack := 1, suit := 2, ordinal := 13, prone := false } } }).Accepted ∧
    ¬ (CardPair.Compare_DownSuit
        { c1 := { ID := { pack := 0, suit := 2, ordinal := 1, prone := false } },
          c2 := { ID := { pack := 1, suit := 2, ordinal := 13, prone := false } } }).Accepted :=
  wrap_exception_ace_king
    { ID := { pack := 0, suit := 2, ordinal := 1, prone := false } }
    { ID := { pack := 1, suit := 2, ordinal := 13, prone := false } }
    (by decide) (by decide) (by decide)

/-- C9. Non-wrap comparator family: for every pair of cards (and every
colouring of the suits), each of Compare_DownColor, Compare_DownAltColor,
Compare_UpAltColor, Compare_UpSuit, Compare_DownSuit and Compare_DownOtherSuit
succeeds exactly when its base comparator (Compare_Down or Compare_Up)
succeeds and the named relation holds between the two cards: same colour,
different colour, same suit, different suit. -/
theorem plain_comparator_family (black : Nat → Bool) (cp : CardPair) :
    ((cp.Compare_DownColor black).Accepted ↔
        cp.Compare_Down.Accepted ∧ cp.c1.Black black = cp.c2.Black black) ∧
    ((cp.Compare_DownAltColor black).Accepted ↔
        cp.Compare_Down.Accepted ∧ cp.c1.Black black ≠ cp.c2.Black black) ∧
    ((cp.Compare_UpAltColor black).Accepted ↔
        cp.Compare_Up.Accepted ∧ cp.c1.Black black ≠ cp.c2.Black black) ∧
    (cp.Compare_UpSuit.Accepted ↔ cp.Compare_Up.Accepted ∧ cp.c1.Suit = cp.c2.Suit) ∧
    (cp.Compare_DownSuit.Accepted ↔ cp.Compare_Down.Accepted ∧ cp.c1.Suit = cp.c2.Suit) ∧
    (cp.Compare_DownOtherSuit.Accepted ↔ cp.Compare_Down.Accepted ∧ cp.c1.Suit ≠ cp.c2.Suit) := by
  refine ⟨?_, ?_, ?_, ?_, ?_, ?_⟩
  · unfold CardPair.Compare_DownColor
    by_cases h : cp.c1.Black black = cp.c2.Black black <;> simp [h, Verdict.Accepted]
  · unfold CardPair.Compare_DownAltColor
    by_cases h : cp.c1.Black black = cp.c2.Black black <;> simp [h, Verdict.Accepted]
  · unfold CardPair.Compare_UpAltColor
    by_cases h : cp.c1.Black black = cp.c2.Black black <;> simp [h, Verdict.Accepted]
  · unfold CardPair.Compare_UpSuit
    by_cases h : cp.c1.Suit = cp.c2.Suit <;> simp [h, Verdict.Accepted]
  · unfold CardPair.Compare_DownSuit
    by_cases h : cp.c1.Suit = cp.c2.Suit <;> simp [h, Verdict.Accepted]
  · unfold CardPair.Compare_DownOtherSuit
    by_cases h : cp.c1.Suit = cp.c2.Suit <;> simp [h, Verdict.Accepted]

/-- C10. Wrap comparator family: for every pair of cards (whatever the
ordinals, so in particular for ordinals in 1..13), Compare_DownSuitWrap,
Compare_DownColorWrap and Compare_DownAltColorWrap succeed iff the suit or
colour relation of their non-wrap counterpart holds and the first ordinal is
the second plus one or the first card is an Ace and the second a King;
Compare_UpSuitWrap succeeds iff the suits are equal and the first ordinal plus
one is the second or the first card is a King and the second an Ace. Hence
every pair accepted by Compare_DownSuit, Compare_DownColor,
Compare_DownAltColor or Compare_UpSuit is accepted by the Wrap variant. -/
theorem wrap_comparator_family (black : Nat → Bool) (cp : CardPair) :
    (cp.Compare_DownSuitWrap.Accepted ↔
        cp.c1.Suit = cp.c2.Suit ∧
          (cp.c1.Ordinal = cp.c2.Ordinal + 1 ∨ (cp.c1.Ordinal = 1 ∧ cp.c2.Ordinal = 13))) ∧
    ((cp.Compare_DownColorWrap black).Accepted ↔
        cp.c1.Black black = cp.c2.Black black ∧
          (cp.c1.Ordinal = cp.c2.Ordinal + 1 ∨ (cp.c1.Ordinal = 1 ∧ cp.c2.Ordinal = 13))) ∧
    ((cp.Compare_DownAltColorWrap black).Accepted ↔
        cp.c1.Black black ≠ cp.c2.Black black ∧
          (cp.c1.Ordinal = cp.c2.Ordinal + 1 ∨ (cp.c1.Ordinal = 1 ∧ cp.c2.Ordinal = 13))) ∧
    (cp.Compare_UpSuitWrap.Accepted ↔
        cp.c1.Suit = cp.c2.Suit ∧
          (cp.c1.Ordinal + 1 = cp.c2.Ordinal ∨ (cp.c1.Ordinal = 13 ∧ cp.c2.Ordinal = 1))) ∧
    (cp.Compare_DownSuit.Accepted → cp.Compare_DownSuitWrap.Accepted) ∧
    ((cp.Compare_DownColor black).Accepted → (cp.Compare_DownColorWrap black).Accepted) ∧
    ((cp.Compare_DownAltColor black).Accepted → (cp.Compare_DownAltColorWrap black).Accepted) ∧
    (cp.Compare_UpSuit.Accepted → cp.Compare_UpSuitWrap.Accepted) := by
  have hds : cp.Compare_DownSuitWrap.Accepted ↔
      cp.c1.Suit = cp.c2.Suit ∧
        (cp.c1.Ordinal = cp.c2.Ordinal + 1 ∨ (cp.c1.Ordinal = 1 ∧ cp.c2.Ordinal = 13)) := by
    unfold CardPair.Compare_DownSuitWrap Verdict.Accepted
    by_cases hs : cp.c1.Suit = cp.c2.Suit
    · by_cases hw : cp.c1.Ordinal = 1 ∧ cp.c2.Ordinal = 13
      · simp [hs, hw]
      · by_cases hd : cp.c1.Ordinal - 1 = cp.c2.Ordinal
        · have : cp.c1.Ordinal = cp.c2.Ordinal + 1 := by omega
          simp [hs, hw, hd, this]
        · have : ¬ cp.c1.Ordinal = cp.c2.Ordinal + 1 := by omega
          simp [hs, hw, hd, this]
    · simp [hs]
  have hdc : (cp.Compare_DownColorWrap black).Accepted ↔
      cp.c1.Black black = cp.c2.Black black ∧
        (cp.c1.Ordinal = cp.c2.Ordinal + 1 ∨ (cp.c1.Ordinal = 1 ∧ cp.c2.Ordinal = 13)) := by
    unfold CardPair.Compare_DownColorWrap Verdict.Accepted
    by_cases hs : cp.c1.Black black = cp.c2.Black black
    · by_cases hw : cp.c1.Ordinal = 1 ∧ cp.c2.Ordinal = 13
      · simp [hs, hw]
      · by_cases hd : cp.c1.Ordinal = cp.c2.Ordinal + 1 <;> simp [hs, hw, hd]
    · simp [hs]
  have hda : (cp.Compare_DownAltColorWrap black).Accepted ↔
      cp.c1.Black black ≠ cp.c2.Black black ∧
        (cp.c1.Ordinal = cp.c2.Ordinal + 1 ∨ (cp.c1.Ordinal = 1 ∧ cp.c2.Ordinal = 13)) := by
    unfold CardPair.Compare_DownAltColorWrap Verdict.Accepted
    by_cases hs : cp.c1.Black black = cp.c2.Black black
    · simp [hs]
    · by_cases hw : cp.c1.Ordinal = 1 ∧ cp.c2.Ordinal = 13
      · simp [hs, hw]
      · by_cases hd : cp.c1.Ordinal = cp.c2.Ordinal + 1 <;> simp [hs, hw, hd]
  have hus : cp.Compare_UpSuitWrap.Accepted ↔
      cp.c1.Suit = cp.c2.Suit ∧
        (cp.c1.Ordinal + 1 = cp.c2.Ordinal ∨ (cp.c1.Ordinal = 13 ∧ cp.c2.Ordinal = 1)) := by
    unfold CardPair.Compare_UpSuitWrap Verdict.Accepted
    by_cases hs : cp.c1.Suit = cp.c2.Suit
    · by_cases hw : cp.c1.Ordinal = 13 ∧ cp.c2.Ordinal = 1
      · simp [hs, hw]
      · by_cases hd : cp.c1.Ordinal = cp.c2.Ordinal - 1
        · have : cp.c1.Ordinal + 1 = cp.c2.Ordinal := by omega
          simp [hs, hw, hd, this]
        · have : ¬ cp.c1.Ordinal + 1 = cp.c2.Ordinal := by omega
          simp [hs, hw, hd, this]
    · simp [hs]
  refine ⟨hds, hdc, hda, hus, ?_, ?_, ?_, ?_⟩
  · intro h
    rw [Compare_DownSuit_accepted] at h
    exact hds.mpr ⟨h.1, Or.inl h.2⟩
  · intro h
    have h1 := ((color_comparators_accepted black cp).1).mp h
    exact hdc.mpr ⟨h1.2, Or.inl ((Compare_Down_accepted cp).mp h1.1)⟩
  · intro h
    have h1 := ((color_comparators_accepted black cp).2).mp h
    exact hda.mpr ⟨h1.2, Or.inl ((Compare_Down_accepted cp).mp h1.1)⟩
  · intro h
    rw [Compare_UpSuit_accepted] at h
    exact hus.mpr ⟨h.1, Or.inl h.2⟩

/-! ## Properties of the Foundation pile -/

theorem succeeds_some_iff (v : Verdict) : Succeeds (some v) ↔ v.Accepted := by
  obtain ⟨b, e⟩ := v
  constructor
  · rintro ⟨e1, h⟩
    cases h
    rfl
  · intro h
    cases b
    · cases h
    · exact ⟨e, rfl⟩

theorem not_succeeds_none : ¬ Succeeds (none : Option Verdict) := by
  rintro ⟨e, h⟩
  cases h

theorem not_succeeds_false (e : Option String) : ¬ Succeeds (some (false, e)) := by
  rintro ⟨e1, h⟩
  cases h

theorem anyCardsProne_eq_false (tail : List Card) :
    AnyCardsProne tail = false ↔ ∀ c ∈ tail, c.Prone = false := by
  simp [AnyCardsProne]

/-- What Foundation.CanAcceptTail returns once its own three checks pass. -/
theorem canAcceptTail_of_checks (script : Scripter) (lib : Nat) (f : Pile) (tail : List Card)
    (hlen : tail.length ≤ 1) (hup : AnyCardsProne tail = false)
    (hc : Foundation.Complete script lib f = some false) :
    Foundation.CanAcceptTail script lib f tail = script.TailAppendError f tail := by
  unfold Foundation.CanAcceptTail
  have h1 : ¬ tail.length > 1 := by omega
  simp [h1, hup, hc]

/-- C3. Foundation.CanAcceptTail gate: for every non-empty tail, CanAcceptTail
succeeds iff the tail has exactly one card, no card of the tail is face down,
the foundation is not Complete, and TailAppendError of the active variant
succeeds. The checks are applied in that order: a tail of more than one card
gets the more-than-one-card reason whatever else holds; a one-card face-down
tail gets the face-down reason whether or not the foundation is full; a
face-up card on a full foundation gets the full reason; the variant is
consulted only when the three checks pass, in that the answer is then the
answer of the variant and is otherwise the same for every variant with the
same foundations. -/
theorem foundation_canAcceptTail_gate (script : Scripter) (lib : Nat) (f : Pile)
    (tail : List Card) (hne : tail ≠ []) :
    (Succeeds (Foundation.CanAcceptTail script lib f tail) ↔
        tail.length = 1 ∧ (∀ c ∈ tail, c.Prone = false) ∧
          Foundation.Complete script lib f = some false ∧
          Succeeds (script.TailAppendError f tail)) ∧
    (tail.length > 1 → Foundation.CanAcceptTail script lib f tail =
        some (false, some "Cannot move more than one card to a Foundation")) ∧
    (tail.length = 1 → (∃ c ∈ tail, c.Prone = true) →
        Foundation.CanAcceptTail script lib f tail =
          some (false, some "Cannot add a face down card to a Foundation")) ∧
    (tail.length = 1 → (∀ c ∈ tail, c.Prone = false) →
        Foundation.Complete script lib f = some true →
        Foundation.CanAcceptTail script lib f tail = some (false, some "The Foundation is full")) ∧
    (tail.length = 1 → (∀ c ∈ tail, c.Prone = false) →
        Foundation.Complete script lib f = some false →
        Foundation.CanAcceptTail script lib f tail = script.TailAppendError f tail) ∧
    (¬ (tail.length = 1 ∧ (∀ c ∈ tail, c.Prone = false) ∧
          Foundation.Complete script lib f = some false) →
        ∀ other : Scripter, other.Foundations = script.Foundations →
          Foundation.CanAcceptTail other lib f tail =
            Foundation.CanAcceptTail script lib f tail) := by
  have hpos : 0 < tail.length := List.length_pos.mpr hne
  refine ⟨?_, ?_, ?_, ?_, ?_, ?_⟩
  · by_cases hlen : tail.length > 1
    · have hno : ¬ tail.length = 1 := by omega
      simp [Foundation.CanAcceptTail, hlen, hno, not_succeeds_false]
    · have h1 : tail.length = 1 := by omega
      by_cases hp : AnyCardsProne tail = true
      · have hnot : ¬ ∀ c ∈ tail, c.Prone = false := by
          intro hall
          rw [← anyCardsProne_eq_false] at hall
          rw [hall] at hp
          cases hp
        simp only [Foundation.CanAcceptTail, hlen, hp, if_true, if_false]
        constructor
        · intro h
          exact absurd h (not_succeeds_false _)
        · intro h
          exact absurd h.2.1 hnot
      · have hp1 : AnyCardsProne tail = false := by simpa using hp
        have hall := (anyCardsProne_eq_false tail).mp hp1
        cases hc : Foundation.Complete script lib f with
        | none =>
          simp [Foundation.CanAcceptTail, hlen, hp1, hc, not_succeeds_none]
        | some b =>
          cases b
          · rw [canAcceptTail_of_checks script lib f tail (by omega) hp1 hc]
            constructor
            · intro h
              exact ⟨h1, hall, rfl, h⟩
            · intro h
              exact h.2.2.2
          · simp [Foundation.CanAcceptTail, hlen, hp1, hc, not_succeeds_false]
  · intro hlen
    simp [Foundation.CanAcceptTail, hlen]
  · rintro h1 ⟨c, hc, hprone⟩
    have hlen : ¬ tail.length > 1 := by omega
    have hp : AnyCardsProne tail = true := by
      simp only [AnyCardsProne, List.any_eq_true]
      exact ⟨c, hc, hprone⟩
    simp [Foundation.CanAcceptTail, hlen, hp]
  · intro h1 hall hc
    have hlen : ¬ tail.length > 1 := by omega
    have hp := (anyCardsProne_eq_false tail).mpr hall
    simp [Foundation.CanAcceptTail, hlen, hp, hc]
  · intro h1 hall hc
    exact canAcceptTail_of_checks script lib f tail (by omega)
      ((anyCardsProne_eq_false tail).mpr hall) hc
  · intro hnot other hother
    by_cases hlen : tail.length > 1
    · simp [Foundation.CanAcceptTail, hlen]
    · have h1 : tail.length = 1 := by omega
      by_cases hp : AnyCardsProne tail = true
      · simp [Foundation.CanAcceptTail, hlen, hp]
      · have hp1 : AnyCardsProne tail = false := by simpa using hp
        have hall := (anyCardsProne_eq_false tail).mp hp1
        have hsame : Foundation.Complete other lib f = Foundation.Complete script lib f := by
          simp [Foundation.Complete, hother]
        cases hc : Foundation.Complete script lib f with
        | none => simp [Foundation.CanAcceptTail, hlen, hp1, hsame, hc]
        | some b =>
          cases b
          · exact absurd ⟨h1, hall, hc⟩ hnot
          · simp [Foundation.CanAcceptTail, hlen, hp1, hsame, hc]

theorem foundation_canAcceptTail_gate_witness :
    [faceUpCard 0 1 1] ≠ [] ∧
    Succeeds (Foundation.CanAcceptTail fortyThievesGame.asScripter 104 NewFoundation
      [faceUpCard 0 1 1]) ∧
    Foundation.CanAcceptTail fortyThievesGame.asScripter 104 NewFoundation
      [faceUpCard 0 1 1, NewCard 0 1 2] =
        some (false, some "Cannot move more than one card to a Foundation") :=
  ⟨by decide,
   (foundation_canAcceptTail_gate fortyThievesGame.asScripter 104 NewFoundation
      [faceUpCard 0 1 1] (by decide)).1.mpr ⟨by decide, by decide, by decide, by decide⟩,
   (foundation_canAcceptTail_gate fortyThievesGame.asScripter 104 NewFoundation
      [faceUpCard 0 1 1, NewCard 0 1 2] (by decide)).2.1 (by decide)⟩

/-! ## Foundations under the Forty Thieves rules -/

/-- FortyThieves.TailAppendError on an empty Foundation. -/
theorem fortyThieves_append_empty_foundation (f : Pile) (c : Card)
    (hf : f.subtype = PileSubtype.Foundation) (he : f.cards = []) :
    FortyThieves.TailAppendError f [c] =
      if c.Ordinal ≠ 1 then some (false, some "Empty Foundations can only accept an Ace")
      else some (true, none) := by
  simp [FortyThieves.TailAppendError, hf, Pile.Empty, he]

/-- FortyThieves.TailAppendError on a Foundation with top card `top`. -/
theorem fortyThieves_append_foundation (f : Pile) (c top : Card)
    (hf : f.subtype = PileSubtype.Foundation) (ht : f.Peek = some top) :
    FortyThieves.TailAppendError f [c] =
      some (CardPair.Compare_UpSuit { c1 := top, c2 := c }) := by
  have hne : f.cards ≠ [] := by
    intro h
    simp [Pile.Peek, h] at ht
  simp [FortyThieves.TailAppendError, hf, Pile.Empty, hne, ht]

theorem peek_eq_none_iff (f : Pile) : f.Peek = none ↔ f.cards = [] := by
  simp [Pile.Peek]

/-- C1. Foundation sequencing under the Forty Thieves rules: for every face-up
card c and every Foundation pile that is not complete, CanAcceptTail of the
one-card tail [c] succeeds iff either the foundation is empty and c is an Ace,
or the foundation is non-empty and c has the suit of the top card and the
ordinal one higher. On a non-empty foundation a card of another suit is
rejected with the same-suit reason whatever its rank, and a card of the suit
of the top card with any other ordinal (a 3 on an Ace) is rejected with the
ascending-sequence reason; every accepted card is accepted with no reason. -/
theorem foundation_sequencing_fortyThieves (ft : FortyThieves) (lib : Nat) (f : Pile) (c : Card)
    (hf : f.subtype = PileSubtype.Foundation) (hup : c.Prone = false)
    (hnc : Foundation.Complete ft.asScripter lib f = some false) :
    (Succeeds (Foundation.CanAcceptTail ft.asScripter lib f [c]) ↔
        (f.cards = [] ∧ c.Ordinal = 1) ∨
        (∃ top, f.Peek = some top ∧ c.Suit = top.Suit ∧ c.Ordinal = top.Ordinal + 1)) ∧
    (∀ top, f.Peek = some top → c.Suit ≠ top.Suit →
        Foundation.CanAcceptTail ft.asScripter lib f [c] =
          some (false, some "Cards must be the same suit")) ∧
    (∀ top, f.Peek = some top → c.Suit = top.Suit → c.Ordinal ≠ top.Ordinal + 1 →
        Foundation.CanAcceptTail ft.asScripter lib f [c] =
          some (false, some "Cards must be in ascending sequence")) ∧
    (Succeeds (Foundation.CanAcceptTail ft.asScripter lib f [c]) →
        Foundation.CanAcceptTail ft.asScripter lib f [c] = some (true, none)) := by
  have hgate : Foundation.CanAcceptTail ft.asScripter lib f [c] =
      FortyThieves.TailAppendError f [c] := by
    have hp : AnyCardsProne [c] = false := by simp [AnyCardsProne, hup]
    exact canAcceptTail_of_checks ft.asScripter lib f [c] (by simp) hp hnc
  rw [hgate]
  have hsame : ∀ top, f.Peek = some top → c.Suit ≠ top.Suit →
      FortyThieves.TailAppendError f [c] = some (false, some "Cards must be the same suit") := by
    intro top ht hs
    rw [fortyThieves_append_foundation f c top hf ht]
    have hs1 : ¬ top.Suit = c.Suit := fun h => hs h.symm
    simp [CardPair.Compare_UpSuit, hs1]
  have hasc : ∀ top, f.Peek = some top → c.Suit = top.Suit → c.Ordinal ≠ top.Ordinal + 1 →
      FortyThieves.TailAppendError f [c] =
        some (false, some "Cards must be in ascending sequence") := by
    intro top ht hs ho
    rw [fortyThieves_append_foundation f c top hf ht]
    have ho1 : ¬ top.Ordinal + 1 = c.Ordinal := fun h => ho h.symm
    simp [CardPair.Compare_UpSuit, CardPair.Compare_Up, hs, ho1]
  refine ⟨?_, hsame, hasc, ?_⟩
  · cases ht : f.Peek with
    | none =>
      have he := (peek_eq_none_iff f).mp ht
      rw [fortyThieves_append_empty_foundation f c hf he]
      by_cases ho : c.Ordinal = 1
      · simp [ho, he, Succeeds]
      · simp [ho, he, not_succeeds_false]
    | some top =>
      have hne : f.cards ≠ [] := by
        intro h
        simp [Pile.Peek, h] at ht
      rw [fortyThieves_append_foundation f c top hf ht, succeeds_some_iff,
        Compare_UpSuit_accepted]
      simp only [hne, false_and, false_or, Option.some.injEq, exists_eq_left']
      constructor
      · rintro ⟨h1, h2⟩
        exact ⟨h1.symm, h2.symm⟩
      · rintro ⟨h1, h2⟩
        exact ⟨h1.symm, h2.symm⟩
  · cases ht : f.Peek with
    | none =>
      have he := (peek_eq_none_iff f).mp ht
      rw [fortyThieves_append_empty_foundation f c hf he]
      by_cases ho : c.Ordinal = 1
      · simp [ho]
      · simp [ho, not_succeeds_false]
    | some top =>
      rw [fortyThieves_append_foundation f c top hf ht]
      intro h
      rw [succeeds_some_iff, Compare_UpSuit_accepted] at h
      simp [CardPair.Compare_UpSuit, CardPair.Compare_Up, h.1, h.2]

theorem foundation_sequencing_fortyThieves_witness :
    Succeeds (Foundation.CanAcceptTail fortyThievesGame.asScripter 104 NewFoundation
      [faceUpCard 0 1 1]) ∧
    Succeeds (Foundation.CanAcceptTail fortyThievesGame.asScripter 104
      (NewFoundation.Push (faceUpCard 0 1 1)) [faceUpCard 0 1 2]) ∧
    Succeeds (Foundation.CanAcceptTail fortyThievesGame.asScripter 104
      ((NewFoundation.Push (faceUpCard 0 1 1)).Push (faceUpCard 0 1 2)) [faceUpCard 0 1 3]) ∧
    Foundation.CanAcceptTail fortyThievesGame.asScripter 104
      (NewFoundation.Push (faceUpCard 0 1 1)) [faceUpCard 0 1 3] =
        some (false, some "Cards must be in ascending sequence") ∧
    Foundation.CanAcceptTail fortyThievesGame.asScripter 104
      (NewFoundation.Push (faceUpCard 0 1 1)) [faceUpCard 0 2 2] =
        some (false, some "Cards must be the same suit") :=
  ⟨(foundation_sequencing_fortyThieves fortyThievesGame 104 NewFoundation (faceUpCard 0 1 1)
      rfl rfl (by decide)).1.mpr (Or.inl ⟨rfl, by decide⟩),
   (foundation_sequencing_fortyThieves fortyThievesGame 104
      (NewFoundation.Push (faceUpCard 0 1 1)) (faceUpCard 0 1 2)
      rfl rfl (by decide)).1.mpr (Or.inr ⟨faceUpCard 0 1 1, rfl, by decide, by decide⟩),
   (foundation_sequencing_fortyThieves fortyThievesGame 104
      ((NewFoundation.Push (faceUpCard 0 1 1)).Push (faceUpCard 0 1 2)) (faceUpCard 0 1 3)
      rfl rfl (by decide)).1.mpr (Or.inr ⟨faceUpCard 0 1 2, rfl, by decide, by decide⟩),
   (foundation_sequencing_fortyThieves fortyThievesGame 104
      (NewFoundation.Push (faceUpCard 0 1 1)) (faceUpCard 0 1 3)
      rfl rfl (by decide)).2.2.1 (faceUpCard 0 1 1) rfl (by decide) (by decide),
   (foundation_sequencing_fortyThieves fortyThievesGame 104
      (NewFoundation.Push (faceUpCard 0 1 1)) (faceUpCard 0 2 2)
      rfl rfl (by decide)).2.1 (faceUpCard 0 1 1) rfl (by decide)⟩

/-- What an accepting call of Foundation.CanAcceptTail went through. -/
theorem canAcceptTail_succeeds_inv (script : Scripter) (lib : Nat) (f : Pile) (tail : List Card)
    (h : Succeeds (Foundation.CanAcceptTail script lib f tail)) :
    tail.length ≤ 1 ∧ AnyCardsProne tail = false ∧
      Foundation.Complete script lib f = some false ∧
      Succeeds (script.TailAppendError f tail) := by
  unfold Foundation.CanAcceptTail at h
  by_cases hlen : tail.length > 1
  · simp [hlen] at h
    exact absurd h (not_succeeds_false _)
  · by_cases hp : AnyCardsProne tail = true
    · simp [hlen, hp] at h
      exact absurd h (not_succeeds_false _)
    · have hp1 : AnyCardsProne tail = false := by simpa using hp
      cases hc : Foundation.Complete script lib f with
      | none =>
        simp [hlen, hp1, hc] at h
        exact absurd h not_succeeds_none
      | some b =>
        cases b
        · simp [hlen, hp1, hc] at h
          exact ⟨by omega, hp1, rfl, h⟩
        · simp [hlen, hp1, hc] at h
          exact absurd h (not_succeeds_false _)

/-- In a game of 104 cards and eight foundations a foundation is complete
exactly at thirteen cards. -/
theorem complete_104_8 (ft : FortyThieves) (f : Pile) (h8 : ft.foundations.length = 8) :
    Foundation.Complete ft.asScripter 104 f = some (decide (f.cards.length = 13)) := by
  simp only [Foundation.Complete, FortyThieves.asScripter, FortyThieves.Foundations, h8, Pile.Len]
  rw [if_neg (by decide)]
  rfl

/-- The invariant of a reachable foundation of Forty Thieves, with the facts
the induction needs: the pile is a Foundation and its cards are face up. -/
theorem foundationReachable_run (ft : FortyThieves) (f : Pile)
    (h8 : ft.foundations.length = 8)
    (hr : FoundationReachable ft.asScripter 104 f) :
    f.subtype = PileSubtype.Foundation ∧ f.cards.length ≤ 13 ∧
      ∃ s : Int, ∀ (i : Nat) (c : Card), f.cards[i]? = some c →
        c.Suit = s ∧ c.Ordinal = (i : Int) + 1 ∧ c.Prone = false := by
  induction hr with
  | empty f hf he =>
    refine ⟨hf, by simp [he], 0, ?_⟩
    intro i c hc
    simp [he] at hc
  | accept f tail _ hacc ih =>
    obtain ⟨hf, hlen, s, hrun⟩ := ih
    obtain ⟨htl, hp, hc, happ⟩ := canAcceptTail_succeeds_inv _ _ _ _ hacc
    rw [complete_104_8 ft f h8] at hc
    have hlt : f.cards.length ≠ 13 := by simpa using hc
    match tail, htl, hp, happ with
    | [], _, _, happ =>
      exfalso
      have : FortyThieves.TailAppendError f [] = none := by
        simp only [FortyThieves.TailAppendError, hf, List.head?_nil]
        split <;> simp
      simp only [FortyThieves.asScripter] at happ
      rw [this] at happ
      exact not_succeeds_none happ
    | [c], _, hp, happ =>
      have hcp : c.Prone = false := by simpa [AnyCardsProne] using hp
      simp only [FortyThieves.asScripter] at happ
      refine ⟨hf, by simp; omega, ?_⟩
      cases ht : f.Peek with
      | none =>
        have he := (peek_eq_none_iff f).mp ht
        rw [fortyThieves_append_empty_foundation f c hf he] at happ
        have ho : c.Ordinal = 1 := by
          by_contra hne
          simp [hne] at happ
          exact not_succeeds_false _ happ
        refine ⟨c.Suit, ?_⟩
        intro i d hd
        simp only [he, List.nil_append] at hd
        match i, hd with
        | 0, hd =>
          have : d = c := by simpa using hd.symm
          subst this
          exact ⟨rfl, by simpa using ho, hcp⟩
        | i + 1, hd => simp at hd
      | some top =>
        rw [fortyThieves_append_foundation f c top hf ht, succeeds_some_iff,
          Compare_UpSuit_accepted] at happ
        have hne : f.cards ≠ [] := by
          intro h
          simp [Pile.Peek, h] at ht
        have hpos : 0 < f.cards.length := List.length_pos.mpr hne
        have htop : f.cards[f.cards.length - 1]? = some top := by
          rw [← List.getLast?_eq_getElem?]
          exact ht
        obtain ⟨hts, hto, _⟩ := hrun _ _ htop
        refine ⟨s, ?_⟩
        intro i d hd
        by_cases hi : i < f.cards.length
        · rw [List.getElem?_append_left hi] at hd
          exact hrun i d hd
        · by_cases hi2 : i = f.cards.length
          · subst hi2
            have : d = c := by simpa using hd.symm
            subst this
            simp only at happ
            refine ⟨by rw [← happ.1, hts], ?_, hcp⟩
            rw [← happ.2, hto]
            have : ((f.cards.length - 1 : Nat) : Int) = (f.cards.length : Int) - 1 := by omega
            rw [this]
            ring
          · have : (f.cards ++ [d])[i]? = none := by
              rw [List.getElem?_eq_none]
              simp
              omega
            have hnone : (f.cards ++ [c])[i]? = none := by
              rw [List.getElem?_eq_none]
              simp
              omega
            rw [hnone] at hd
            cases hd
    | _ :: _ :: _, htl, _, _ => simp at htl

/-- C2. Foundation run invariant and completion: in a Forty Thieves game (104
cards in the card library, 8 foundations), every foundation reached from the
empty pile by appending only tails that Foundation.CanAcceptTail accepted
holds the cards Ace, 2, ..., n of a single suit in ascending order, face up,
with n its length and n at most 13 (so every rank from 1 to n is present once
in that suit), and Foundation.Complete is true iff n = 13. -/
theorem foundation_run_invariant (ft : FortyThieves) (f : Pile)
    (h8 : ft.foundations.length = 8)
    (hr : FoundationReachable ft.asScripter 104 f) :
    f.cards.length ≤ 13 ∧
    (∃ s : Int,
      (∀ (i : Nat) (c : Card), f.cards[i]? = some c →
        c.Suit = s ∧ c.Ordinal = (i : Int) + 1 ∧ c.Prone = false) ∧
      (∀ r : Nat, 1 ≤ r → r ≤ f.cards.length →
        ∃ c ∈ f.cards, c.Suit = s ∧ c.Ordinal = (r : Int))) ∧
    Foundation.Complete ft.asScripter 104 f = some (decide (f.cards.length = 13)) ∧
    (Foundation.Complete ft.asScripter 104 f = some true ↔ f.cards.length = 13) := by
  obtain ⟨_, hlen, s, hrun⟩ := foundationReachable_run ft f h8 hr
  refine ⟨hlen, ⟨s, hrun, ?_⟩, complete_104_8 ft f h8, ?_⟩
  · intro r h1 hr
    have hlt : r - 1 < f.cards.length := by omega
    refine ⟨f.cards[r - 1], List.getElem_mem hlt, ?_⟩
    obtain ⟨hs, ho, _⟩ := hrun (r - 1) f.cards[r - 1] (List.getElem?_eq_getElem hlt)
    refine ⟨hs, ?_⟩
    rw [ho]
    omega
  · rw [complete_104_8 ft f h8]
    simp

theorem foundation_run_invariant_witness :
    fortyThievesGame.foundations.length = 8 ∧
    FoundationReachable fortyThievesGame.asScripter 104 fullSuitFoundation ∧
    fullSuitFoundation.cards.length = 13 ∧
    Foundation.Complete fortyThievesGame.asScripter 104 fullSuitFoundation = some true := by
  have h0 : FoundationReachable fortyThievesGame.asScripter 104 NewFoundation :=
    FoundationReachable.empty NewFoundation rfl rfl
  have h1 := FoundationReachable.accept _ [faceUpCard 0 1 1] h0 (by decide)
  have h2 := FoundationReachable.accept _ [faceUpCard 0 1 2] h1 (by decide)
  have h3 := FoundationReachable.accept _ [faceUpCard 0 1 3] h2 (by decide)
  have h4 := FoundationReachable.accept _ [faceUpCard 0 1 4] h3 (by decide)
  have h5 := FoundationReachable.accept _ [faceUpCard 0 1 5] h4 (by decide)
  have h6 := FoundationReachable.accept _ [faceUpCard 0 1 6] h5 (by decide)
  have h7 := FoundationReachable.accept _ [faceUpCard 0 1 7] h6 (by decide)
  have h8 := FoundationReachable.accept _ [faceUpCard 0 1 8] h7 (by decide)
  have h9 := FoundationReachable.accept _ [faceUpCard 0 1 9] h8 (by decide)
  have h10 := FoundationReachable.accept _ [faceUpCard 0 1 10] h9 (by decide)
  have h11 := FoundationReachable.accept _ [faceUpCard 0 1 11] h10 (by decide)
  have h12 := FoundationReachable.accept _ [faceUpCard 0 1 12] h11 (by decide)
  have h13 := FoundationReachable.accept _ [faceUpCard 0 1 13] h12 (by decide)
  have hr : FoundationReachable fortyThievesGame.asScripter 104 fullSuitFoundation := h13
  exact ⟨rfl, hr, rfl, (foundation_run_invariant fortyThievesGame fullSuitFoundation rfl hr).2.2.2.mpr rfl⟩

/-! ## Recycling the waste -/

/-- MoveCard when the source has a top card. -/
theorem moveCard_concat (src dst : Pile) (rest : List Card) (top : Card)
    (h : src.cards = rest ++ [top]) :
    MoveCard src dst =
      some ({ src with cards := rest }, { dst with cards := dst.cards ++ [top] }) := by
  simp [MoveCard, Pile.Pop, Pile.Push, h]

/-- MoveCard has no result exactly on an empty source. -/
theorem moveCard_nil (src dst : Pile) (h : src.cards = []) : MoveCard src dst = none := by
  simp [MoveCard, Pile.Pop, h]

/-- The loop of RecycleWasteToStock, given at least as many iterations as the
waste has cards, empties the waste onto the stock, top card first. -/
theorem recycle_loop_eq (fuel : Nat) : ∀ (waste stock : Pile), waste.cards.length ≤ fuel →
    RecycleWasteToStock.loop fuel waste stock =
      some ({ waste with cards := [] },
            { stock with cards := stock.cards ++ waste.cards.reverse }) := by
  induction fuel with
  | zero =>
    intro waste stock h
    have he : waste.cards = [] := List.length_eq_zero.mp (Nat.le_zero.mp h)
    obtain ⟨cat, sub, lab, cards⟩ := waste
    simp only at he
    subst he
    simp [RecycleWasteToStock.loop, Pile.Len]
  | succ fuel ih =>
    intro waste stock h
    rcases List.eq_nil_or_concat waste.cards with he | ⟨rest, top, he⟩
    · obtain ⟨cat, sub, lab, cards⟩ := waste
      simp only at he
      subst he
      simp [RecycleWasteToStock.loop, Pile.Len]
    · rw [List.concat_eq_append] at he
      have hpos : waste.Len > 0 := by simp [Pile.Len, he]
      have hlen : rest.length ≤ fuel := by
        rw [he] at h
        simp at h
        exact h
      simp only [RecycleWasteToStock.loop, hpos, if_true, moveCard_concat waste stock rest top he]
      rw [ih _ _ hlen]
      simp [he]

/-- RecycleWasteToStock with a positive counter: the call returns, the waste
is emptied onto the stock, top card first, and the counter drops by one. -/
theorem recycle_pos (recycles : Int) (waste stock : Pile) (h : recycles > 0) :
    ∃ out, RecycleWasteToStock recycles waste stock = some out ∧
      out.waste = { waste with cards := [] } ∧
      out.stock = { stock with cards := stock.cards ++ waste.cards.reverse } ∧
      out.recycles = recycles - 1 := by
  unfold RecycleWasteToStock
  rw [if_pos h, recycle_loop_eq waste.Len waste stock (Nat.le_refl _)]
  simp only
  split_ifs <;> exact ⟨_, rfl, rfl, rfl, rfl⟩

/-- RecycleWasteToStock with no recycle left changes nothing and says so. -/
theorem recycle_nonpos (recycles : Int) (waste stock : Pile) (h : ¬ recycles > 0) :
    RecycleWasteToStock recycles waste stock =
      some { waste := waste, stock := stock, recycles := recycles,
             sound := some "Error", toast := some "No more recycles" } := by
  unfold RecycleWasteToStock
  rw [if_neg h]

/-- C5. RecycleWasteToStock with a positive counter: for every waste and
stock, if the recycle counter is positive the call returns, and after it the
waste is empty, the stock holds exactly its previous cards and every card that
was in the waste (as a multiset, so its length is the old stock length plus
the old waste length), and the counter is exactly one less than before. -/
theorem recycle_with_positive_counter (recycles : Int) (waste stock : Pile)
    (h : recycles > 0) :
    ∃ out, RecycleWasteToStock recycles waste stock = some out ∧
      out.waste.cards = [] ∧
      (out.stock.cards : Multiset Card) =
        (stock.cards : Multiset Card) + (waste.cards : Multiset Card) ∧
      out.stock.cards.length = stock.cards.length + waste.cards.length ∧
      out.recycles = recycles - 1 := by
  obtain ⟨out, hout, hw, hs, hr⟩ := recycle_pos recycles waste stock h
  refine ⟨out, hout, by rw [hw], ?_, ?_, hr⟩
  · rw [hs, ← Multiset.coe_reverse waste.cards, Multiset.coe_add]
  · rw [hs]
    simp

theorem recycle_with_positive_counter_witness :
    (2 : Int) > 0 ∧
    ∃ out, RecycleWasteToStock 2 exampleWaste exampleStock = some out ∧
      out.waste.cards = [] ∧
      (out.stock.cards : Multiset Card) =
        (exampleStock.cards : Multiset Card) + (exampleWaste.cards : Multiset Card) ∧
      out.stock.cards.length = exampleStock.cards.length + exampleWaste.cards.length ∧
      out.recycles = 2 - 1 :=
  ⟨by decide, recycle_with_positive_counter 2 exampleWaste exampleStock (by decide)⟩

/-- C4. Recycle budget: for every initial recycle counter n >= 0 and every
run of k consecutive calls of RecycleWasteToStock (whatever waste and stock
each call meets), every call returns; the call number i (from 0) meets the
counter n - min(n, i) and leaves n - min(n, i + 1), neither ever negative;
the calls with i < n move the waste onto the stock and take one from the
counter; every call with i >= n, made while the counter is 0, leaves the
waste, the stock and the counter unchanged and reports that no recycle is
left; so exactly min(n, k) calls spent a recycle. -/
theorem recycle_budget (n : Nat) (calls : List (Pile × Pile)) :
    ∃ outs, recycleCalls (n : Int) calls = some outs ∧ outs.length = calls.length ∧
      (∀ (i : Nat) (before : Int) (out : RecycleOutcome) (waste stock : Pile),
        outs[i]? = some (before, out) → calls[i]? = some (waste, stock) →
          before = (n : Int) - ((min n i : Nat) : Int) ∧
          out.recycles = (n : Int) - ((min n (i + 1) : Nat) : Int) ∧
          0 ≤ before ∧ 0 ≤ out.recycles ∧
          (i < n → out.waste.cards = [] ∧
            out.stock.cards = stock.cards ++ waste.cards.reverse ∧
            out.recycles = before - 1) ∧
          (n ≤ i → before = 0 ∧ out.waste = waste ∧ out.stock = stock ∧ out.recycles = 0 ∧
            out.toast = some "No more recycles")) ∧
      (outs.filter spentRecycle).length = min n calls.length := by
  induction calls generalizing n with
  | nil =>
    refine ⟨[], rfl, rfl, ?_, by simp⟩
    intro i before out waste stock h
    simp at h
  | cons call rest ih =>
    obtain ⟨w0, s0⟩ := call
    cases n with
    | zero =>
      obtain ⟨outs, hcalls, hlen, hprop, hcount⟩ := ih 0
      have hstep := recycle_nonpos ((0 : Nat) : Int) w0 s0 (by simp)
      refine ⟨(((0 : Nat) : Int),
          ({ waste := w0, stock := s0, recycles := ((0 : Nat) : Int),
             sound := some "Error", toast := some "No more recycles" } : RecycleOutcome)) :: outs,
        ?_, by simp [hlen], ?_, ?_⟩
      · simp only [recycleCalls, hstep]
        simp only [Nat.cast_zero] at hcalls ⊢
        rw [hcalls]
      · intro i before out waste stock hi hc
        cases i with
        | zero =>
          simp only [List.getElem?_cons_zero, Option.some.injEq, Prod.mk.injEq] at hi hc
          obtain ⟨hb, ho⟩ := hi
          obtain ⟨hw, hs⟩ := hc
          subst hb ho hw hs
          simp
        | succ i =>
          simp only [List.getElem?_cons_succ] at hi hc
          obtain ⟨h1, h2, h3, h4, _, h6⟩ := hprop i before out waste stock hi hc
          refine ⟨by omega, by omega, h3, h4, by omega, ?_⟩
          intro _
          exact h6 (Nat.zero_le _)
      · have hns : spentRecycle (((0 : Nat) : Int),
            ({ waste := w0, stock := s0, recycles := ((0 : Nat) : Int),
               sound := some "Error", toast := some "No more recycles" } : RecycleOutcome)) =
            false := by
          simp [spentRecycle]
        rw [List.filter_cons_of_neg (by rw [hns]; decide), hcount]
        simp
    | succ m =>
      obtain ⟨out0, hstep, hw, hs, hr⟩ := recycle_pos ((m + 1 : Nat) : Int) w0 s0 (by omega)
      have hr1 : out0.recycles = (m : Int) := by
        rw [hr]
        push_cast
        ring
      obtain ⟨outs, hcalls, hlen, hprop, hcount⟩ := ih m
      refine ⟨(((m + 1 : Nat) : Int), out0) :: outs, ?_, by simp [hlen], ?_, ?_⟩
      · simp only [recycleCalls, hstep, hr1, hcalls]
      · intro i before out waste stock hi hc
        cases i with
        | zero =>
          simp only [List.getElem?_cons_zero, Option.some.injEq, Prod.mk.injEq] at hi hc
          obtain ⟨hb, ho⟩ := hi
          obtain ⟨hw1, hs1⟩ := hc
          subst hb ho hw1 hs1
          refine ⟨by simp, by rw [hr1]; omega, by omega, by rw [hr1]; omega, ?_, ?_⟩
          · intro _
            exact ⟨by rw [hw], by rw [hs], by rw [hr1]; omega⟩
          · intro h
            omega
        | succ i =>
          simp only [List.getElem?_cons_succ] at hi hc
          obtain ⟨h1, h2, h3, h4, h5, h6⟩ := hprop i before out waste stock hi hc
          refine ⟨by omega, by omega, h3, h4, ?_, ?_⟩
          · intro hlt
            exact h5 (by omega)
          · intro hle
            exact h6 (by omega)
      · have hsp : spentRecycle (((m + 1 : Nat) : Int), out0) = true := by
          simp only [spentRecycle, decide_eq_true_eq]
          rw [hr1]
          omega
        rw [List.filter_cons_of_pos hsp]
        simp only [List.length_cons, hcount]
        omega

theorem recycle_budget_witness :
    (∃ outs, recycleCalls ((2 : Nat) : Int) (List.replicate 3 (exampleWaste, exampleStock)) =
        some outs ∧ outs.length = 3 ∧ (outs.filter spentRecycle).length = 2) ∧
    (recycleCalls 2 (List.replicate 3 (exampleWaste, exampleStock))).map
        (fun outs => outs.map (fun call =>
          (call.1, call.2.recycles, call.2.waste.cards.length, call.2.stock.cards.length,
            call.2.toast))) =
      some [(2, 1, 0, 3, some "1 recycle remaining"),
            (1, 0, 0, 3, some "No more recycles"),
            (0, 0, 2, 1, some "No more recycles")] := by
  constructor
  · obtain ⟨outs, h1, h2, _, h4⟩ :=
      recycle_budget 2 (List.replicate 3 (exampleWaste, exampleStock))
    exact ⟨outs, h1, h2, h4⟩
  · rfl

/-! ## Card conservation -/

theorem sameCards_of_count (after before : List Card)
    (h : ∀ a, after.count a = before.count a) : SameCards after before := by
  have hp : after.Perm before := List.perm_iff_count.mpr h
  exact ⟨Multiset.coe_eq_coe.mpr hp, hp.length_eq⟩

theorem moveCard_count (src dst src1 dst1 : Pile) (h : MoveCard src dst = some (src1, dst1))
    (a : Card) :
    src1.cards.count a + dst1.cards.count a = src.cards.count a + dst.cards.count a := by
  rcases List.eq_nil_or_concat src.cards with he | ⟨rest, top, he⟩
  · rw [moveCard_nil src dst he] at h
    cases h
  · rw [List.concat_eq_append] at he
    rw [moveCard_concat src dst rest top he] at h
    simp only [Option.some.injEq, Prod.mk.injEq] at h
    obtain ⟨h1, h2⟩ := h
    subst h1 h2
    simp only [he, List.count_append]
    omega

theorem dealCards_count (n : Nat) : ∀ (stock pile stock1 pile1 : Pile),
    dealCards n stock pile = some (stock1, pile1) → ∀ a : Card,
    stock1.cards.count a + pile1.cards.count a = stock.cards.count a + pile.cards.count a := by
  induction n with
  | zero =>
    intro stock pile stock1 pile1 h a
    simp only [dealCards, Option.some.injEq, Prod.mk.injEq] at h
    obtain ⟨h1, h2⟩ := h
    subst h1 h2
    rfl
  | succ n ih =>
    intro stock pile stock1 pile1 h a
    simp only [dealCards] at h
    cases hm : MoveCard stock pile with
    | none => simp [hm] at h
    | some r =>
      obtain ⟨s, q⟩ := r
      simp only [hm] at h
      have h1 := ih s q stock1 pile1 h a
      have h2 := moveCard_count stock pile s q hm a
      omega

theorem fortyThieves_deal_count (cardsPerTab : Int) (piles : List Pile) :
    ∀ (stock stock1 : Pile) (piles1 : List Pile),
    FortyThieves.StartGame.deal cardsPerTab stock piles = some (stock1, piles1) → ∀ a : Card,
    stock1.cards.count a + (pilesCards piles1).count a =
      stock.cards.count a + (pilesCards piles).count a := by
  induction piles with
  | nil =>
    intro stock stock1 piles1 h a
    simp only [FortyThieves.StartGame.deal, Option.some.injEq, Prod.mk.injEq] at h
    obtain ⟨h1, h2⟩ := h
    subst h1 h2
    rfl
  | cons pile rest ih =>
    intro stock stock1 piles1 h a
    simp only [FortyThieves.StartGame.deal] at h
    cases hd : dealCards cardsPerTab.toNat stock pile with
    | none => simp [hd] at h
    | some r =>
      obtain ⟨s, q⟩ := r
      simp only [hd] at h
      cases hr : FortyThieves.StartGame.deal cardsPerTab s rest with
      | none => simp [hr] at h
      | some r2 =>
        obtain ⟨s2, qs⟩ := r2
        simp only [hr, Option.some.injEq, Prod.mk.injEq] at h
        obtain ⟨h1, h2⟩ := h
        subst h1 h2
        have h3 := ih s s2 qs hr a
        have h4 := dealCards_count _ stock pile s q hd a
        simp only [pilesCards, List.count_append]
        omega

theorem resetStockRecycles_cards (stock : Pile) : (resetStockRecycles stock).cards = stock.cards := by
  unfold resetStockRecycles
  split <;> rfl

theorem fortyThieves_startGame_count (ft ft1 : FortyThieves) (stock stock1 : Pile)
    (h : FortyThieves.StartGame ft stock = some (ft1, stock1)) (a : Card) :
    (ft1.boardCards stock1).count a = (ft.boardCards stock).count a := by
  unfold FortyThieves.StartGame at h
  cases hd : FortyThieves.StartGame.deal ft.cardsPerTab stock ft.tableaux with
  | none => simp [hd] at h
  | some r =>
    obtain ⟨s, tabs⟩ := r
    simp only [hd] at h
    cases hw : ft.waste with
    | none => simp [hw] at h
    | some waste =>
      simp only [hw] at h
      cases hm : MoveCard (resetStockRecycles s) waste with
      | none => simp [hm] at h
      | some r2 =>
        obtain ⟨s2, w2⟩ := r2
        simp only [hm, Option.some.injEq, Prod.mk.injEq] at h
        obtain ⟨h1, h2⟩ := h
        subst h1 h2
        have h3 := fortyThieves_deal_count _ _ stock s tabs hd a
        have h4 := moveCard_count _ waste s2 w2 hm a
        rw [resetStockRecycles_cards] at h4
        simp only [FortyThieves.boardCards, List.count_append, hw, optionPileCards]
        omega

theorem fortyThieves_afterMove_count (ft ft1 : FortyThieves) (stock stock1 : Pile)
    (h : FortyThieves.AfterMove ft stock = some (ft1, stock1)) (a : Card) :
    (ft1.boardCards stock1).count a = (ft.boardCards stock).count a := by
  unfold FortyThieves.AfterMove at h
  cases hw : ft.waste with
  | none => simp [hw] at h
  | some waste =>
    simp only [hw] at h
    by_cases hc : waste.Len = 0 ∧ stock.Len ≠ 0
    · rw [if_pos hc] at h
      cases hm : MoveCard stock waste with
      | none => simp [hm] at h
      | some r2 =>
        obtain ⟨s2, w2⟩ := r2
        simp only [hm, Option.some.injEq, Prod.mk.injEq] at h
        obtain ⟨h1, h2⟩ := h
        subst h1 h2
        have h4 := moveCard_count stock waste s2 w2 hm a
        simp only [FortyThieves.boardCards, List.count_append, hw, optionPileCards]
        omega
    · rw [if_neg hc] at h
      simp only [Option.some.injEq, Prod.mk.injEq] at h
      obtain ⟨h1, h2⟩ := h
      subst h1 h2
      rfl

/-- FortyThieves.TailTapped on its own branch: one card tapped on the Stock. -/
theorem fortyThieves_tailTapped_stock
    (sub : Pile → List Card → FortyThieves × Pile → Option (FortyThieves × Pile))
    (owner : Card → Pile) (ft : FortyThieves) (stock : Pile) (c : Card) (r : Int)
    (ho : (owner c).subtype = PileSubtype.Stock r) :
    FortyThieves.TailTapped sub owner ft stock [c] =
      match ft.waste with
      | none => none
      | some waste =>
        match MoveCard stock waste with
        | none => none
        | some (stock1, waste1) => some ({ ft with waste := some waste1 }, stock1) := by
  simp [FortyThieves.TailTapped, ho]

theorem fortyThieves_tailTapped_count
    (sub : Pile → List Card → FortyThieves × Pile → Option (FortyThieves × Pile))
    (owner : Card → Pile) (ft ft1 : FortyThieves) (stock stock1 : Pile) (c : Card) (r : Int)
    (ho : (owner c).subtype = PileSubtype.Stock r)
    (h : FortyThieves.TailTapped sub owner ft stock [c] = some (ft1, stock1)) (a : Card) :
    (ft1.boardCards stock1).count a = (ft.boardCards stock).count a := by
  rw [fortyThieves_tailTapped_stock sub owner ft stock c r ho] at h
  cases hw : ft.waste with
  | none => simp [hw] at h
  | some waste =>
    simp only [hw] at h
    cases hm : MoveCard stock waste with
    | none => simp [hm] at h
    | some r2 =>
      obtain ⟨s2, w2⟩ := r2
      simp only [hm, Option.some.injEq, Prod.mk.injEq] at h
      obtain ⟨h1, h2⟩ := h
      subst h1 h2
      have h4 := moveCard_count stock waste s2 w2 hm a
      simp only [FortyThieves.boardCards, List.count_append, hw, optionPileCards]
      omega

theorem pilesCards_set_count (piles : List Pile) : ∀ (i : Nat) (pile pile1 : Pile),
    piles.get? i = some pile → ∀ a : Card,
    (pilesCards (piles.set i pile1)).count a + pile.cards.count a =
      (pilesCards piles).count a + pile1.cards.count a := by
  induction piles with
  | nil =>
    intro i pile pile1 h a
    simp at h
  | cons p rest ih =>
    intro i pile pile1 h a
    cases i with
    | zero =>
      simp only [List.get?_cons_zero, Option.some.injEq] at h
      subst h
      simp only [List.set_cons_zero, pilesCards, List.count_append]
      omega
    | succ i =>
      simp only [List.get?_cons_succ] at h
      have h1 := ih i pile pile1 h a
      simp only [List.set_cons_succ, pilesCards, List.count_append]
      omega

theorem simpleSimon_dealTo_count (self self1 : SimpleSimon) (i n : Nat)
    (h : SimpleSimon.StartGame.dealTo self i n = some self1) (a : Card) :
    self1.boardCards.count a = self.boardCards.count a := by
  unfold SimpleSimon.StartGame.dealTo at h
  cases hp : self.tableaux.get? i with
  | none =>
    rw [hp] at h
    cases h
  | some pile =>
    simp only [hp] at h
    cases hs : self.stock with
    | none =>
      simp only [hs] at h
      by_cases hn : n = 0
      · rw [if_pos hn] at h
        cases h
        rfl
      · rw [if_neg hn] at h
        cases h
    | some stock =>
      simp only [hs] at h
      cases hd : dealCards n stock pile with
      | none => simp [hd] at h
      | some r =>
        obtain ⟨s1, p1⟩ := r
        simp only [hd, Option.some.injEq] at h
        subst h
        have h1 := dealCards_count n stock pile s1 p1 hd a
        have h2 := pilesCards_set_count self.tableaux i pile p1 hp a
        simp only [SimpleSimon.boardCards, List.count_append, hs, optionPileCards]
        omega

theorem simpleSimon_first_count (count : Nat) : ∀ (i : Nat) (self self1 : SimpleSimon),
    SimpleSimon.StartGame.first count i self = some self1 → ∀ a : Card,
    self1.boardCards.count a = self.boardCards.count a := by
  induction count with
  | zero =>
    intro i self self1 h a
    simp only [SimpleSimon.StartGame.first, Option.some.injEq] at h
    subst h
    rfl
  | succ count ih =>
    intro i self self1 h a
    simp only [SimpleSimon.StartGame.first] at h
    cases hd : SimpleSimon.StartGame.dealTo self i 8 with
    | none => simp [hd] at h
    | some mid =>
      simp only [hd] at h
      rw [ih (i + 1) mid self1 h a, simpleSimon_dealTo_count self mid i 8 hd a]

theorem simpleSimon_second_count (count : Nat) :
    ∀ (i : Nat) (deal : Int) (self self1 : SimpleSimon),
    SimpleSimon.StartGame.second count i deal self = some self1 → ∀ a : Card,
    self1.boardCards.count a = self.boardCards.count a := by
  induction count with
  | zero =>
    intro i deal self self1 h a
    simp only [SimpleSimon.StartGame.second, Option.some.injEq] at h
    subst h
    rfl
  | succ count ih =>
    intro i deal self self1 h a
    simp only [SimpleSimon.StartGame.second] at h
    cases hd : SimpleSimon.StartGame.dealTo self i deal.toNat with
    | none => simp [hd] at h
    | some mid =>
      simp only [hd] at h
      rw [ih (i + 1) (deal - 1) mid self1 h a, simpleSimon_dealTo_count self mid i _ hd a]

theorem simpleSimon_startGame_count (self self1 : SimpleSimon)
    (h : SimpleSimon.StartGame self = some self1) (a : Card) :
    self1.boardCards.count a = self.boardCards.count a := by
  unfold SimpleSimon.StartGame at h
  cases hf : SimpleSimon.StartGame.first 3 0 self with
  | none => simp [hf] at h
  | some mid =>
    simp only [hf] at h
    rw [simpleSimon_second_count 7 3 7 mid self1 h a, simpleSimon_first_count 3 0 self mid hf a]

/-- C6. Card conservation: every card-moving operation of the sources leaves
the multiset of cards over all piles, and so their number, unchanged.
RecycleWasteToStock always returns and keeps the cards of waste and stock
together; FortyThieves.StartGame, FortyThieves.AfterMove, FortyThieves.TailTapped
for one card tapped on the Stock, and SimpleSimon.StartGame keep the cards of
the whole board whenever they return. -/
theorem card_conservation :
    (∀ (recycles : Int) (waste stock : Pile),
      ∃ out, RecycleWasteToStock recycles waste stock = some out ∧
        SameCards (out.waste.cards ++ out.stock.cards) (waste.cards ++ stock.cards)) ∧
    (∀ (ft ft1 : FortyThieves) (stock stock1 : Pile),
      FortyThieves.StartGame ft stock = some (ft1, stock1) →
        SameCards (ft1.boardCards stock1) (ft.boardCards stock)) ∧
    (∀ (ft ft1 : FortyThieves) (stock stock1 : Pile),
      FortyThieves.AfterMove ft stock = some (ft1, stock1) →
        SameCards (ft1.boardCards stock1) (ft.boardCards stock)) ∧
    (∀ (sub : Pile → List Card → FortyThieves × Pile → Option (FortyThieves × Pile))
      (owner : Card → Pile) (ft ft1 : FortyThieves) (stock stock1 : Pile) (c : Card) (r : Int),
      (owner c).subtype = PileSubtype.Stock r →
      FortyThieves.TailTapped sub owner ft stock [c] = some (ft1, stock1) →
        SameCards (ft1.boardCards stock1) (ft.boardCards stock)) ∧
    (∀ (self self1 : SimpleSimon),
      SimpleSimon.StartGame self = some self1 →
        SameCards self1.boardCards self.boardCards) := by
  refine ⟨?_, ?_, ?_, ?_, ?_⟩
  · intro recycles waste stock
    by_cases h : recycles > 0
    · obtain ⟨out, hout, hw, hs, _⟩ := recycle_pos recycles waste stock h
      refine ⟨out, hout, sameCards_of_count _ _ ?_⟩
      intro a
      rw [hw, hs]
      simp only [List.count_append, List.count_reverse, List.count_nil]
      omega
    · rw [recycle_nonpos recycles waste stock h]
      exact ⟨_, rfl, sameCards_of_count _ _ (fun _ => rfl)⟩
  · intro ft ft1 stock stock1 h
    exact sameCards_of_count _ _ (fortyThieves_startGame_count ft ft1 stock stock1 h)
  · intro ft ft1 stock stock1 h
    exact sameCards_of_count _ _ (fortyThieves_afterMove_count ft ft1 stock stock1 h)
  · intro sub owner ft ft1 stock stock1 c r ho h
    exact sameCards_of_count _ _
      (fortyThieves_tailTapped_count sub owner ft ft1 stock stock1 c r ho h)
  · intro self self1 h
    exact sameCards_of_count _ _ (simpleSimon_startGame_count self self1 h)

theorem card_conservation_witness :
    (∃ r, FortyThieves.StartGame fortyThievesGame (fullStock 2) = some r ∧
        SameCards (r.1.boardCards r.2) (fortyThievesGame.boardCards (fullStock 2)) ∧
        (r.1.boardCards r.2).length = 104) ∧
    (∃ r, FortyThieves.AfterMove fortyThievesGame (fullStock 2) = some r ∧
        SameCards (r.1.boardCards r.2) (fortyThievesGame.boardCards (fullStock 2))) ∧
    (∃ r, FortyThieves.TailTapped (fun _ _ _ => none) (fun _ => fullStock 2) fortyThievesGame
          (fullStock 2) [NewCard 1 4 13] = some r ∧
        SameCards (r.1.boardCards r.2) (fortyThievesGame.boardCards (fullStock 2))) ∧
    (∃ self1, SimpleSimon.StartGame simpleSimonGame = some self1 ∧
        SameCards self1.boardCards simpleSimonGame.boardCards ∧
        self1.boardCards.length = 52) := by
  have h1 : (FortyThieves.StartGame fortyThievesGame (fullStock 2)).isSome = true := by rfl
  have h2 : (FortyThieves.AfterMove fortyThievesGame (fullStock 2)).isSome = true := by rfl
  have h3 : (FortyThieves.TailTapped (fun _ _ _ => none) (fun _ => fullStock 2) fortyThievesGame
      (fullStock 2) [NewCard 1 4 13]).isSome = true := by rfl
  have h4 : (SimpleSimon.StartGame simpleSimonGame).isSome = true := by rfl
  obtain ⟨r1, hr1⟩ := Option.isSome_iff_exists.mp h1
  obtain ⟨r2, hr2⟩ := Option.isSome_iff_exists.mp h2
  obtain ⟨r3, hr3⟩ := Option.isSome_iff_exists.mp h3
  obtain ⟨r4, hr4⟩ := Option.isSome_iff_exists.mp h4
  have c1 := card_conservation.2.1 fortyThievesGame r1.1 (fullStock 2) r1.2 hr1
  have c2 := card_conservation.2.2.1 fortyThievesGame r2.1 (fullStock 2) r2.2 hr2
  have c3 := card_conservation.2.2.2.1 (fun _ _ _ => none) (fun _ => fullStock 2)
    fortyThievesGame r3.1 (fullStock 2) r3.2 (NewCard 1 4 13) 0 rfl hr3
  have c4 := card_conservation.2.2.2.2 simpleSimonGame r4 hr4
  exact ⟨⟨r1, hr1, c1, c1.2.trans rfl⟩, ⟨r2, hr2, c2⟩, ⟨r3, hr3, c3⟩, ⟨r4, hr4, c4, c4.2.trans rfl⟩⟩

/-! ## Counting unsorted pairs -/

theorem pairUnsortedAt_cons_succ (fn : CardPair → Verdict) (c : Card) (cards : List Card)
    (i : Nat) : pairUnsortedAt fn (c :: cards) (i + 1) = pairUnsortedAt fn cards i := by
  simp [pairUnsortedAt]

theorem unsortedPairs_loop_index (fn : CardPair → Verdict) (rest : List Card) :
    ∀ (k : Nat) (c : Card),
    UnsortedPairs.loop fn k (NewCardPairs.loop c rest) =
      k + ((List.range rest.length).filter (pairUnsortedAt fn (c :: rest))).length := by
  induction rest with
  | nil =>
    intro k c
    simp [NewCardPairs.loop, UnsortedPairs.loop]
  | cons d r ih =>
    intro k c
    have htail : ((List.range r.length).map Nat.succ).filter (pairUnsortedAt fn (c :: d :: r)) =
        ((List.range r.length).filter (pairUnsortedAt fn (d :: r))).map Nat.succ := by
      rw [List.filter_map]
      congr 1
      apply List.filter_congr
      intro i _
      exact pairUnsortedAt_cons_succ fn c (d :: r) i
    have hzero : pairUnsortedAt fn (c :: d :: r) 0 =
        (c.Prone || d.Prone || !(fn { c1 := c, c2 := d }).1) := by
      simp [pairUnsortedAt]
    simp only [NewCardPairs.loop, UnsortedPairs.loop, List.length_cons, List.range_succ_eq_map,
      List.filter_cons, htail, hzero, CardPair.EitherProne]
    by_cases hp : (c.Prone || d.Prone) = true
    · simp [hp, ih]
      omega
    · have hp1 : (c.Prone || d.Prone) = false := by simpa using hp
      by_cases hf : (fn { c1 := c, c2 := d }).1 = false
      · simp [hp1, hf, ih]
        omega
      · have hf1 : (fn { c1 := c, c2 := d }).1 = true := by simpa using hf
        simp [hp1, hf1, ih]

theorem unsortedPairs_eq_byIndex (pile : Pile) (fn : CardPair → Verdict) :
    UnsortedPairs pile fn = unsortedPairsByIndex pile.cards fn := by
  unfold UnsortedPairs unsortedPairsByIndex Pile.Len NewCardPairs
  match h : pile.cards with
  | [] => simp
  | [c] => simp
  | c :: d :: r =>
    have h2 : ¬ (c :: d :: r).length < 2 := by simp
    simp only [h2, if_false]
    rw [unsortedPairs_loop_index]
    simp

/-- C11. UnsortedPairs reference definition: for every pile and every
comparator fn, UnsortedPairs(pile, fn) is the number of indices i with
0 <= i < len - 1 such that card i or card i + 1 is face down or fn fails on
the pair (card i, card i + 1); it is 0 for piles of fewer than two cards,
never exceeds len - 1, and equals len - 1 when every card is face down,
whatever fn is. -/
theorem unsortedPairs_reference (pile : Pile) (fn : CardPair → Verdict) :
    UnsortedPairs pile fn = unsortedPairsByIndex pile.cards fn ∧
    (pile.cards.length < 2 → UnsortedPairs pile fn = 0) ∧
    UnsortedPairs pile fn ≤ pile.cards.length - 1 ∧
    ((∀ c ∈ pile.cards, c.Prone = true) → UnsortedPairs pile fn = pile.cards.length - 1) := by
  refine ⟨unsortedPairs_eq_byIndex pile fn, ?_, ?_, ?_⟩
  · intro h
    simp [UnsortedPairs, Pile.Len, h]
  · rw [unsortedPairs_eq_byIndex]
    unfold unsortedPairsByIndex
    calc ((List.range (pile.cards.length - 1)).filter (pairUnsortedAt fn pile.cards)).length
        ≤ (List.range (pile.cards.length - 1)).length := List.length_filter_le _ _
      _ = pile.cards.length - 1 := List.length_range _
  · intro hall
    rw [unsortedPairs_eq_byIndex]
    unfold unsortedPairsByIndex
    have hfil : (List.range (pile.cards.length - 1)).filter (pairUnsortedAt fn pile.cards) =
        List.range (pile.cards.length - 1) := by
      rw [List.filter_eq_self]
      intro i hi
      rw [List.mem_range] at hi
      have h1 : i < pile.cards.length := by omega
      have h2 : i + 1 < pile.cards.length := by omega
      have hp := hall _ (List.getElem_mem h1)
      simp [pairUnsortedAt, List.getElem?_eq_getElem h1, List.getElem?_eq_getElem h2, hp]
    rw [hfil, List.length_range]

theorem fortyThieves_unsortedPairs_loop_acc (pairs : List CardPair) : ∀ k : Nat,
    FortyThieves.UnsortedPairs.loop k pairs = k + FortyThieves.UnsortedPairs.loop 0 pairs := by
  induction pairs with
  | nil => intro k; simp [FortyThieves.UnsortedPairs.loop]
  | cons pair rest ih =>
    intro k
    simp only [FortyThieves.UnsortedPairs.loop]
    split
    · rw [ih (k + 1), ih (0 + 1)]
      omega
    · rw [ih k]

theorem unsortedPairs_loop_faceUp (pairs : List CardPair)
    (hup : ∀ cp ∈ pairs, cp.EitherProne = false) : ∀ k : Nat,
    UnsortedPairs.loop CardPair.Compare_DownSuit k pairs =
      FortyThieves.UnsortedPairs.loop k pairs := by
  induction pairs with
  | nil => intro k; rfl
  | cons pair rest ih =>
    intro k
    have hp := hup pair (List.mem_cons_self _ _)
    have hrest : ∀ cp ∈ rest, cp.EitherProne = false :=
      fun cp hcp => hup cp (List.mem_cons_of_mem _ hcp)
    simp only [UnsortedPairs.loop, FortyThieves.UnsortedPairs.loop, hp, Bool.false_eq_true,
      if_false, ih hrest]

theorem mem_newCardPairs_loop (rest : List Card) : ∀ (c : Card) (cp : CardPair),
    cp ∈ NewCardPairs.loop c rest → cp.c1 ∈ c :: rest ∧ cp.c2 ∈ rest := by
  induction rest with
  | nil =>
    intro c cp h
    simp [NewCardPairs.loop] at h
  | cons d r ih =>
    intro c cp h
    simp only [NewCardPairs.loop, List.mem_cons] at h
    rcases h with h | h
    · subst h
      simp
    · obtain ⟨h1, h2⟩ := ih d cp h
      exact ⟨List.mem_cons_of_mem _ h1, List.mem_cons_of_mem _ h2⟩

theorem newCardPairs_cons (c : Card) (rest : List Card) :
    NewCardPairs (c :: rest) = NewCardPairs.loop c rest := by
  cases rest with
  | nil => simp [NewCardPairs, NewCardPairs.loop]
  | cons d r => simp [NewCardPairs]

theorem mem_newCardPairs (cards : List Card) (cp : CardPair) (h : cp ∈ NewCardPairs cards) :
    cp.c1 ∈ cards ∧ cp.c2 ∈ cards := by
  cases cards with
  | nil => simp [NewCardPairs] at h
  | cons c rest =>
    rw [newCardPairs_cons] at h
    obtain ⟨h1, h2⟩ := mem_newCardPairs_loop rest c cp h
    exact ⟨h1, List.mem_cons_of_mem _ h2⟩

/-- C12. The unsorted-pair counts of the variants against the generic count
with Compare_DownSuit: SimpleSimon.UnsortedPairs is the generic count on every
pile, and FortyThieves.UnsortedPairs is the generic count on every pile whose
cards are all face up; on the two face-down cards King, Queen of one suit the
generic count and SimpleSimon.UnsortedPairs are 1 while
FortyThieves.UnsortedPairs is 0: it never looks at the face of a card. -/
theorem variant_unsortedPairs_on_faceDown :
    (∀ pile : Pile,
      SimpleSimon.UnsortedPairs pile = UnsortedPairs pile CardPair.Compare_DownSuit) ∧
    (∀ pile : Pile, (∀ c ∈ pile.cards, c.Prone = false) →
      FortyThieves.UnsortedPairs pile = UnsortedPairs pile CardPair.Compare_DownSuit) ∧
    UnsortedPairs faceDownStep CardPair.Compare_DownSuit = 1 ∧
    SimpleSimon.UnsortedPairs faceDownStep = 1 ∧
    FortyThieves.UnsortedPairs faceDownStep = 0 := by
  refine ⟨fun _ => rfl, ?_, by decide, by decide, by decide⟩
  intro pile hup
  unfold FortyThieves.UnsortedPairs UnsortedPairs
  by_cases hlen : pile.Len < 2
  · have hnil : NewCardPairs pile.cards = [] := by
      unfold NewCardPairs
      exact if_pos hlen
    simp [hlen, hnil, FortyThieves.UnsortedPairs.loop]
  · rw [if_neg hlen]
    symm
    apply unsortedPairs_loop_faceUp
    intro cp hcp
    obtain ⟨h1, h2⟩ := mem_newCardPairs pile.cards cp hcp
    simp [CardPair.EitherProne, hup _ h1, hup _ h2]

/-! ## The King, Queen, Jack example -/

/-- C13, as stated, fails: with spades black and hearts red, the pair (King of
spades, Queen of hearts) passes Compare_DownAltColor, the full suffix King of
spades, Queen of hearts, Jack of spades is internally legal, and so the legal
non-empty suffixes are not exactly the two shorter ones. -/
theorem kingQueenJack_full_suffix_legal :
    TailLegal (CardPair.Compare_DownAltColor clubsSpadesBlack)
      [faceUpCard 0 4 13, faceUpCard 0 3 12, faceUpCard 0 4 11] ∧
    (CardPair.Compare_DownAltColor clubsSpadesBlack
      { c1 := faceUpCard 0 4 13, c2 := faceUpCard 0 3 12 }).Accepted ∧
    ¬ (∀ t : List Card,
        (t ∈ [faceUpCard 0 4 13, faceUpCard 0 3 12, faceUpCard 0 4 11].tails ∧ t ≠ [] ∧
          TailLegal (CardPair.Compare_DownAltColor clubsSpadesBlack) t) ↔
        (t = [faceUpCard 0 3 12, faceUpCard 0 4 11] ∨ t = [faceUpCard 0 4 11])) := by
  refine ⟨by decide, by decide, ?_⟩
  intro h
  have h1 := (h [faceUpCard 0 4 13, faceUpCard 0 3 12, faceUpCard 0 4 11]).mp
    ⟨by simp [List.tails], by simp, by decide⟩
  revert h1
  decide

/-- C13, amended. Move-granularity example: for the all-face-up pile King of
spades, Queen of hearts, Jack of spades, under any colouring with spades black
and hearts red, the non-empty suffixes whose every adjacent pair (as produced
by NewCardPairs) passes Compare_DownAltColor are all three: the full pile, the
suffix Queen, Jack and the suffix Jack; the King-Queen pair passes the
alternating-colour comparator. -/
theorem kingQueenJack_legal_suffixes (black : Nat → Bool) (spade heart : Nat)
    (hs : black spade = true) (hh : black heart = false) (t : List Card) :
    ((t ∈ [faceUpCard 0 spade 13, faceUpCard 0 heart 12, faceUpCard 0 spade 11].tails ∧
        t ≠ [] ∧ TailLegal (CardPair.Compare_DownAltColor black) t) ↔
      (t = [faceUpCard 0 spade 13, faceUpCard 0 heart 12, faceUpCard 0 spade 11] ∨
        t = [faceUpCard 0 heart 12, faceUpCard 0 spade 11] ∨
        t = [faceUpCard 0 spade 11])) ∧
    (CardPair.Compare_DownAltColor black
      { c1 := faceUpCard 0 spade 13, c2 := faceUpCard 0 heart 12 }).Accepted := by
  have hKQ : (CardPair.Compare_DownAltColor black
      { c1 := faceUpCard 0 spade 13, c2 := faceUpCard 0 heart 12 }).Accepted := by
    simp [CardPair.Compare_DownAltColor, CardPair.Compare_Down, Card.Black, Card.Ordinal,
      faceUpCard, NewCard, NewCardID, Card.SetProne, Verdict.Accepted, hs, hh]
  have hQJ : (CardPair.Compare_DownAltColor black
      { c1 := faceUpCard 0 heart 12, c2 := faceUpCard 0 spade 11 }).Accepted := by
    simp [CardPair.Compare_DownAltColor, CardPair.Compare_Down, Card.Black, Card.Ordinal,
      faceUpCard, NewCard, NewCardID, Card.SetProne, Verdict.Accepted, hs, hh]
  refine ⟨?_, hKQ⟩
  constructor
  · rintro ⟨hmem, hne, _⟩
    simp only [List.tails, List.mem_cons, List.mem_singleton] at hmem
    rcases hmem with h | h | h | h
    · exact Or.inl h
    · exact Or.inr (Or.inl h)
    · exact Or.inr (Or.inr h)
    · simp at h
      exact absurd h hne
  · intro h
    rcases h with h | h | h
    · subst h
      refine ⟨by simp [List.tails], by simp, ?_⟩
      intro cp hcp
      simp only [NewCardPairs, NewCardPairs.loop, List.length_cons, List.length_nil,
        List.mem_cons, List.mem_singleton] at hcp
      simp at hcp
      rcases hcp with h1 | h1
      · rw [h1]; exact hKQ
      · rw [h1]; exact hQJ
    · subst h
      refine ⟨by simp [List.tails], by simp, ?_⟩
      intro cp hcp
      simp only [NewCardPairs, NewCardPairs.loop, List.length_cons, List.length_nil,
        List.mem_cons, List.mem_singleton] at hcp
      simp at hcp
      rw [hcp]; exact hQJ
    · subst h
      refine ⟨by simp [List.tails], by simp, ?_⟩
      intro cp hcp
      simp [NewCardPairs] at hcp

theorem kingQueenJack_legal_suffixes_witness :
    clubsSpadesBlack 4 = true ∧ clubsSpadesBlack 3 = false ∧
    TailLegal (CardPair.Compare_DownAltColor clubsSpadesBlack)
      [faceUpCard 0 4 13, faceUpCard 0 3 12, faceUpCard 0 4 11] :=
  ⟨rfl, rfl,
   ((kingQueenJack_legal_suffixes clubsSpadesBlack 4 3 rfl rfl
      [faceUpCard 0 4 13, faceUpCard 0 3 12, faceUpCard 0 4 11]).1.mpr (Or.inl rfl)).2.2⟩

/-! ## Properties of the tail predicates -/

theorem comparePairs_accepted (fn : CardPair → Verdict) (pairs : List CardPair) :
    (comparePairs fn pairs).Accepted ↔ ∀ cp ∈ pairs, (fn cp).Accepted := by
  induction pairs with
  | nil => simp [comparePairs, Verdict.Accepted]
  | cons pair rest ih =>
    simp only [comparePairs, List.mem_cons, forall_eq_or_imp]
    by_cases hf : (fn pair).1 = false
    · simp [hf, Verdict.Accepted]
    · have hf1 : (fn pair).1 = true := by simpa using hf
      simp only [hf1, Bool.true_eq_false, if_false, ih]
      simp [Verdict.Accepted, hf1]

theorem comparePairs_eq_ok (fn : CardPair → Verdict) (pairs : List CardPair)
    (h : ∀ cp ∈ pairs, (fn cp).Accepted) : comparePairs fn pairs = (true, none) := by
  induction pairs with
  | nil => rfl
  | cons pair rest ih =>
    have hp : (fn pair).1 = true := h pair (List.mem_cons_self _ _)
    simp only [comparePairs, hp, Bool.true_eq_false, if_false]
    exact ih (fun cp hcp => h cp (List.mem_cons_of_mem _ hcp))

theorem comparePairs_first_failure (fn : CardPair → Verdict) (pairs : List CardPair)
    (h : ¬ ∀ cp ∈ pairs, (fn cp).Accepted) :
    ∃ pre cp post, pairs = pre ++ cp :: post ∧ (∀ q ∈ pre, (fn q).Accepted) ∧
      ¬ (fn cp).Accepted ∧ comparePairs fn pairs = (false, (fn cp).2) := by
  induction pairs with
  | nil => simp at h
  | cons pair rest ih =>
    by_cases hf : (fn pair).1 = false
    · refine ⟨[], pair, rest, rfl, by simp, by simp [Verdict.Accepted, hf], ?_⟩
      simp [comparePairs, hf]
    · have hf1 : (fn pair).1 = true := by simpa using hf
      have hrest : ¬ ∀ cp ∈ rest, (fn cp).Accepted := by
        intro hall
        apply h
        intro cp hcp
        rcases List.mem_cons.mp hcp with h1 | h1
        · rw [h1]; exact hf1
        · exact hall cp h1
      obtain ⟨pre, cp, post, he, hpre, hcp, hres⟩ := ih hrest
      refine ⟨pair :: pre, cp, post, by simp [he], ?_, hcp, ?_⟩
      · intro q hq
        rcases List.mem_cons.mp hq with h1 | h1
        · rw [h1]; exact hf1
        · exact hpre q h1
      · simp only [comparePairs, hf1, Bool.true_eq_false, if_false]
        exact hres

/-- C14. TailMoveError, the internal legality of a tail: for FortyThieves and
for SimpleSimon and every non-empty tail whose first card is owned by a
Tableau, TailMoveError succeeds iff every adjacent pair of the tail passes
Compare_DownSuit, a success carries no reason, and on failure the answer is
false with the reason of the first failing pair counted from the first card of
the tail; a one-card tail always succeeds; and a tail owned by any other kind
of pile always succeeds. -/
theorem tailMoveError_internal_legality (owner : Card → Pile) (tail : List Card) (c : Card)
    (hne : tail.head? = some c) :
    ((owner c).subtype = PileSubtype.Tableau →
      (Succeeds (FortyThieves.TailMoveError owner tail) ↔
        TailLegal CardPair.Compare_DownSuit tail) ∧
      (TailLegal CardPair.Compare_DownSuit tail →
        FortyThieves.TailMoveError owner tail = some (true, none)) ∧
      (¬ TailLegal CardPair.Compare_DownSuit tail →
        ∃ pre cp post, NewCardPairs tail = pre ++ cp :: post ∧
          (∀ q ∈ pre, q.Compare_DownSuit.Accepted) ∧ ¬ cp.Compare_DownSuit.Accepted ∧
          FortyThieves.TailMoveError owner tail = some (false, cp.Compare_DownSuit.2))) ∧
    ((owner c).category = "Tableau" →
      (Succeeds (SimpleSimon.TailMoveError owner tail) ↔
        TailLegal CardPair.Compare_DownSuit tail) ∧
      (TailLegal CardPair.Compare_DownSuit tail →
        SimpleSimon.TailMoveError owner tail = some (true, none)) ∧
      (¬ TailLegal CardPair.Compare_DownSuit tail →
        ∃ pre cp post, NewCardPairs tail = pre ++ cp :: post ∧
          (∀ q ∈ pre, q.Compare_DownSuit.Accepted) ∧ ¬ cp.Compare_DownSuit.Accepted ∧
          SimpleSimon.TailMoveError owner tail = some (false, cp.Compare_DownSuit.2))) ∧
    (tail = [c] →
      FortyThieves.TailMoveError owner tail = some (true, none) ∧
      SimpleSimon.TailMoveError owner tail = some (true, none)) ∧
    ((owner c).subtype ≠ PileSubtype.Tableau →
      FortyThieves.TailMoveError owner tail = some (true, none)) ∧
    ((owner c).category ≠ "Tableau" →
      SimpleSimon.TailMoveError owner tail = some (true, none)) := by
  have hft : (owner c).subtype = PileSubtype.Tableau → FortyThieves.TailMoveError owner tail =
      some (comparePairs CardPair.Compare_DownSuit (NewCardPairs tail)) := by
    intro ho
    simp [FortyThieves.TailMoveError, hne, ho]
  have hss : (owner c).category = "Tableau" → SimpleSimon.TailMoveError owner tail =
      some (comparePairs CardPair.Compare_DownSuit (NewCardPairs tail)) := by
    intro ho
    simp [SimpleSimon.TailMoveError, hne, ho]
  have hftOther : (owner c).subtype ≠ PileSubtype.Tableau →
      FortyThieves.TailMoveError owner tail = some (true, none) := by
    intro ho
    simp only [FortyThieves.TailMoveError, hne]
  have hssOther : (owner c).category ≠ "Tableau" →
      SimpleSimon.TailMoveError owner tail = some (true, none) := by
    intro ho
    simp [SimpleSimon.TailMoveError, hne, ho]
  refine ⟨?_, ?_, ?_, hftOther, hssOther⟩
  · intro ho
    rw [hft ho]
    refine ⟨?_, ?_, ?_⟩
    · rw [succeeds_some_iff, comparePairs_accepted]
      rfl
    · intro hl
      rw [comparePairs_eq_ok _ _ hl]
    · intro hl
      obtain ⟨pre, cp, post, he, hpre, hcp, hres⟩ :=
        comparePairs_first_failure CardPair.Compare_DownSuit (NewCardPairs tail) hl
      exact ⟨pre, cp, post, he, hpre, hcp, by rw [hres]⟩
  · intro ho
    rw [hss ho]
    refine ⟨?_, ?_, ?_⟩
    · rw [succeeds_some_iff, comparePairs_accepted]
      rfl
    · intro hl
      rw [comparePairs_eq_ok _ _ hl]
    · intro hl
      obtain ⟨pre, cp, post, he, hpre, hcp, hres⟩ :=
        comparePairs_first_failure CardPair.Compare_DownSuit (NewCardPairs tail) hl
      exact ⟨pre, cp, post, he, hpre, hcp, by rw [hres]⟩
  · intro ht
    have hnil : NewCardPairs tail = [] := by
      rw [ht]
      rfl
    constructor
    · by_cases ho : (owner c).subtype = PileSubtype.Tableau
      · rw [hft ho, hnil]
        rfl
      · exact hftOther ho
    · by_cases ho : (owner c).category = "Tableau"
      · rw [hss ho, hnil]
        rfl
      · exact hssOther ho

theorem tailMoveError_internal_legality_witness :
    [faceUpCard 0 2 9, faceUpCard 0 2 8, faceUpCard 0 3 7].head? = some (faceUpCard 0 2 9) ∧
    FortyThieves.TailMoveError (fun _ => nineTableau)
      [faceUpCard 0 2 9, faceUpCard 0 2 8] = some (true, none) ∧
    (∃ pre cp post,
      NewCardPairs [faceUpCard 0 2 9, faceUpCard 0 2 8, faceUpCard 0 3 7] = pre ++ cp :: post ∧
      (∀ q ∈ pre, q.Compare_DownSuit.Accepted) ∧ ¬ cp.Compare_DownSuit.Accepted ∧
      SimpleSimon.TailMoveError (fun _ => nineTableau)
        [faceUpCard 0 2 9, faceUpCard 0 2 8, faceUpCard 0 3 7] =
          some (false, cp.Compare_DownSuit.2)) :=
  ⟨rfl,
   ((tailMoveError_internal_legality (fun _ => nineTableau)
      [faceUpCard 0 2 9, faceUpCard 0 2 8] (faceUpCard 0 2 9) rfl).1 rfl).2.1 (by decide),
   ((tailMoveError_internal_legality (fun _ => nineTableau)
      [faceUpCard 0 2 9, faceUpCard 0 2 8, faceUpCard 0 3 7] (faceUpCard 0 2 9) rfl).2.1
        rfl).2.2 (by decide)⟩

/-- C15. Tableau append rule: for every non-empty tail, TailAppendError onto an
empty Tableau succeeds under both variants; onto a non-empty Tableau it is the
answer of Compare_DownSuit on the pair (top card of the destination, first
card of the tail) under FortyThieves and the answer of Compare_Down on that
pair under SimpleSimon, so it succeeds iff that pair passes; only the first
card of the tail is examined. -/
theorem tableau_append_rule (dst : Pile) (tail : List Card) (c : Card)
    (hne : tail.head? = some c) :
    (dst.subtype = PileSubtype.Tableau →
      (dst.cards = [] → FortyThieves.TailAppendError dst tail = some (true, none)) ∧
      (∀ top, dst.Peek = some top →
        FortyThieves.TailAppendError dst tail =
          some (CardPair.Compare_DownSuit { c1 := top, c2 := c }) ∧
        (Succeeds (FortyThieves.TailAppendError dst tail) ↔
          (CardPair.Compare_DownSuit { c1 := top, c2 := c }).Accepted)) ∧
      (∀ other : List Card, other.head? = some c →
        FortyThieves.TailAppendError dst other = FortyThieves.TailAppendError dst tail)) ∧
    (dst.category = "Tableau" →
      (dst.cards = [] → SimpleSimon.TailAppendError dst tail = some (true, none)) ∧
      (∀ top, dst.Peek = some top →
        SimpleSimon.TailAppendError dst tail =
          some (CardPair.Compare_Down { c1 := top, c2 := c }) ∧
        (Succeeds (SimpleSimon.TailAppendError dst tail) ↔
          (CardPair.Compare_Down { c1 := top, c2 := c }).Accepted)) ∧
      (∀ other : List Card, other.head? = some c →
        SimpleSimon.TailAppendError dst other = SimpleSimon.TailAppendError dst tail)) := by
  have hnd : ¬ ("Tableau" = "Discard") := by decide
  constructor
  · intro hd
    refine ⟨?_, ?_, ?_⟩
    · intro he
      simp [FortyThieves.TailAppendError, hd, Pile.Empty, he]
    · intro top ht
      have hcards : dst.cards ≠ [] := by
        intro h
        simp [Pile.Peek, h] at ht
      have heq : FortyThieves.TailAppendError dst tail =
          some (CardPair.Compare_DownSuit { c1 := top, c2 := c }) := by
        simp [FortyThieves.TailAppendError, hd, Pile.Empty, hcards, ht, hne]
      exact ⟨heq, by rw [heq, succeeds_some_iff]⟩
    · intro other ho
      simp only [FortyThieves.TailAppendError, hd, hne, ho]
  · intro hd
    refine ⟨?_, ?_, ?_⟩
    · intro he
      simp [SimpleSimon.TailAppendError, hd, hnd, Pile.Empty, he]
    · intro top ht
      have hcards : dst.cards ≠ [] := by
        intro h
        simp [Pile.Peek, h] at ht
      have heq : SimpleSimon.TailAppendError dst tail =
          some (CardPair.Compare_Down { c1 := top, c2 := c }) := by
        simp [SimpleSimon.TailAppendError, hd, hnd, Pile.Empty, hcards, ht, hne]
      exact ⟨heq, by rw [heq, succeeds_some_iff]⟩
    · intro other ho
      simp only [SimpleSimon.TailAppendError, hd, hnd, hne, ho, if_false, if_true]

theorem tableau_append_rule_witness :
    [faceUpCard 0 2 8, faceUpCard 0 3 1].head? = some (faceUpCard 0 2 8) ∧
    FortyThieves.TailAppendError NewTableau [faceUpCard 0 2 8, faceUpCard 0 3 1] =
      some (true, none) ∧
    Succeeds (FortyThieves.TailAppendError nineTableau [faceUpCard 0 2 8, faceUpCard 0 3 1]) ∧
    SimpleSimon.TailAppendError nineTableau [faceUpCard 0 2 8, faceUpCard 0 3 1] =
      some (CardPair.Compare_Down { c1 := faceUpCard 0 2 9, c2 := faceUpCard 0 2 8 }) :=
  ⟨rfl,
   ((tableau_append_rule NewTableau [faceUpCard 0 2 8, faceUpCard 0 3 1]
      (faceUpCard 0 2 8) rfl).1 rfl).1 rfl,
   (((tableau_append_rule nineTableau [faceUpCard 0 2 8, faceUpCard 0 3 1]
      (faceUpCard 0 2 8) rfl).1 rfl).2.1 (faceUpCard 0 2 9) rfl).2.mpr (by decide),
   (((tableau_append_rule nineTableau [faceUpCard 0 2 8, faceUpCard 0 3 1]
      (faceUpCard 0 2 8) rfl).2 rfl).2.1 (faceUpCard 0 2 9) rfl).1⟩

/-- C17. Stock and Waste never accept cards under Forty Thieves: for every
tail, empty or not, FortyThieves.TailAppendError answers false with a reason
whenever the destination is a Stock pile or a Waste pile, whatever the
destination and the tail hold. -/
theorem stock_waste_never_accept (dst : Pile) (tail : List Card)
    (hd : dst.subtype = PileSubtype.Waste ∨ ∃ r, dst.subtype = PileSubtype.Stock r) :
    (∃ reason, FortyThieves.TailAppendError dst tail = some (false, some reason)) ∧
    (dst.subtype = PileSubtype.Waste → FortyThieves.TailAppendError dst tail =
      some (false, some "You cannot move cards to the Waste")) ∧
    (∀ r, dst.subtype = PileSubtype.Stock r → FortyThieves.TailAppendError dst tail =
      some (false, some "You cannot move cards to the Stock")) := by
  have hw : dst.subtype = PileSubtype.Waste → FortyThieves.TailAppendError dst tail =
      some (false, some "You cannot move cards to the Waste") := by
    intro h
    simp [FortyThieves.TailAppendError, h]
  have hs : ∀ r, dst.subtype = PileSubtype.Stock r → FortyThieves.TailAppendError dst tail =
      some (false, some "You cannot move cards to the Stock") := by
    intro r h
    simp [FortyThieves.TailAppendError, h]
  refine ⟨?_, hw, hs⟩
  rcases hd with h | ⟨r, h⟩
  · exact ⟨_, hw h⟩
  · exact ⟨_, hs r h⟩

theorem stock_waste_never_accept_witness :
    (exampleWaste.subtype = PileSubtype.Waste ∨
      ∃ r, exampleWaste.subtype = PileSubtype.Stock r) ∧
    FortyThieves.TailAppendError exampleWaste [faceUpCard 0 1 1] =
      some (false, some "You cannot move cards to the Waste") ∧
    FortyThieves.TailAppendError (fullStock 2) [] =
      some (false, some "You cannot move cards to the Stock") :=
  ⟨Or.inl rfl,
   (stock_waste_never_accept exampleWaste [faceUpCard 0 1 1] (Or.inl rfl)).2.1 rfl,
   (stock_waste_never_accept (fullStock 2) [] (Or.inr ⟨0, rfl⟩)).2.2 0 rfl⟩

/-! ## Discards of Simple Simon -/

/-- A tail whose adjacent pairs all pass Compare_DownSuit runs down in one
suit from its first card. -/
theorem downSuit_run (rest : List Card) : ∀ c : Card,
    (∀ cp ∈ NewCardPairs.loop c rest, cp.Compare_DownSuit.Accepted) →
    ∀ (i : Nat) (d : Card), (c :: rest)[i]? = some d →
      d.Suit = c.Suit ∧ d.Ordinal = c.Ordinal - (i : Int) := by
  induction rest with
  | nil =>
    intro c _ i d hd
    cases i with
    | zero =>
      simp only [List.getElem?_cons_zero, Option.some.injEq] at hd
      subst hd
      simp
    | succ i => simp at hd
  | cons e r ih =>
    intro c hall i d hd
    have hce : (CardPair.Compare_DownSuit { c1 := c, c2 := e }).Accepted :=
      hall _ (by simp [NewCardPairs.loop])
    rw [Compare_DownSuit_accepted] at hce
    simp only at hce
    have hrest : ∀ cp ∈ NewCardPairs.loop e r, cp.Compare_DownSuit.Accepted := by
      intro cp hcp
      exact hall cp (by simp [NewCardPairs.loop, hcp])
    cases i with
    | zero =>
      simp only [List.getElem?_cons_zero, Option.some.injEq] at hd
      subst hd
      simp
    | succ i =>
      simp only [List.getElem?_cons_succ] at hd
      obtain ⟨h1, h2⟩ := ih e hrest i d hd
      refine ⟨by rw [h1, hce.1], ?_⟩
      rw [h2, hce.2]
      push_cast
      ring

/-- C16. Discard acceptance in Simple Simon: for every non-empty tail and
every Discard pile, SimpleSimon.TailAppendError succeeds iff the first card of
the tail is a King and every adjacent pair of the tail passes
Compare_DownSuit; every accepted tail has all its cards in the suit of its
first card, its i-th card (from 0) has ordinal 13 - i, and, ordinals of cards
being at least 1, its length is at most 13. -/
theorem discard_acceptance (dst : Pile) (tail : List Card) (c : Card)
    (hd : dst.category = "Discard") (hne : tail.head? = some c) :
    (Succeeds (SimpleSimon.TailAppendError dst tail) ↔
      c.Ordinal = 13 ∧ TailLegal CardPair.Compare_DownSuit tail) ∧
    (Succeeds (SimpleSimon.TailAppendError dst tail) →
      SimpleSimon.TailAppendError dst tail = some (true, none) ∧
      (∀ (i : Nat) (d : Card), tail[i]? = some d →
        d.Suit = c.Suit ∧ d.Ordinal = 13 - (i : Int)) ∧
      ((∀ d ∈ tail, 1 ≤ d.Ordinal) → tail.length ≤ 13)) := by
  have hiff : Succeeds (SimpleSimon.TailAppendError dst tail) ↔
      c.Ordinal = 13 ∧ TailLegal CardPair.Compare_DownSuit tail := by
    by_cases hk : c.Ordinal = 13
    · have heq : SimpleSimon.TailAppendError dst tail =
          some (comparePairs CardPair.Compare_DownSuit (NewCardPairs tail)) := by
        simp [SimpleSimon.TailAppendError, hd, hne, hk]
      rw [heq, succeeds_some_iff, comparePairs_accepted]
      simp [hk, TailLegal]
    · have heq : SimpleSimon.TailAppendError dst tail =
          some (false, some "Can only discard starting from a King") := by
        simp [SimpleSimon.TailAppendError, hd, hne, hk]
      rw [heq]
      simp [hk, not_succeeds_false]
  refine ⟨hiff, ?_⟩
  intro hs
  obtain ⟨hk, hl⟩ := hiff.mp hs
  obtain ⟨rest, hrest⟩ : ∃ rest, tail = c :: rest := by
    cases tail with
    | nil => simp at hne
    | cons a rest =>
      simp only [List.head?_cons, Option.some.injEq] at hne
      exact ⟨rest, by rw [hne]⟩
  have hrun : ∀ (i : Nat) (d : Card), tail[i]? = some d →
      d.Suit = c.Suit ∧ d.Ordinal = 13 - (i : Int) := by
    intro i d hi
    rw [hrest] at hi
    have hl1 : ∀ cp ∈ NewCardPairs.loop c rest, cp.Compare_DownSuit.Accepted := by
      intro cp hcp
      apply hl
      rw [hrest, newCardPairs_cons]
      exact hcp
    obtain ⟨h1, h2⟩ := downSuit_run rest c hl1 i d hi
    exact ⟨h1, by rw [h2, hk]⟩
  refine ⟨?_, hrun, ?_⟩
  · have heq : SimpleSimon.TailAppendError dst tail =
        some (comparePairs CardPair.Compare_DownSuit (NewCardPairs tail)) := by
      simp [SimpleSimon.TailAppendError, hd, hne, hk]
    rw [heq, comparePairs_eq_ok _ _ hl]
  · intro hpos
    by_contra hlen
    have h13 : 13 < tail.length := by omega
    have hget : tail[13]? = some tail[13] := List.getElem?_eq_getElem h13
    obtain ⟨_, ho⟩ := hrun 13 tail[13] hget
    have := hpos tail[13] (List.getElem_mem h13)
    rw [ho] at this
    omega

theorem discard_acceptance_witness :
    emptyDiscard.category = "Discard" ∧ kingDownRun.head? = some (faceUpCard 0 1 13) ∧
    kingDownRun.length = 13 ∧
    SimpleSimon.TailAppendError emptyDiscard kingDownRun = some (true, none) :=
  ⟨rfl, rfl, rfl,
   ((discard_acceptance emptyDiscard kingDownRun (faceUpCard 0 1 13) rfl rfl).2
      ((discard_acceptance emptyDiscard kingDownRun (faceUpCard 0 1 13) rfl rfl).1.mpr
        ⟨by decide, by decide⟩)).1⟩

/-! ## The label check -/

theorem ordinalToShortString_none (ord : Int) (h : ¬ (1 ≤ ord ∧ ord ≤ 13)) :
    OrdinalToShortString ord = none := by
  unfold OrdinalToShortString
  rw [if_neg (by omega), if_neg (by omega), if_neg (by omega), if_neg (by omega),
    if_neg (by omega), if_neg (by omega), if_neg (by omega), if_neg (by omega),
    if_neg (by omega), if_neg (by omega), if_neg (by omega), if_neg (by omega),
    if_neg (by omega)]

theorem ordinalToShortString_ne_x (ord : Int) : OrdinalToShortString ord ≠ some "x" := by
  by_cases h : 1 ≤ ord ∧ ord ≤ 13
  · obtain ⟨h1, h13⟩ := h
    interval_cases ord <;> decide
  · rw [ordinalToShortString_none ord h]
    simp

theorem ordinalToShortString_eq_A (ord : Int) :
    OrdinalToShortString ord = some "A" ↔ ord = 1 := by
  by_cases h : 1 ≤ ord ∧ ord ≤ 13
  · obtain ⟨h1, h13⟩ := h
    interval_cases ord <;> decide
  · rw [ordinalToShortString_none ord h]
    constructor
    · intro h0
      cases h0
    · intro h0
      omega

theorem ordinalToShortString_isSome (ord : Int) (h1 : 1 ≤ ord) (h13 : ord ≤ 13) :
    ∃ short, OrdinalToShortString ord = some short := by
  interval_cases ord <;> exact ⟨_, rfl⟩

/-- C18. Label check: for every pile p and card c, Compare_Empty(p, c)
succeeds iff the label of p is empty or is the short string of the ordinal of
c ("A" for 1, ..., "K" for 13); an unlabelled pile accepts every card, a pile
labelled "A" accepts exactly the Aces, a pile labelled "x" rejects every card,
every rejection carries a reason, and the check answers for every card with an
ordinal in 1..13. -/
theorem compare_empty_label (long : String → String) (p : Pile) (c : Card) :
    (Succeeds (Compare_Empty long p c) ↔
      p.label = "" ∨ OrdinalToShortString c.Ordinal = some p.label) ∧
    (p.label = "" → Compare_Empty long p c = some (true, none)) ∧
    (p.label = "A" → (Succeeds (Compare_Empty long p c) ↔ c.Ordinal = 1)) ∧
    (p.label = "x" → Compare_Empty long p c = some (false, some "Cannot move cards there")) ∧
    (∀ e, Compare_Empty long p c = some (false, e) → e ≠ none) ∧
    (1 ≤ c.Ordinal → c.Ordinal ≤ 13 → ∃ v, Compare_Empty long p c = some v) := by
  have hiff : Succeeds (Compare_Empty long p c) ↔
      p.label = "" ∨ OrdinalToShortString c.Ordinal = some p.label := by
    unfold Compare_Empty Pile.Label
    by_cases hl : p.label = ""
    · simp [hl, Succeeds]
    · by_cases hx : p.label = "x"
      · have hnx := ordinalToShortString_ne_x c.Ordinal
        simp [hx, not_succeeds_false, hnx]
      · cases hs : OrdinalToShortString c.Ordinal with
        | none => simp [hl, hx, not_succeeds_none]
        | some ord =>
          by_cases ho : ord = p.label
          · simp [hl, hx, ho, Succeeds]
          · simp [hl, hx, ho, not_succeeds_false]
  refine ⟨hiff, ?_, ?_, ?_, ?_, ?_⟩
  · intro hl
    simp [Compare_Empty, Pile.Label, hl]
  · intro hA
    rw [hiff, hA, ordinalToShortString_eq_A]
    simp
  · intro hx
    simp [Compare_Empty, Pile.Label, hx]
  · intro e he
    unfold Compare_Empty Pile.Label at he
    by_cases hl : p.label = ""
    · simp [hl] at he
    · by_cases hx : p.label = "x"
      · simp [hx] at he
        rw [← he]
        simp
      · cases hs : OrdinalToShortString c.Ordinal with
        | none => simp [hl, hx, hs] at he
        | some ord =>
          by_cases ho : ord = p.label
          · simp [hl, hx, hs, ho] at he
          · simp [hl, hx, hs, ho] at he
            rw [← he]
            simp
  · intro h1 h13
    obtain ⟨short, hs⟩ := ordinalToShortString_isSome c.Ordinal h1 h13
    unfold Compare_Empty Pile.Label
    by_cases hl : p.label = ""
    · exact ⟨(true, none), by simp [hl]⟩
    · by_cases hx : p.label = "x"
      · exact ⟨(false, some "Cannot move cards there"), by simp [hx]⟩
      · by_cases ho : short = p.label
        · exact ⟨(true, none), by simp [hl, hx, hs, ho]⟩
        · exact ⟨(false, some ("Can only accept " ++ long p.label ++ ", not " ++ long short)),
            by simp [hl, hx, hs, ho]⟩

/-! ## Reasons -/

theorem wellFormed_ok : Verdict.WellFormed (true, none) := Or.inl ⟨rfl, rfl⟩

theorem wellFormed_fail (reason : String) : Verdict.WellFormed (false, some reason) :=
  Or.inr ⟨rfl, by simp⟩

theorem compare_up_down_wellFormed (cp : CardPair) :
    cp.Compare_Up.WellFormed ∧ cp.Compare_Down.WellFormed := by
  constructor
  · unfold CardPair.Compare_Up
    split_ifs
    · exact wellFormed_fail _
    · exact wellFormed_ok
  · unfold CardPair.Compare_Down
    split_ifs
    · exact wellFormed_fail _
    · exact wellFormed_ok

theorem compare_downSuit_wellFormed (cp : CardPair) : cp.Compare_DownSuit.WellFormed := by
  unfold CardPair.Compare_DownSuit
  split_ifs
  · exact wellFormed_fail _
  · exact (compare_up_down_wellFormed cp).2

theorem comparePairs_wellFormed (fn : CardPair → Verdict) (hfn : ∀ cp, (fn cp).WellFormed)
    (pairs : List CardPair) : (comparePairs fn pairs).WellFormed := by
  induction pairs with
  | nil => exact wellFormed_ok
  | cons pair rest ih =>
    unfold comparePairs
    split_ifs with hf
    · rcases hfn pair with h | h
      · rw [h.1] at hf
        cases hf
      · exact Or.inr ⟨rfl, h.2⟩
    · exact ih

theorem fortyThieves_tailAppendError_wellFormed (dst : Pile) (tail : List Card) (v : Verdict)
    (h : FortyThieves.TailAppendError dst tail = some v) : v.WellFormed := by
  unfold FortyThieves.TailAppendError at h
  split at h
  · cases h; exact wellFormed_fail _
  · cases h; exact wellFormed_fail _
  · split at h
    · split at h
      · cases h
      · split at h
        · cases h; exact wellFormed_fail _
        · cases h; exact wellFormed_ok
    · split at h
      · cases h
        unfold CardPair.Compare_UpSuit
        split_ifs
        · exact wellFormed_fail _
        · exact (compare_up_down_wellFormed _).1
      · cases h
  · split at h
    · cases h; exact wellFormed_ok
    · split at h
      · cases h
        exact compare_downSuit_wellFormed _
      · cases h
  · cases h; exact wellFormed_ok

theorem simpleSimon_tailAppendError_wellFormed (dst : Pile) (tail : List Card) (v : Verdict)
    (h : SimpleSimon.TailAppendError dst tail = some v) : v.WellFormed := by
  unfold SimpleSimon.TailAppendError at h
  split at h
  · split at h
    · cases h
    · split at h
      · cases h; exact wellFormed_fail _
      · cases h
        exact comparePairs_wellFormed _ compare_downSuit_wellFormed _
  · split at h
    · split at h
      · cases h; exact wellFormed_ok
      · split at h
        · cases h
          exact (compare_up_down_wellFormed _).2
        · cases h
    · cases h; exact wellFormed_ok

theorem fortyThieves_tailAppendError_returns (dst : Pile) (tail : List Card) (hne : tail ≠ []) :
    ∃ v, FortyThieves.TailAppendError dst tail = some v := by
  obtain ⟨c, rest, ht⟩ : ∃ c rest, tail = c :: rest := by
    cases tail with
    | nil => exact absurd rfl hne
    | cons c rest => exact ⟨c, rest, rfl⟩
  subst ht
  unfold FortyThieves.TailAppendError
  split
  · exact ⟨_, rfl⟩
  · exact ⟨_, rfl⟩
  · by_cases he : dst.Empty = true
    · simp only [he, if_true, List.head?_cons]
      split_ifs
      · exact ⟨_, rfl⟩
      · exact ⟨_, rfl⟩
    · have hcards : dst.cards ≠ [] := by
        intro h0
        apply he
        simp [Pile.Empty, h0]
      simp only [he, Bool.false_eq_true, if_false, List.head?_cons, Pile.Peek,
        List.getLast?_eq_getLast _ hcards]
      exact ⟨_, rfl⟩
  · by_cases he : dst.Empty = true
    · simp only [he, if_true]
      exact ⟨_, rfl⟩
    · have hcards : dst.cards ≠ [] := by
        intro h0
        apply he
        simp [Pile.Empty, h0]
      simp only [he, Bool.false_eq_true, if_false, List.head?_cons, Pile.Peek,
        List.getLast?_eq_getLast _ hcards]
      exact ⟨_, rfl⟩
  · exact ⟨_, rfl⟩

theorem simpleSimon_tailAppendError_returns (dst : Pile) (tail : List Card) (hne : tail ≠ []) :
    ∃ v, SimpleSimon.TailAppendError dst tail = some v := by
  obtain ⟨c, rest, ht⟩ : ∃ c rest, tail = c :: rest := by
    cases tail with
    | nil => exact absurd rfl hne
    | cons c rest => exact ⟨c, rest, rfl⟩
  subst ht
  unfold SimpleSimon.TailAppendError
  split_ifs with h1 h2 h3
  · simp only [List.head?_cons]
    split_ifs
    · exact ⟨_, rfl⟩
    · exact ⟨_, rfl⟩
  · exact ⟨_, rfl⟩
  · have hcards : dst.cards ≠ [] := by
      intro h0
      apply h3
      simp [Pile.Empty, h0]
    simp only [List.head?_cons, Pile.Peek, List.getLast?_eq_getLast _ hcards]
    exact ⟨_, rfl⟩
  · exact ⟨_, rfl⟩

theorem compare_empty_wellFormed (long : String → String) (p : Pile) (c : Card) (v : Verdict)
    (h : Compare_Empty long p c = some v) : v.WellFormed := by
  unfold Compare_Empty at h
  split at h
  · split at h
    · cases h; exact wellFormed_fail _
    · split at h
      · cases h
      · split at h
        · cases h; exact wellFormed_fail _
        · cases h; exact wellFormed_ok
  · cases h; exact wellFormed_ok

theorem canAcceptTail_wellFormed (script : Scripter) (lib : Nat) (f : Pile) (tail : List Card)
    (v : Verdict)
    (hscript : ∀ w, script.TailAppendError f tail = some w → w.WellFormed)
    (h : Foundation.CanAcceptTail script lib f tail = some v) : v.WellFormed := by
  unfold Foundation.CanAcceptTail at h
  split at h
  · cases h; exact wellFormed_fail _
  · split at h
    · cases h; exact wellFormed_fail _
    · split at h
      · cases h
      · cases h; exact wellFormed_fail _
      · exact hscript v h

theorem tailMoveError_wellFormed (owner : Card → Pile) (tail : List Card) (v : Verdict) :
    (FortyThieves.TailMoveError owner tail = some v → v.WellFormed) ∧
    (SimpleSimon.TailMoveError owner tail = some v → v.WellFormed) := by
  constructor
  · intro h
    unfold FortyThieves.TailMoveError at h
    split at h
    · cases h
    · split at h
      · cases h
        exact comparePairs_wellFormed _ compare_downSuit_wellFormed _
      · cases h; exact wellFormed_ok
  · intro h
    unfold SimpleSimon.TailMoveError at h
    split at h
    · cases h
    · split at h
      · cases h
        exact comparePairs_wellFormed _ compare_downSuit_wellFormed _
      · cases h; exact wellFormed_ok

theorem tailMoveError_returns (owner : Card → Pile) (tail : List Card) (hne : tail ≠ []) :
    (∃ v, FortyThieves.TailMoveError owner tail = some v) ∧
    (∃ v, SimpleSimon.TailMoveError owner tail = some v) := by
  obtain ⟨c, rest, ht⟩ : ∃ c rest, tail = c :: rest := by
    cases tail with
    | nil => exact absurd rfl hne
    | cons c rest => exact ⟨c, rest, rfl⟩
  subst ht
  constructor
  · unfold FortyThieves.TailMoveError
    simp only [List.head?_cons]
    split
    · exact ⟨_, rfl⟩
    · exact ⟨_, rfl⟩
  · unfold SimpleSimon.TailMoveError
    simp only [List.head?_cons]
    split_ifs
    · exact ⟨_, rfl⟩
    · exact ⟨_, rfl⟩

/-- C19. Every legality failure carries a reason and every success carries
none: each Compare_* comparator always answers (true, nil) or (false, err)
with err non-nil; so does every answer of Compare_Empty, of
Foundation.CanAcceptTail under FortyThieves, under SimpleSimon and under any
script whose append predicate does, and of TailMoveError and TailAppendError
of FortyThieves and SimpleSimon; and on non-empty tails TailMoveError and
TailAppendError of both variants do answer, as does Foundation.CanAcceptTail
under FortyThieves once the variant has a foundation. -/
theorem legality_results_wellFormed :
    (∀ (black : Nat → Bool) (cp : CardPair),
      cp.Compare_Up.WellFormed ∧ cp.Compare_Down.WellFormed ∧
      (cp.Compare_DownColor black).WellFormed ∧ (cp.Compare_DownAltColor black).WellFormed ∧
      (cp.Compare_DownColorWrap black).WellFormed ∧
      (cp.Compare_DownAltColorWrap black).WellFormed ∧
      (cp.Compare_UpAltColor black).WellFormed ∧ cp.Compare_UpSuit.WellFormed ∧
      cp.Compare_DownSuit.WellFormed ∧ cp.Compare_DownOtherSuit.WellFormed ∧
      cp.Compare_UpSuitWrap.WellFormed ∧ cp.Compare_DownSuitWrap.WellFormed) ∧
    (∀ (long : String → String) (p : Pile) (c : Card) (v : Verdict),
      Compare_Empty long p c = some v → v.WellFormed) ∧
    (∀ (script : Scripter) (lib : Nat) (f : Pile) (tail : List Card) (v : Verdict),
      (∀ w, script.TailAppendError f tail = some w → w.WellFormed) →
      Foundation.CanAcceptTail script lib f tail = some v → v.WellFormed) ∧
    (∀ (ft : FortyThieves) (lib : Nat) (f : Pile) (tail : List Card) (v : Verdict),
      Foundation.CanAcceptTail ft.asScripter lib f tail = some v → v.WellFormed) ∧
    (∀ (self : SimpleSimon) (lib : Nat) (f : Pile) (tail : List Card) (v : Verdict),
      Foundation.CanAcceptTail self.asScripter lib f tail = some v → v.WellFormed) ∧
    (∀ (owner : Card → Pile) (tail : List Card) (v : Verdict),
      (FortyThieves.TailMoveError owner tail = some v → v.WellFormed) ∧
      (SimpleSimon.TailMoveError owner tail = some v → v.WellFormed)) ∧
    (∀ (dst : Pile) (tail : List Card) (v : Verdict),
      (FortyThieves.TailAppendError dst tail = some v → v.WellFormed) ∧
      (SimpleSimon.TailAppendError dst tail = some v → v.WellFormed)) ∧
    (∀ (owner : Card → Pile) (tail : List Card), tail ≠ [] →
      (∃ v, FortyThieves.TailMoveError owner tail = some v) ∧
      (∃ v, SimpleSimon.TailMoveError owner tail = some v)) ∧
    (∀ (dst : Pile) (tail : List Card), tail ≠ [] →
      (∃ v, FortyThieves.TailAppendError dst tail = some v) ∧
      (∃ v, SimpleSimon.TailAppendError dst tail = some v)) ∧
    (∀ (ft : FortyThieves) (lib : Nat) (f : Pile) (tail : List Card), tail ≠ [] →
      ft.foundations ≠ [] →
      ∃ v, Foundation.CanAcceptTail ft.asScripter lib f tail = some v) := by
  refine ⟨?_, compare_empty_wellFormed, canAcceptTail_wellFormed, ?_, ?_,
    tailMoveError_wellFormed, ?_, tailMoveError_returns, ?_, ?_⟩
  · intro black cp
    have hud := compare_up_down_wellFormed cp
    refine ⟨hud.1, hud.2, ?_, ?_, ?_, ?_, ?_, ?_, compare_downSuit_wellFormed cp, ?_, ?_, ?_⟩
    · unfold CardPair.Compare_DownColor
      split_ifs
      · exact wellFormed_fail _
      · exact hud.2
    · unfold CardPair.Compare_DownAltColor
      split_ifs
      · exact wellFormed_fail _
      · exact hud.2
    · unfold CardPair.Compare_DownColorWrap
      split_ifs
      · exact wellFormed_fail _
      · exact wellFormed_ok
      · exact wellFormed_fail _
      · exact wellFormed_ok
    · unfold CardPair.Compare_DownAltColorWrap
      split_ifs
      · exact wellFormed_fail _
      · exact wellFormed_ok
      · exact wellFormed_fail _
      · exact wellFormed_ok
    · unfold CardPair.Compare_UpAltColor
      split_ifs
      · exact wellFormed_fail _
      · exact hud.1
    · unfold CardPair.Compare_UpSuit
      split_ifs
      · exact wellFormed_fail _
      · exact hud.1
    · unfold CardPair.Compare_DownOtherSuit
      split_ifs
      · exact wellFormed_fail _
      · exact hud.2
    · unfold CardPair.Compare_UpSuitWrap
      split_ifs
      · exact wellFormed_fail _
      · exact wellFormed_ok
      · exact wellFormed_ok
      · exact wellFormed_fail _
    · unfold CardPair.Compare_DownSuitWrap
      split_ifs
      · exact wellFormed_fail _
      · exact wellFormed_ok
      · exact wellFormed_ok
      · exact wellFormed_fail _
  · intro ft lib f tail v h
    exact canAcceptTail_wellFormed ft.asScripter lib f tail v
      (fun w hw => fortyThieves_tailAppendError_wellFormed f tail w hw) h
  · intro self lib f tail v h
    exact canAcceptTail_wellFormed self.asScripter lib f tail v
      (fun w hw => simpleSimon_tailAppendError_wellFormed f tail w hw) h
  · intro dst tail v
    exact ⟨fortyThieves_tailAppendError_wellFormed dst tail v,
      simpleSimon_tailAppendError_wellFormed dst tail v⟩
  · intro dst tail hne
    exact ⟨fortyThieves_tailAppendError_returns dst tail hne,
      simpleSimon_tailAppendError_returns dst tail hne⟩
  · intro ft lib f tail hne hf
    unfold Foundation.CanAcceptTail
    split_ifs
    · exact ⟨_, rfl⟩
    · exact ⟨_, rfl⟩
    · have hlen : ft.asScripter.Foundations.length ≠ 0 := by
        simp [FortyThieves.asScripter, FortyThieves.Foundations, hf]
      simp only [Foundation.Complete, hlen, if_false]
      cases (f.Len == lib / ft.asScripter.Foundations.length)
      · exact fortyThieves_tailAppendError_returns f tail hne
      · exact ⟨_, rfl⟩

theorem legality_results_wellFormed_witness :
    [faceUpCard 0 2 8] ≠ [] ∧
    (∃ v, FortyThieves.TailAppendError nineTableau [faceUpCard 0 2 8] = some v ∧
      v.WellFormed) ∧
    (∃ v, Foundation.CanAcceptTail fortyThievesGame.asScripter 104 NewFoundation
        [faceUpCard 0 2 8] = some v ∧ v.WellFormed) := by
  obtain ⟨v, hv⟩ :=
    (legality_results_wellFormed.2.2.2.2.2.2.2.2.1 nineTableau [faceUpCard 0 2 8]
      (by decide)).1
  obtain ⟨w, hw⟩ :=
    legality_results_wellFormed.2.2.2.2.2.2.2.2.2 fortyThievesGame 104 NewFoundation
      [faceUpCard 0 2 8] (by decide) (by decide)
  exact ⟨by decide,
    ⟨v, hv, (legality_results_wellFormed.2.2.2.2.2.2.1 nineTableau [faceUpCard 0 2 8] v).1 hv⟩,
    ⟨w, hw, legality_results_wellFormed.2.2.2.1 fortyThievesGame 104 NewFoundation
      [faceUpCard 0 2 8] w hw⟩⟩

/-! ## Properties of BuildPiles -/

theorem foundsLoop_eq (founds : List Int) : ∀ foundations : List Pile,
    FortyThieves.BuildPiles.foundsLoop founds foundations =
      foundations ++ List.replicate founds.length (NewFoundation.SetLabel "A") := by
  induction founds with
  | nil => intro foundations; simp [FortyThieves.BuildPiles.foundsLoop]
  | cons x rest ih =>
    intro foundations
    simp only [FortyThieves.BuildPiles.foundsLoop, ih, List.length_cons, List.append_assoc]
    congr 1

theorem tabsLoop_eq (tabs : List Int) : ∀ tableaux : List Pile,
    FortyThieves.BuildPiles.tabsLoop tabs tableaux =
      tableaux ++ List.replicate tabs.length NewTableau := by
  induction tabs with
  | nil => intro tableaux; simp [FortyThieves.BuildPiles.tabsLoop]
  | cons x rest ih =>
    intro tableaux
    simp only [FortyThieves.BuildPiles.tabsLoop, ih, List.length_cons, List.append_assoc]
    congr 1

theorem appendPiles_eq (pile : Pile) (turns : Nat) : ∀ piles : List Pile,
    appendPiles pile turns piles = piles ++ List.replicate turns pile := by
  induction turns with
  | zero => intro piles; simp [appendPiles]
  | succ n ih =>
    intro piles
    simp only [appendPiles, ih, List.append_assoc]
    congr 1

/-- C20. What BuildPiles leaves behind. SimpleSimon.BuildPiles resets its
lists, so after every call there are exactly 4 discards and 10 tableaux.
FortyThieves.BuildPiles appends to the lists it finds: each call adds
len(founds) foundations labelled "A" and len(tabs) tableaux, so the first call
on the catalog entry "Forty Thieves" gives 8 foundations and 10 tableaux, and
a second call on the same value, for a new game, gives 16 foundations and 20
tableaux, not 8 and 10. -/
theorem buildPiles_second_call :
    (∀ (newStock : Pile) (self : SimpleSimon),
      (SimpleSimon.BuildPiles newStock self).discards.length = 4 ∧
      (SimpleSimon.BuildPiles newStock self).tableaux.length = 10) ∧
    (∀ ft : FortyThieves,
      ft.BuildPiles.foundations =
        ft.foundations ++ List.replicate ft.founds.length (NewFoundation.SetLabel "A") ∧
      ft.BuildPiles.tableaux = ft.tableaux ++ List.replicate ft.tabs.length NewTableau) ∧
    (fortyThievesEntry.BuildPiles.foundations.length = 8 ∧
      fortyThievesEntry.BuildPiles.tableaux.length = 10 ∧
      ∀ f ∈ fortyThievesEntry.BuildPiles.foundations, f.label = "A") ∧
    (fortyThievesEntry.BuildPiles.BuildPiles.foundations.length = 16 ∧
      fortyThievesEntry.BuildPiles.BuildPiles.tableaux.length = 20 ∧
      fortyThievesEntry.BuildPiles.BuildPiles.foundations.length ≠
        fortyThievesEntry.BuildPiles.BuildPiles.founds.length) := by
  refine ⟨?_, ?_, ?_, ?_⟩
  · intro newStock self
    simp [SimpleSimon.BuildPiles, appendPiles_eq]
  · intro ft
    simp [FortyThieves.BuildPiles, foundsLoop_eq, tabsLoop_eq]
  · refine ⟨rfl, rfl, ?_⟩
    decide
  · exact ⟨rfl, rfl, by decide⟩

/-! ## Forty Thieves after a move -/

/-- C21. Forty Thieves auto-refill: for every stock and waste,
FortyThieves.AfterMove returns, and after it the waste is non-empty or the
stock is empty; if the waste was empty and the stock non-empty, exactly the top
card of the stock has moved to the waste (the stock is one card shorter, the
waste holds that one card), and otherwise neither pile nor anything else is
changed. -/
theorem fortyThieves_afterMove_refill (ft : FortyThieves) (stock waste : Pile)
    (hw : ft.waste = some waste) :
    ∃ ft1 stock1 waste1, FortyThieves.AfterMove ft stock = some (ft1, stock1) ∧
      ft1.waste = some waste1 ∧
      (waste1.cards ≠ [] ∨ stock1.cards = []) ∧
      (waste.cards = [] → stock.cards ≠ [] →
        ∃ rest top, stock.cards = rest ++ [top] ∧ stock.Peek = some top ∧
          stock1.cards = rest ∧ waste1.cards = [top] ∧
          stock1.cards.length + 1 = stock.cards.length ∧ waste1.cards.length = 1) ∧
      (¬ (waste.cards = [] ∧ stock.cards ≠ []) →
        ft1 = ft ∧ stock1 = stock ∧ waste1 = waste) := by
  unfold FortyThieves.AfterMove
  simp only [hw]
  by_cases hc : waste.Len = 0 ∧ stock.Len ≠ 0
  · obtain ⟨h1, h2⟩ := hc
    have hwe : waste.cards = [] := List.length_eq_zero.mp h1
    have hsne : stock.cards ≠ [] := fun h => h2 (by simp [Pile.Len, h])
    rcases List.eq_nil_or_concat stock.cards with he | ⟨rest, top, he⟩
    · exact absurd he hsne
    · rw [List.concat_eq_append] at he
      rw [if_pos ⟨h1, h2⟩, moveCard_concat stock waste rest top he]
      refine ⟨_, _, _, rfl, rfl, ?_, ?_, ?_⟩
      · left
        simp
      · intro _ _
        refine ⟨rest, top, he, by simp [Pile.Peek, he], rfl, by simp [hwe], ?_, by simp [hwe]⟩
        simp [he]
      · intro hn
        exact absurd ⟨hwe, hsne⟩ hn
  · rw [if_neg hc]
    refine ⟨ft, stock, waste, rfl, hw, ?_, ?_, ?_⟩
    · by_cases h1 : waste.cards = []
      · right
        by_contra h2
        apply hc
        exact ⟨by simp [Pile.Len, h1], by simpa [Pile.Len] using h2⟩
      · left
        exact h1
    · intro h1 h2
      exfalso
      apply hc
      exact ⟨by simp [Pile.Len, h1], by simpa [Pile.Len] using h2⟩
    · intro _
      exact ⟨rfl, rfl, rfl⟩

theorem fortyThieves_afterMove_refill_witness :
    fortyThievesGame.waste = some NewWaste ∧
    ∃ ft1 stock1 waste1,
      FortyThieves.AfterMove fortyThievesGame (fullStock 2) = some (ft1, stock1) ∧
      ft1.waste = some waste1 ∧ waste1.cards = [NewCard 1 4 13] ∧
      stock1.cards.length = 103 := by
  obtain ⟨ft1, stock1, waste1, h1, h2, _, h4, _⟩ :=
    fortyThieves_afterMove_refill fortyThievesGame (fullStock 2) NewWaste rfl
  obtain ⟨rest, top, he, hp, hs, hw, hl, _⟩ := h4 rfl (by decide)
  have htop : top = NewCard 1 4 13 := by
    have hpk : (fullStock 2).Peek = some (NewCard 1 4 13) := by decide
    rw [hpk] at hp
    exact (Option.some.inj hp).symm
  refine ⟨rfl, ft1, stock1, waste1, h1, h2, by rw [hw, htop], ?_⟩
  have hlen : (fullStock 2).cards.length = 104 := by decide
  omega

/-! ## Flipping a card -/

theorem setProne_prone (c : Card) (prone : Bool) : (c.SetProne prone).Prone = prone := rfl

theorem flipUp_prone (c : Card) : c.FlipUp.Prone = false := by
  unfold Card.FlipUp
  by_cases h : c.Prone = true
  · rw [if_pos h]
    rfl
  · rw [if_neg h]
    simpa using h

theorem flipDown_prone (c : Card) : c.FlipDown.Prone = true := by
  unfold Card.FlipDown
  by_cases h : c.Prone = true
  · simp [h]
  · have h1 : c.Prone = false := by simpa using h
    simp [h1, setProne_prone]

theorem flip_prone (c : Card) : c.Flip.Prone = !c.Prone := by
  unfold Card.Flip
  by_cases h : c.Prone = true
  · rw [if_pos h, flipUp_prone, h]
    rfl
  · have h1 : c.Prone = false := by simpa using h
    rw [if_neg h, flipDown_prone, h1]
    rfl

/-- The identity of a card: pack, suit and ordinal. -/
theorem flips_keep_identity (c : Card) :
    (c.FlipUp.ID.pack = c.ID.pack ∧ c.FlipUp.ID.suit = c.ID.suit ∧
      c.FlipUp.ID.ordinal = c.ID.ordinal) ∧
    (c.FlipDown.ID.pack = c.ID.pack ∧ c.FlipDown.ID.suit = c.ID.suit ∧
      c.FlipDown.ID.ordinal = c.ID.ordinal) := by
  constructor
  · unfold Card.FlipUp
    split_ifs <;> exact ⟨rfl, rfl, rfl⟩
  · unfold Card.FlipDown
    split_ifs <;> exact ⟨rfl, rfl, rfl⟩

/-- C22. Flip toggles the face state: for every card, after Flip the value of
Prone is the negation of its value before, and Flip applied twice restores the
original face state (with the identifier, the original card); FlipUp always leaves the card
face up and FlipDown face down, each idempotent; SetFlip(p) leaves Prone equal
to p whatever the prior state; a card made by NewCard is face down and has the
pack, suit and ordinal it was made with; and none of Flip, FlipUp, FlipDown and
SetFlip changes the pack, suit or ordinal of the card. -/
theorem flip_toggles_face (c : Card) :
    c.Flip.Prone = !c.Prone ∧
    c.Flip.Flip.Prone = c.Prone ∧ c.Flip.Flip = c ∧
    c.FlipUp.Prone = false ∧ c.FlipDown.Prone = true ∧
    c.FlipUp.FlipUp = c.FlipUp ∧ c.FlipDown.FlipDown = c.FlipDown ∧
    (∀ p : Bool, (c.SetFlip p).Prone = p) ∧
    (∀ pack suit ordinal : Nat, (NewCard pack suit ordinal).Prone = true ∧
      (NewCard pack suit ordinal).ID.pack = pack ∧ (NewCard pack suit ordinal).ID.suit = suit ∧
      (NewCard pack suit ordinal).ID.ordinal = ordinal) ∧
    (c.Flip.ID.pack = c.ID.pack ∧ c.Flip.ID.suit = c.ID.suit ∧
      c.Flip.ID.ordinal = c.ID.ordinal) ∧
    (c.FlipUp.ID.pack = c.ID.pack ∧ c.FlipUp.ID.suit = c.ID.suit ∧
      c.FlipUp.ID.ordinal = c.ID.ordinal) ∧
    (c.FlipDown.ID.pack = c.ID.pack ∧ c.FlipDown.ID.suit = c.ID.suit ∧
      c.FlipDown.ID.ordinal = c.ID.ordinal) ∧
    (∀ p : Bool, (c.SetFlip p).ID.pack = c.ID.pack ∧ (c.SetFlip p).ID.suit = c.ID.suit ∧
      (c.SetFlip p).ID.ordinal = c.ID.ordinal) := by
  have hid := flips_keep_identity c
  have hflipid : c.Flip.ID.pack = c.ID.pack ∧ c.Flip.ID.suit = c.ID.suit ∧
      c.Flip.ID.ordinal = c.ID.ordinal := by
    unfold Card.Flip
    split_ifs
    · exact hid.1
    · exact hid.2
  have hff : c.Flip.Flip = c := by
    obtain ⟨⟨pack, suit, ordinal, prone⟩⟩ := c
    cases prone <;> rfl
  refine ⟨flip_prone c, ?_, hff, flipUp_prone c, flipDown_prone c, ?_, ?_, ?_, ?_, hflipid,
    hid.1, hid.2, ?_⟩
  · rw [hff]
  · obtain ⟨⟨pack, suit, ordinal, prone⟩⟩ := c
    cases prone <;> rfl
  · obtain ⟨⟨pack, suit, ordinal, prone⟩⟩ := c
    cases prone <;> rfl
  · intro p
    cases p
    · simp only [Card.SetFlip, Bool.false_eq_true, if_false]
      exact flipUp_prone c
    · simp only [Card.SetFlip, if_true]
      exact flipDown_prone c
  · intro pack suit ordinal
    exact ⟨rfl, rfl, rfl, rfl⟩
  · intro p
    cases p
    · simp only [Card.SetFlip, Bool.false_eq_true, if_false]
      exact hid.1
    · simp only [Card.SetFlip, if_true]
      exact hid.2

/-! ## The picker lists -/

theorem sortNames_sorted (vnames : List String) :
    (sortNames vnames).Sorted (fun a b => a ≤ b) :=
  List.sorted_insertionSort (fun a b => a ≤ b) vnames

theorem sortNames_perm (vnames : List String) : (sortNames vnames).Perm vnames :=
  List.perm_insertionSort (fun a b => a ≤ b) vnames

/-- The sorted outcome does not depend on the order the names came in. -/
theorem sortNames_of_perm (a b : List String) (h : a.Perm b) : sortNames a = sortNames b := by
  apply List.eq_of_perm_of_sorted (r := fun a b => a ≤ b)
  · exact (sortNames_perm a).trans (h.trans (sortNames_perm b).symm)
  · exact sortNames_sorted a
  · exact sortNames_sorted b

theorem nameMap_get_absent (m : NameMap) (key : String) (h : key ∉ m.keys) :
    m.get key = [] := by
  induction m with
  | nil => rfl
  | cons kv rest ih =>
    obtain ⟨k, v⟩ := kv
    simp only [NameMap.keys, List.map_cons, List.mem_cons, not_or] at h
    have hk : ¬ k = key := fun e => h.1 e.symm
    simp only [NameMap.get, hk, if_false]
    exact ih h.2

/-- C23. Sorted picker lists: for every map of groups (each key held once) and
every group name g, VariantNames(g) is in ascending string order and is a
permutation of VariantGroups[g], the empty list when g is not a group, and the
map is after the call what it was before; for every order in which the run
time yields the keys, VariantGroupNames() is in ascending order, strictly, and
contains every key of VariantGroups exactly once and nothing else. -/
theorem sorted_picker_lists (groups : NameMap) (hnd : groups.keys.Nodup) :
    (∀ g : String,
      (VariantNames groups g).1.Sorted (fun a b => a ≤ b) ∧
      (VariantNames groups g).1.Perm (groups.get g) ∧
      (g ∉ groups.keys → (VariantNames groups g).1 = []) ∧
      (VariantNames groups g).2 = groups ∧
      (VariantNames groups g).2.get g = groups.get g) ∧
    (∀ order : List String, order.Perm groups.keys →
      (VariantGroupNames order).Sorted (fun a b => a ≤ b) ∧
      (VariantGroupNames order).Sorted (fun a b => a < b) ∧
      (∀ k ∈ groups.keys, (VariantGroupNames order).count k = 1) ∧
      (∀ k, k ∉ groups.keys → (VariantGroupNames order).count k = 0)) := by
  constructor
  · intro g
    refine ⟨sortNames_sorted _, ?_, ?_, rfl, rfl⟩
    · simpa [VariantNames] using sortNames_perm (groups.get g)
    · intro h
      simp [VariantNames, nameMap_get_absent groups g h, sortNames]
  · intro order hp
    have hperm : (VariantGroupNames order).Perm groups.keys := (sortNames_perm order).trans hp
    have hnd2 : (VariantGroupNames order).Nodup := hperm.nodup_iff.mpr hnd
    have hs : (VariantGroupNames order).Sorted (fun a b => a ≤ b) := sortNames_sorted order
    refine ⟨hs, hs.lt_of_le hnd2, ?_, ?_⟩
    · intro k hk
      rw [hperm.count_eq]
      exact List.count_eq_one_of_mem hnd hk
    · intro k hk
      rw [hperm.count_eq]
      exact List.count_eq_zero_of_not_mem hk

theorem sorted_picker_lists_witness :
    VariantGroups.keys.Nodup ∧
    (VariantNames VariantGroups "> Yukon").1.Perm ["Yukon", "Yukon Cells"] ∧
    (VariantNames VariantGroups "> None").1 = [] ∧
    (VariantGroupNames VariantGroups.keys.reverse).count "> Spider" = 1 :=
  ⟨by decide,
   ((sorted_picker_lists VariantGroups (by decide)).1 "> Yukon").2.1,
   ((sorted_picker_lists VariantGroups (by decide)).1 "> None").2.2.1 (by decide),
   ((sorted_picker_lists VariantGroups (by decide)).2 VariantGroups.keys.reverse
      (List.reverse_perm _)).2.2.1 "> Spider" (by decide)⟩

/-! ## The registry -/

theorem variants_nodup : Variants.Nodup := by decide

theorem variantGroups_names_in_variants :
    ∀ kv ∈ VariantGroups, ∀ n ∈ kv.2, n ∈ Variants := by decide

theorem init_variantGroups (order : List String) :
    init order VariantGroups = VariantGroups ++ [("> All", sortNames order)] := by
  simp [init, VariantGroups, NameMap.set]

theorem init_get_all (order : List String) :
    (init order VariantGroups).get "> All" = sortNames order := by
  rw [init_variantGroups]
  simp [VariantGroups, NameMap.get]

/-- C29. Registry consistency: whatever order the run time yields the keys of
Variants in, after init every variant name listed in any group of
VariantGroups, the group "> All" included, is a key of the Variants catalog;
and "> All" lists every key of Variants exactly once, and nothing else, in
ascending order. -/
theorem registry_consistency (order : List String) (hp : order.Perm Variants) :
    (∀ kv ∈ init order VariantGroups, ∀ n ∈ kv.2, n ∈ Variants) ∧
    "> All" ∈ (init order VariantGroups).keys ∧
    ((init order VariantGroups).get "> All").Sorted (fun a b => a < b) ∧
    (∀ k ∈ Variants, ((init order VariantGroups).get "> All").count k = 1) ∧
    (∀ k, k ∉ Variants → ((init order VariantGroups).get "> All").count k = 0) := by
  have hperm : (sortNames order).Perm Variants := (sortNames_perm order).trans hp
  have hnd : (sortNames order).Nodup := hperm.nodup_iff.mpr variants_nodup
  refine ⟨?_, ?_, ?_, ?_, ?_⟩
  · intro kv hkv n hn
    rw [init_variantGroups, List.mem_append] at hkv
    rcases hkv with h | h
    · exact variantGroups_names_in_variants kv h n hn
    · rw [List.mem_singleton] at h
      subst h
      exact hperm.mem_iff.mp hn
  · rw [init_variantGroups]
    simp [NameMap.keys]
  · rw [init_get_all]
    exact (sortNames_sorted order).lt_of_le hnd
  · intro k hk
    rw [init_get_all, hperm.count_eq]
    exact List.count_eq_one_of_mem variants_nodup hk
  · intro k hk
    rw [init_get_all, hperm.count_eq]
    exact List.count_eq_zero_of_not_mem hk

theorem registry_consistency_witness :
    Variants.reverse.Perm Variants ∧
    ((init Variants.reverse VariantGroups).get "> All").count "Simple Simon" = 1 ∧
    ((init Variants.reverse VariantGroups).get "> All").Sorted (fun a b => a < b) :=
  ⟨List.reverse_perm _,
   (registry_consistency Variants.reverse (List.reverse_perm _)).2.2.2.1 "Simple Simon"
     (by decide),
   (registry_consistency Variants.reverse (List.reverse_perm _)).2.2.1⟩

/-! ## More on recycling -/

/-- C25. A recycle is spent even when there is nothing to recycle: if the
recycle counter is positive and the waste is empty, RecycleWasteToStock
returns with the stock and the waste unchanged and the counter one less. -/
theorem recycle_spent_on_empty_waste (recycles : Int) (waste stock : Pile)
    (h : recycles > 0) (he : waste.cards = []) :
    ∃ out, RecycleWasteToStock recycles waste stock = some out ∧
      out.waste = waste ∧ out.stock = stock ∧ out.recycles = recycles - 1 := by
  obtain ⟨out, hout, hw, hs, hr⟩ := recycle_pos recycles waste stock h
  refine ⟨out, hout, ?_, ?_, hr⟩
  · rw [hw]
    obtain ⟨cat, sub, lab, cards⟩ := waste
    simp only at he
    subst he
    rfl
  · rw [hs, he]
    simp

theorem recycle_spent_on_empty_waste_witness :
    (1 : Int) > 0 ∧ NewWaste.cards = [] ∧
    ∃ out, RecycleWasteToStock 1 NewWaste exampleStock = some out ∧
      out.waste = NewWaste ∧ out.stock = exampleStock ∧ out.recycles = 1 - 1 :=
  ⟨by decide, rfl, recycle_spent_on_empty_waste 1 NewWaste exampleStock (by decide) rfl⟩

/-- C26. Recycle order convention: with a positive counter, after
RecycleWasteToStock the stock is its previous contents, bottom to top, followed
by the cards of the waste in reverse order; so the card that was on top of the
waste lies lowest among the returned cards, right above the old stock, and the
card that was at the bottom of the waste is the top card of the stock. -/
theorem recycle_order (recycles : Int) (waste stock : Pile) (h : recycles > 0) :
    ∃ out, RecycleWasteToStock recycles waste stock = some out ∧
      out.stock.cards = stock.cards ++ waste.cards.reverse ∧
      (∀ top, waste.Peek = some top → out.stock.cards[stock.cards.length]? = some top) ∧
      (∀ bottom, waste.cards.head? = some bottom → out.stock.Peek = some bottom) := by
  obtain ⟨out, hout, _, hs, _⟩ := recycle_pos recycles waste stock h
  have hcards : out.stock.cards = stock.cards ++ waste.cards.reverse := by rw [hs]
  refine ⟨out, hout, hcards, ?_, ?_⟩
  · intro top ht
    rw [hcards, List.getElem?_append_right (Nat.le_refl _), Nat.sub_self]
    simp only [Pile.Peek] at ht
    rw [← List.head?_eq_getElem?, List.head?_reverse]
    exact ht
  · intro bottom hb
    simp only [Pile.Peek, hcards]
    cases hw : waste.cards with
    | nil => simp [hw] at hb
    | cons b rest =>
      rw [hw] at hb
      simp only [List.head?_cons, Option.some.injEq] at hb
      subst hb
      simp

theorem recycle_order_witness :
    (2 : Int) > 0 ∧
    ∃ out, RecycleWasteToStock 2 exampleWaste exampleStock = some out ∧
      out.stock.cards = [NewCard 1 3 12, faceUpCard 0 2 9, faceUpCard 0 1 5] := by
  obtain ⟨out, hout, hc, _⟩ := recycle_order 2 exampleWaste exampleStock (by decide)
  exact ⟨by decide, out, hout, by rw [hc]; rfl⟩

/-! ## Index safety and the default of Simple Simon -/

/-- C28. The append predicate of Simple Simon accepts by default: for every
tail, empty or not, and every destination pile whose category is neither
"Discard" nor "Tableau", whatever it holds, SimpleSimon.TailAppendError returns
(true, nil). -/
theorem simpleSimon_accepts_by_default (dst : Pile) (tail : List Card)
    (hd : dst.category ≠ "Discard") (ht : dst.category ≠ "Tableau") :
    SimpleSimon.TailAppendError dst tail = some (true, none) := by
  simp [SimpleSimon.TailAppendError, hd, ht]

theorem simpleSimon_accepts_by_default_witness :
    exampleCell.category ≠ "Discard" ∧ exampleCell.category ≠ "Tableau" ∧
    SimpleSimon.TailAppendError exampleCell [NewCard 0 1 2, faceUpCard 0 4 9] =
      some (true, none) ∧
    SimpleSimon.TailAppendError (fullStock 1) [] = some (true, none) :=
  ⟨by decide, by decide,
   simpleSimon_accepts_by_default exampleCell [NewCard 0 1 2, faceUpCard 0 4 9]
     (by decide) (by decide),
   simpleSimon_accepts_by_default (fullStock 1) [] (by decide) (by decide)⟩

/-- Foundation.CanAcceptTail answers whenever the script has a foundation to
divide by and its append predicate answers. -/
theorem canAcceptTail_returns (script : Scripter) (lib : Nat) (f : Pile) (tail : List Card)
    (hf : script.Foundations ≠ [])
    (hs : ∃ v, script.TailAppendError f tail = some v) :
    ∃ v, Foundation.CanAcceptTail script lib f tail = some v := by
  unfold Foundation.CanAcceptTail
  split_ifs
  · exact ⟨_, rfl⟩
  · exact ⟨_, rfl⟩
  · have hlen : script.Foundations.length ≠ 0 := by
      simpa using hf
    simp only [Foundation.Complete, hlen, if_false]
    cases (f.Len == lib / script.Foundations.length)
    · exact hs
    · exact ⟨_, rfl⟩

/-- C27. Index safety of the legality predicates: for every non-empty tail and
every destination pile, empty or not, TailAppendError of FortyThieves and of
SimpleSimon answer, so no read falls outside the tail and dst.Peek() is never
reached on an empty pile; so does Foundation.CanAcceptTail under either
variant once the variant has a foundation to divide by. A missing answer of
either TailAppendError means the tail is empty; FortyThieves.TailAppendError
has no answer for the empty tail on a Foundation; and Foundation.CanAcceptTail
hands the empty tail on to the variant as soon as the foundation is not
complete, so under FortyThieves it has no answer there. -/
theorem tail_index_safety (dst : Pile) (tail : List Card) :
    (tail ≠ [] →
      (∃ v, FortyThieves.TailAppendError dst tail = some v) ∧
      (∃ v, SimpleSimon.TailAppendError dst tail = some v)) ∧
    (FortyThieves.TailAppendError dst tail = none → tail = []) ∧
    (SimpleSimon.TailAppendError dst tail = none → tail = []) ∧
    (∀ (ft : FortyThieves) (lib : Nat), tail ≠ [] → ft.foundations ≠ [] →
      ∃ v, Foundation.CanAcceptTail ft.asScripter lib dst tail = some v) ∧
    (∀ (self : SimpleSimon) (lib : Nat), tail ≠ [] → self.foundations ≠ [] →
      ∃ v, Foundation.CanAcceptTail self.asScripter lib dst tail = some v) ∧
    (dst.subtype = PileSubtype.Foundation → FortyThieves.TailAppendError dst [] = none) ∧
    (∀ (script : Scripter) (lib : Nat), Foundation.Complete script lib dst = some false →
      Foundation.CanAcceptTail script lib dst [] = script.TailAppendError dst []) ∧
    (∀ (ft : FortyThieves) (lib : Nat), dst.subtype = PileSubtype.Foundation →
      Foundation.Complete ft.asScripter lib dst = some false →
      Foundation.CanAcceptTail ft.asScripter lib dst [] = none) := by
  have hnil : dst.subtype = PileSubtype.Foundation →
      FortyThieves.TailAppendError dst [] = none := by
    intro hf
    simp only [FortyThieves.TailAppendError, hf, List.head?_nil]
    split <;> simp
  have hdel : ∀ (script : Scripter) (lib : Nat),
      Foundation.Complete script lib dst = some false →
      Foundation.CanAcceptTail script lib dst [] = script.TailAppendError dst [] := by
    intro script lib hc
    exact canAcceptTail_of_checks script lib dst [] (by simp) (by simp [AnyCardsProne]) hc
  refine ⟨?_, ?_, ?_, ?_, ?_, hnil, hdel, ?_⟩
  · intro hne
    exact ⟨fortyThieves_tailAppendError_returns dst tail hne,
      simpleSimon_tailAppendError_returns dst tail hne⟩
  · intro h
    by_contra hne
    obtain ⟨v, hv⟩ := fortyThieves_tailAppendError_returns dst tail hne
    rw [h] at hv
    cases hv
  · intro h
    by_contra hne
    obtain ⟨v, hv⟩ := simpleSimon_tailAppendError_returns dst tail hne
    rw [h] at hv
    cases hv
  · intro ft lib hne hf
    exact canAcceptTail_returns ft.asScripter lib dst tail hf
      (fortyThieves_tailAppendError_returns dst tail hne)
  · intro self lib hne hf
    exact canAcceptTail_returns self.asScripter lib dst tail hf
      (simpleSimon_tailAppendError_returns dst tail hne)
  · intro ft lib hf hc
    rw [hdel ft.asScripter lib hc]
    exact hnil hf

theorem tail_index_safety_witness :
    [faceUpCard 0 2 8] ≠ [] ∧
    (∃ v, FortyThieves.TailAppendError NewTableau [faceUpCard 0 2 8] = some v) ∧
    (∃ v, Foundation.CanAcceptTail fortyThievesGame.asScripter 104 NewFoundation
      [faceUpCard 0 2 8] = some v) ∧
    Foundation.CanAcceptTail fortyThievesGame.asScripter 104 NewFoundation [] = none :=
  ⟨by decide,
   ((tail_index_safety NewTableau [faceUpCard 0 2 8]).1 (by decide)).1,
   (tail_index_safety NewFoundation [faceUpCard 0 2 8]).2.2.2.1 fortyThievesGame 104
     (by decide) (by decide),
   (tail_index_safety NewFoundation []).2.2.2.2.2.2.2 fortyThievesGame 104 rfl (by decide)⟩

/-! ## The deal of Simple Simon -/

theorem dealCards_sizes (n : Nat) : ∀ (stock pile : Pile), n ≤ stock.cards.length →
    ∃ stock1 pile1, dealCards n stock pile = some (stock1, pile1) ∧
      stock1.cards.length = stock.cards.length - n ∧
      pile1.cards.length = pile.cards.length + n := by
  induction n with
  | zero =>
    intro stock pile _
    exact ⟨stock, pile, rfl, rfl, rfl⟩
  | succ n ih =>
    intro stock pile hn
    rcases List.eq_nil_or_concat stock.cards with he | ⟨rest, top, he⟩
    · rw [he] at hn
      simp at hn
    · rw [List.concat_eq_append] at he
      have hlen : stock.cards.length = rest.length + 1 := by simp [he]
      obtain ⟨stock1, pile1, hd, h1, h2⟩ :=
        ih { stock with cards := rest } { pile with cards := pile.cards ++ [top] }
          (by simp only; omega)
      refine ⟨stock1, pile1, ?_, ?_, ?_⟩
      · simp only [dealCards, moveCard_concat stock pile rest top he]
        exact hd
      · simp only at h1
        omega
      · simp only [List.length_append, List.length_singleton] at h2
        omega

theorem simpleSimon_dealTo_sizes (self : SimpleSimon) (i n st size : Nat) (sizes : List Nat)
    (hs : self.sizes = (some st, sizes)) (hi : sizes.get? i = some size) (hn : n ≤ st) :
    ∃ self1, SimpleSimon.StartGame.dealTo self i n = some self1 ∧
      self1.sizes = (some (st - n), sizes.set i (size + n)) := by
  simp only [SimpleSimon.sizes, Prod.mk.injEq] at hs
  obtain ⟨hstock, htabs⟩ := hs
  cases hst : self.stock with
  | none => simp [hst] at hstock
  | some stock =>
    simp only [hst, Option.map_some', Option.some.injEq] at hstock
    subst htabs
    rw [List.get?_eq_getElem?, List.getElem?_map] at hi
    cases hp : self.tableaux[i]? with
    | none =>
      rw [hp] at hi
      cases hi
    | some pile =>
      rw [hp] at hi
      simp only [Option.map_some', Option.some.injEq] at hi
      obtain ⟨stock1, pile1, hd, h1, h2⟩ :=
        dealCards_sizes n stock pile (by simp only [Pile.Len] at hstock; omega)
      refine ⟨{ self with stock := some stock1, tableaux := self.tableaux.set i pile1 }, ?_, ?_⟩
      · unfold SimpleSimon.StartGame.dealTo
        rw [List.get?_eq_getElem?, hp]
        simp only [hst, hd]
      · simp only [SimpleSimon.sizes, Option.map_some', Prod.mk.injEq, Option.some.injEq]
        constructor
        · simp only [Pile.Len] at hstock ⊢
          omega
        · rw [List.map_set]
          congr 1
          simp only [Pile.Len] at hi ⊢
          omega

theorem pilesCards_length (piles : List Pile) :
    (pilesCards piles).length = (piles.map Pile.Len).sum := by
  induction piles with
  | nil => rfl
  | cons p rest ih => simp [pilesCards, ih, Pile.Len]

/-- One turn of the second loop of SimpleSimon.StartGame. -/
theorem simpleSimon_second_step (count i : Nat) (deal : Int) (self self1 : SimpleSimon)
    (h : SimpleSimon.StartGame.dealTo self i deal.toNat = some self1) :
    SimpleSimon.StartGame.second (count + 1) i deal self =
      SimpleSimon.StartGame.second count (i + 1) (deal - 1) self1 := by
  simp only [SimpleSimon.StartGame.second, h]

/-- C24. Simple Simon deal: starting from a stock of exactly 52 cards and the
10 empty tableaux made by BuildPiles, SimpleSimon.StartGame returns, so every
index it uses into the tableau list is in range, and leaves the tableaux with
8, 8, 8, 7, 6, 5, 4, 3, 2, 1 cards in that order and the stock empty; stock and
tableaux together still hold 52 cards. -/
theorem simpleSimon_deal (newStock : Pile) (self : SimpleSimon)
    (h52 : newStock.cards.length = 52) :
    (SimpleSimon.BuildPiles newStock self).tableaux.length = 10 ∧
    (∀ t ∈ (SimpleSimon.BuildPiles newStock self).tableaux, t.cards = []) ∧
    ∃ dealt stock1,
      SimpleSimon.StartGame (SimpleSimon.BuildPiles newStock self) = some dealt ∧
      dealt.tableaux.map Pile.Len = [8, 8, 8, 7, 6, 5, 4, 3, 2, 1] ∧
      dealt.stock = some stock1 ∧ stock1.cards = [] ∧
      (pilesCards dealt.tableaux).length + stock1.cards.length = 52 := by
  have htabs : (SimpleSimon.BuildPiles newStock self).tableaux = List.replicate 10 NewTableau := by
    simp [SimpleSimon.BuildPiles, appendPiles_eq]
  have z0 : (SimpleSimon.BuildPiles newStock self).sizes =
      (some 52, [0, 0, 0, 0, 0, 0, 0, 0, 0, 0]) := by
    simp only [SimpleSimon.sizes, htabs]
    simp [SimpleSimon.BuildPiles, Pile.Len, h52, NewTableau]
  obtain ⟨s1, h1, z1⟩ := simpleSimon_dealTo_sizes _ 0 8 52 0 _ z0 rfl (by omega)
  obtain ⟨s2, h2, z2⟩ := simpleSimon_dealTo_sizes _ 1 8 44 0 _ z1 rfl (by omega)
  obtain ⟨s3, h3, z3⟩ := simpleSimon_dealTo_sizes _ 2 8 36 0 _ z2 rfl (by omega)
  obtain ⟨s4, h4, z4⟩ := simpleSimon_dealTo_sizes _ 3 7 28 0 _ z3 rfl (by omega)
  obtain ⟨s5, h5, z5⟩ := simpleSimon_dealTo_sizes _ 4 6 21 0 _ z4 rfl (by omega)
  obtain ⟨s6, h6, z6⟩ := simpleSimon_dealTo_sizes _ 5 5 15 0 _ z5 rfl (by omega)
  obtain ⟨s7, h7, z7⟩ := simpleSimon_dealTo_sizes _ 6 4 10 0 _ z6 rfl (by omega)
  obtain ⟨s8, h8, z8⟩ := simpleSimon_dealTo_sizes _ 7 3 6 0 _ z7 rfl (by omega)
  obtain ⟨s9, h9, z9⟩ := simpleSimon_dealTo_sizes _ 8 2 3 0 _ z8 rfl (by omega)
  obtain ⟨s10, h10, z10⟩ := simpleSimon_dealTo_sizes _ 9 1 1 0 _ z9 rfl (by omega)
  have hfirst : SimpleSimon.StartGame.first 3 0 (SimpleSimon.BuildPiles newStock self) =
      some s3 := by
    simp only [SimpleSimon.StartGame.first]
    rw [h1]
    simp only
    rw [h2]
    simp only
    rw [h3]
  have e4 : SimpleSimon.StartGame.second 7 3 7 s3 = SimpleSimon.StartGame.second 6 4 6 s4 :=
    simpleSimon_second_step 6 3 7 s3 s4 h4
  have e5 : SimpleSimon.StartGame.second 6 4 6 s4 = SimpleSimon.StartGame.second 5 5 5 s5 :=
    simpleSimon_second_step 5 4 6 s4 s5 h5
  have e6 : SimpleSimon.StartGame.second 5 5 5 s5 = SimpleSimon.StartGame.second 4 6 4 s6 :=
    simpleSimon_second_step 4 5 5 s5 s6 h6
  have e7 : SimpleSimon.StartGame.second 4 6 4 s6 = SimpleSimon.StartGame.second 3 7 3 s7 :=
    simpleSimon_second_step 3 6 4 s6 s7 h7
  have e8 : SimpleSimon.StartGame.second 3 7 3 s7 = SimpleSimon.StartGame.second 2 8 2 s8 :=
    simpleSimon_second_step 2 7 3 s7 s8 h8
  have e9 : SimpleSimon.StartGame.second 2 8 2 s8 = SimpleSimon.StartGame.second 1 9 1 s9 :=
    simpleSimon_second_step 1 8 2 s8 s9 h9
  have e10 : SimpleSimon.StartGame.second 1 9 1 s9 = SimpleSimon.StartGame.second 0 10 0 s10 :=
    simpleSimon_second_step 0 9 1 s9 s10 h10
  have hsecond : SimpleSimon.StartGame.second 7 3 7 s3 = some s10 := by
    rw [e4, e5, e6, e7, e8, e9, e10]
    rfl
  have hstart : SimpleSimon.StartGame (SimpleSimon.BuildPiles newStock self) = some s10 := by
    simp only [SimpleSimon.StartGame, hfirst, hsecond]
  simp only [SimpleSimon.sizes, Prod.mk.injEq] at z10
  obtain ⟨zs, zt⟩ := z10
  cases hst : s10.stock with
  | none => simp [hst] at zs
  | some stock1 =>
    simp only [hst, Option.map_some', Option.some.injEq, Pile.Len] at zs
    have hempty : stock1.cards = [] := List.length_eq_zero.mp zs
    refine ⟨by simp [htabs], ?_, s10, stock1, hstart, zt, hst, hempty, ?_⟩
    · intro t ht
      rw [htabs] at ht
      rw [List.eq_of_mem_replicate ht]
      rfl
    · rw [pilesCards_length, zt, hempty]
      rfl

theorem simpleSimon_deal_witness :
    (fullStock 1).cards.length = 52 ∧
    ∃ dealt stock1,
      SimpleSimon.StartGame (SimpleSimon.BuildPiles (fullStock 1) simpleSimonGame) =
        some dealt ∧
      dealt.tableaux.map Pile.Len = [8, 8, 8, 7, 6, 5, 4, 3, 2, 1] ∧
      dealt.stock = some stock1 ∧ stock1.cards = [] ∧
      (pilesCards dealt.tableaux).length + stock1.cards.length = 52 :=
  ⟨rfl, (simpleSimon_deal (fullStock 1) simpleSimonGame rfl).2.2⟩

end Sol
